import Mathlib

/-!
Space Invaders: the game-state core of `main.c`.

A shallow embedding of the simulation core of `src/main.c` (the functions
`InitializeGame`, `InitializeLevel`, `InitializeShields`, `UpdateGame`,
`MovePlayer`, `FirePlayerBullet`, `FireAlienBullet`, `MoveAliens`,
`CheckCollisions`, `CreateExplosion` and the key handling of `WindowProc`),
followed by theorems about it.

Conventions of the embedding.

* The global `game` becomes an explicit value of type `Game`; every C function
  that mutates it becomes a function `Game → Game`.
* C `int` is `Int`. Every quantity of the game stays far inside the 32-bit
  range, and signed overflow has no defined result in C, so no wrap-around is
  modelled.
* A C array of size `n` is a function out of `Fin n`; index bounds are
  therefore part of the type. `aliens[row][col]` is `g.aliens row col`,
  `blocks[x][y]` is `(g.shields s).blocks x y`.
* A `for` loop without early exit is `forFin n body`; a loop left by `break`
  or `return` is a recursive function over the list of its indices.
* Successive assignments to `game` are successive local states, each bound by
  `have g : Game := ...`.
* `rand()` is an oracle `rand : Nat → Nat`: `rand k` is the value of the
  `k`-th call made inside one `FireAlienBullet`.
* The only floating-point expressions, the three constant products of the
  shield arch test, are evaluated in IEEE-754 binary64 with round to nearest,
  ties to even (`Binary64`).
* The window handle `hwnd` and all drawing code are left out: they never
  write to the game state.
-/

namespace SpaceInvaders

/-! ## Constants (`#define`s of `main.c`) -/

@[reducible, simp] def WINDOW_WIDTH : Int := 800
@[reducible, simp] def WINDOW_HEIGHT : Int := 600
@[reducible, simp] def PLAYER_WIDTH : Int := 60
@[reducible, simp] def PLAYER_HEIGHT : Int := 40
@[reducible, simp] def PLAYER_SPEED : Int := 8
@[reducible, simp] def PLAYER_BULLET_SPEED : Int := 12
@[reducible, simp] def ALIEN_WIDTH : Int := 40
@[reducible, simp] def ALIEN_HEIGHT : Int := 40
@[reducible, simp] def ALIEN_SPACING_H : Int := 20
@[reducible, simp] def ALIEN_SPACING_V : Int := 15
@[reducible, simp] def ALIEN_BULLET_SPEED : Int := 6
@[reducible, simp] def ALIEN_MOVE_SPEED : Int := 2
@[reducible, simp] def SHIELD_COUNT : Int := 4
@[reducible, simp] def SHIELD_WIDTH : Int := 80
@[reducible, simp] def SHIELD_HEIGHT : Int := 60
@[reducible, simp] def SHIELD_BLOCK_SIZE : Int := 8
@[reducible, simp] def EXPLOSION_FRAMES : Int := 8
@[reducible, simp] def EXPLOSION_DURATION : Int := 4

/-- Row index of the alien grid: `ALIEN_ROWS` is 5. -/
abbrev Row := Fin 5
/-- Column index of the alien grid: `ALIEN_COLS` is 11. -/
abbrev Col := Fin 11
/-- Slot index of the player bullets: `MAX_PLAYER_BULLETS` is 3. -/
abbrev PSlot := Fin 3
/-- Slot index of the alien bullets: `MAX_ALIEN_BULLETS` is 8. -/
abbrev ASlot := Fin 8
/-- Index of a shield: `SHIELD_COUNT` is 4. -/
abbrev SIdx := Fin 4
/-- First index of `blocks`: `SHIELD_WIDTH/SHIELD_BLOCK_SIZE` is 10. -/
abbrev BX := Fin 10
/-- Second index of `blocks`: `SHIELD_HEIGHT/SHIELD_BLOCK_SIZE` is 7 (integer division). -/
abbrev BY := Fin 7
/-- Slot index of the explosions: the array has 20 entries. -/
abbrev ESlot := Fin 20

/-! ## Data model -/

inductive GameState where
  | GAME_MENU
  | GAME_PLAYING
  | GAME_OVER
  | GAME_WIN
deriving DecidableEq, Repr

inductive Direction where
  | DIR_LEFT
  | DIR_RIGHT
deriving DecidableEq, Repr

structure Bullet where
  x : Int
  y : Int
  active : Bool
deriving DecidableEq, Repr

structure Alien where
  x : Int
  y : Int
  type : Int
  alive : Bool
deriving DecidableEq, Repr

structure ShieldBlock where
  x : Int
  y : Int
  active : Bool
deriving DecidableEq, Repr

structure Shield where
  x : Int
  y : Int
  blocks : BX → BY → ShieldBlock

structure Explosion where
  x : Int
  y : Int
  frame : Int
  timer : Int
  active : Bool
deriving DecidableEq, Repr

structure Game where
  playerX : Int
  playerY : Int
  playerLives : Int
  playerBullets : PSlot → Bullet
  aliens : Row → Col → Alien
  alienCount : Int
  alienDirection : Direction
  alienMoveTimer : Int
  alienMoveDelay : Int
  alienDropDistance : Int
  alienBullets : ASlot → Bullet
  alienShootTimer : Int
  alienShootDelay : Int
  shields : SIdx → Shield
  explosions : ESlot → Explosion
  state : GameState
  score : Int
  level : Int
  gameOverTimer : Int

/-- The zero-initialised global `Game game;` as it is before `WinMain` runs. -/
def zeroGame : Game where
  playerX := 0
  playerY := 0
  playerLives := 0
  playerBullets := fun _ => ⟨0, 0, false⟩
  aliens := fun _ _ => ⟨0, 0, 0, false⟩
  alienCount := 0
  alienDirection := .DIR_LEFT
  alienMoveTimer := 0
  alienMoveDelay := 0
  alienDropDistance := 0
  alienBullets := fun _ => ⟨0, 0, false⟩
  alienShootTimer := 0
  alienShootDelay := 0
  shields := fun _ => ⟨0, 0, fun _ _ => ⟨0, 0, false⟩⟩
  explosions := fun _ => ⟨0, 0, 0, 0, false⟩
  state := .GAME_MENU
  score := 0
  level := 0
  gameOverTimer := 0

/-! ## Loops and array writes -/

/-- The loop `for (int i = 0; i < n; i++) body(i);` without early exit. -/
def forFin {σ : Type} (n : Nat) (body : Fin n → σ → σ) (s : σ) : σ :=
  (List.finRange n).foldl (fun acc i => body i acc) s

/-- The cells of the alien grid in the order of
`for (row ...) for (col ...)`, that is row-major. -/
def allCells : List (Row × Col) :=
  (List.finRange 5).flatMap fun row => (List.finRange 11).map fun col => (row, col)

/-- Write `game.aliens[row][col] = a`. -/
def setAlien (g : Game) (row : Row) (col : Col) (a : Alien) : Game :=
  { g with aliens := Function.update g.aliens row (Function.update (g.aliens row) col a) }

/-- Write `game.playerBullets[i] = b`. -/
def setPlayerBullet (g : Game) (i : PSlot) (b : Bullet) : Game :=
  { g with playerBullets := Function.update g.playerBullets i b }

/-- Write `game.alienBullets[i] = b`. -/
def setAlienBullet (g : Game) (i : ASlot) (b : Bullet) : Game :=
  { g with alienBullets := Function.update g.alienBullets i b }

/-- Write `game.explosions[i] = e`. -/
def setExplosion (g : Game) (i : ESlot) (e : Explosion) : Game :=
  { g with explosions := Function.update g.explosions i e }

/-- Write `game.shields[s] = sh`. -/
def setShield (g : Game) (s : SIdx) (sh : Shield) : Game :=
  { g with shields := Function.update g.shields s sh }

/-- Write `game.shields[s].blocks[x][y] = b`. -/
def setBlock (g : Game) (s : SIdx) (x : BX) (y : BY) (b : ShieldBlock) : Game :=
  setShield g s { g.shields s with
    blocks := Function.update (g.shields s).blocks x
      (Function.update ((g.shields s).blocks x) y b) }

/-! ## IEEE-754 binary64 for the constants of the arch test -/

/-- A positive binary64 value `mant / 2 ^ scale`. -/
structure Binary64 where
  mant : Nat
  scale : Nat
deriving DecidableEq, Repr

namespace Binary64

/-- Nearest integer to `n / d`, ties to the even one. -/
def roundHalfEven (n d : Nat) : Nat :=
  let q := n / d
  let r := n % d
  if 2 * r < d then q
  else if d < 2 * r then q + 1
  else if q % 2 = 0 then q else q + 1

/-- The least `s` from `s0` on (searching `fuel` steps) with `b * 2^52 ≤ a * 2^s`:
the scale at which `a / b` has a 53-bit significand. -/
def findScale (a b : Nat) : Nat → Nat → Nat
  | 0, s => s
  | fuel + 1, s => if b * 2 ^ 52 ≤ a * 2 ^ s then s else findScale a b fuel (s + 1)

/-- The binary64 value nearest to the rational `a / b` (for `0 < a / b < 2^53`,
in the normal range), ties to even. -/
def ofRat (a b : Nat) : Binary64 :=
  let s := findScale a b 1074 0
  ⟨roundHalfEven (a * 2 ^ s) b, s⟩

/-- The product `n * d` of an `int` constant (converted exactly) and a double,
rounded to binary64. -/
def mulNat (n : Nat) (d : Binary64) : Binary64 :=
  ofRat (n * d.mant) (2 ^ d.scale)

/-- The comparison `i > d` of an `int` (converted exactly) with a double. -/
def ltInt (d : Binary64) (i : Int) : Bool :=
  decide ((d.mant : Int) < i * 2 ^ d.scale)

/-- The comparison `i < d` of an `int` (converted exactly) with a double. -/
def gtInt (d : Binary64) (i : Int) : Bool :=
  decide (i * 2 ^ d.scale < (d.mant : Int))

end Binary64

/-! ## Initialisation -/

/-- The arch test of `InitializeShields`:
`y > (SHIELD_HEIGHT/SHIELD_BLOCK_SIZE) * 0.6 && x > (SHIELD_WIDTH/SHIELD_BLOCK_SIZE) * 0.3
 && x < (SHIELD_WIDTH/SHIELD_BLOCK_SIZE) * 0.7`,
the integer quotients being 7 and 10. -/
def archCutout (x : BX) (y : BY) : Bool :=
  Binary64.ltInt (Binary64.mulNat (60 / 8) (Binary64.ofRat 6 10)) y.val &&
  Binary64.ltInt (Binary64.mulNat (80 / 8) (Binary64.ofRat 3 10)) x.val &&
  Binary64.gtInt (Binary64.mulNat (80 / 8) (Binary64.ofRat 7 10)) x.val

/-- The body of the block loops of `InitializeShields` for shield `s` and
block (`x`, `y`). -/
def initBlock (s : SIdx) (x : BX) (y : BY) (g : Game) : Game :=
  let isActive : Bool := if archCutout x y then false else true
  setBlock g s x y
    { x := (g.shields s).x + x.val * SHIELD_BLOCK_SIZE
      y := (g.shields s).y + y.val * SHIELD_BLOCK_SIZE
      active := isActive }

/-- The body of the shield loop of `InitializeShields` for shield `s`. -/
def initShield (s : SIdx) (g : Game) : Game :=
  let shieldSpacing : Int := (WINDOW_WIDTH - SHIELD_COUNT * SHIELD_WIDTH) / (SHIELD_COUNT + 1)
  have g : Game := setShield g s { g.shields s with
    x := shieldSpacing + s.val * (SHIELD_WIDTH + shieldSpacing) }
  have g : Game := setShield g s { g.shields s with y := WINDOW_HEIGHT - 150 }
  forFin 10 (fun x => forFin 7 (fun y => initBlock s x y)) g

/-- `InitializeShields()`. -/
def InitializeShields (g : Game) : Game :=
  forFin 4 initShield g

/-- The body of the alien loops of `InitializeLevel` for the cell (`row`, `col`). -/
def initAlien (row : Row) (col : Col) (g : Game) : Game :=
  have g : Game := setAlien g row col
    { x := 100 + col.val * (ALIEN_WIDTH + ALIEN_SPACING_H)
      y := 80 + row.val * (ALIEN_HEIGHT + ALIEN_SPACING_V)
      type := if row.val < 1 then 0 else (if row.val < 3 then 1 else 2)
      alive := true }
  { g with alienCount := g.alienCount + 1 }

/-- `InitializeLevel()`. -/
def InitializeLevel (g : Game) : Game :=
  have g : Game := { g with alienCount := 0 }
  have g : Game := forFin 5 (fun row => forFin 11 (fun col => initAlien row col)) g
  have g : Game := { g with alienDirection := .DIR_RIGHT, alienMoveTimer := 0 }
  have g : Game := { g with alienMoveDelay := 30 - g.level * 2 }
  have g : Game := if g.alienMoveDelay < 10 then { g with alienMoveDelay := 10 } else g
  have g : Game := { g with alienDropDistance := 20 }
  have g : Game := { g with alienShootTimer := 0 }
  have g : Game := { g with alienShootDelay := 60 - g.level * 5 }
  have g : Game := if g.alienShootDelay < 20 then { g with alienShootDelay := 20 } else g
  InitializeShields g

/-- The body of the loop "Initialize player bullets" of `InitializeGame`. -/
def clearPlayerBullet (i : PSlot) (g : Game) : Game :=
  setPlayerBullet g i { g.playerBullets i with active := false }

/-- The body of the loop "Initialize alien bullets" of `InitializeGame`. -/
def clearAlienBullet (i : ASlot) (g : Game) : Game :=
  setAlienBullet g i { g.alienBullets i with active := false }

/-- The body of the loop "Initialize explosions" of `InitializeGame`. -/
def clearExplosion (i : ESlot) (g : Game) : Game :=
  setExplosion g i { g.explosions i with active := false }

/-- `InitializeGame(hwnd)`. -/
def InitializeGame (g : Game) : Game :=
  have g : Game := { g with state := .GAME_MENU, score := 0, level := 1, playerLives := 3 }
  have g : Game := { g with playerX := (WINDOW_WIDTH - PLAYER_WIDTH) / 2 }
  have g : Game := { g with playerY := WINDOW_HEIGHT - PLAYER_HEIGHT - 20 }
  have g : Game := forFin 3 clearPlayerBullet g
  have g : Game := forFin 8 clearAlienBullet g
  have g : Game := forFin 20 clearExplosion g
  have g : Game := InitializeLevel g
  InitializeShields g

/-! ## Player actions -/

/-- `MovePlayer(direction)`. -/
def MovePlayer (direction : Int) (g : Game) : Game :=
  have g : Game := { g with playerX := g.playerX + direction * PLAYER_SPEED }
  if g.playerX < 0 then { g with playerX := 0 }
  else if g.playerX > WINDOW_WIDTH - PLAYER_WIDTH then
    { g with playerX := WINDOW_WIDTH - PLAYER_WIDTH }
  else g

/-- The loop of `FirePlayerBullet()` over the slots still to be visited:
the first inactive slot is activated at the gun and the function returns. -/
def FirePlayerBullet.go (g : Game) : List PSlot → Game
  | [] => g
  | i :: rest =>
    if (g.playerBullets i).active = false then
      setPlayerBullet g i
        { x := g.playerX + PLAYER_WIDTH / 2, y := g.playerY, active := true }
    else FirePlayerBullet.go g rest

/-- `FirePlayerBullet()`. -/
def FirePlayerBullet (g : Game) : Game :=
  FirePlayerBullet.go g (List.finRange 3)

/-- The loop of `CreateExplosion(x, y)` over the slots still to be visited,
left by `break` at the first inactive slot. -/
def CreateExplosion.go (x y : Int) (g : Game) : List ESlot → Game
  | [] => g
  | i :: rest =>
    if (g.explosions i).active = false then
      setExplosion g i { x := x, y := y, frame := 0, timer := 0, active := true }
    else CreateExplosion.go x y g rest

/-- `CreateExplosion(x, y)`. -/
def CreateExplosion (x y : Int) (g : Game) : Game :=
  CreateExplosion.go x y g (List.finRange 20)

/-! ## Aliens: shooting and movement -/

/-- The loop `for (int r = row + 1; r < ALIEN_ROWS; r++)` of `FireAlienBullet`
that finds `lowestRow`, started from `lowestRow = row`. -/
def lowestRow (g : Game) (row : Row) (col : Col) : Row :=
  (List.finRange 5).foldl
    (fun low r => if row.val + 1 ≤ r.val ∧ (g.aliens r col).alive = true then r else low) row

/-- The `while (attempts < 50)` loop of `FireAlienBullet` for the free slot `i`;
`fuel` is `50 - attempts`, and attempt number `attempts` reads the calls
`2 * attempts` and `2 * attempts + 1` of `rand()`. -/
def FireAlienBullet.attempt (rand : Nat → Nat) (i : ASlot) (g : Game) : Nat → Nat → Game
  | 0, _ => g
  | fuel + 1, attempts =>
    let row : Row := ⟨rand (2 * attempts) % 5, Nat.mod_lt _ (by decide)⟩
    let col : Col := ⟨rand (2 * attempts + 1) % 11, Nat.mod_lt _ (by decide)⟩
    if (g.aliens row col).alive = true then
      let low := lowestRow g row col
      setAlienBullet g i
        { x := (g.aliens low col).x + ALIEN_WIDTH / 2
          y := (g.aliens low col).y + ALIEN_HEIGHT
          active := true }
    else FireAlienBullet.attempt rand i g fuel (attempts + 1)

/-- The slot loop of `FireAlienBullet()`: at the first inactive slot the attempts
are made and the function returns. -/
def FireAlienBullet.go (rand : Nat → Nat) (g : Game) : List ASlot → Game
  | [] => g
  | i :: rest =>
    if (g.alienBullets i).active = false then FireAlienBullet.attempt rand i g 50 0
    else FireAlienBullet.go rand g rest

/-- `FireAlienBullet()`. -/
def FireAlienBullet (rand : Nat → Nat) (g : Game) : Game :=
  FireAlienBullet.go rand g (List.finRange 8)

/-- The flag `shouldDropAndReverse` computed by the first half of `MoveAliens`.
Both search loops only read the state, and their `break`s are taken exactly
when the flag has just been set, so the flag is the disjunction of the test
over the cells in the order visited. -/
def shouldDropAndReverse (g : Game) : Bool :=
  if g.alienDirection = .DIR_RIGHT then
    (List.finRange 5).any fun row => (List.finRange 11).reverse.any fun col =>
      (g.aliens row col).alive &&
        decide ((g.aliens row col).x + ALIEN_WIDTH + ALIEN_MOVE_SPEED > WINDOW_WIDTH)
  else
    (List.finRange 5).any fun row => (List.finRange 11).any fun col =>
      (g.aliens row col).alive && decide ((g.aliens row col).x - ALIEN_MOVE_SPEED < 0)

/-- The statement `game.aliens[row][col].y += game.alienDropDistance`. -/
def dropAlien (row : Row) (col : Col) (g : Game) : Game :=
  setAlien g row col { g.aliens row col with y := (g.aliens row col).y + g.alienDropDistance }

/-- The drop loops of `MoveAliens` over the cells still to be visited. The
second component is `true` when the function was left by `return` because an
alien reached the player. -/
def dropAliens : List (Row × Col) → Game → Game × Bool
  | [], g => (g, false)
  | (row, col) :: rest, g =>
    if (g.aliens row col).alive = true then
      have g : Game := dropAlien row col g
      if (g.aliens row col).y + ALIEN_HEIGHT > g.playerY then
        ({ g with playerLives := 0, state := .GAME_OVER, gameOverTimer := 0 }, true)
      else dropAliens rest g
    else dropAliens rest g

/-- The body of the horizontal move loops of `MoveAliens` for one cell. -/
def shiftAlien (moveAmount : Int) (row : Row) (col : Col) (g : Game) : Game :=
  if (g.aliens row col).alive = true then
    setAlien g row col { g.aliens row col with x := (g.aliens row col).x + moveAmount }
  else g

/-- `MoveAliens()`. -/
def MoveAliens (g : Game) : Game :=
  if shouldDropAndReverse g = true then
    match dropAliens allCells g with
    | (g, true) => g
    | (g, false) =>
      { g with alienDirection :=
          if g.alienDirection = .DIR_RIGHT then .DIR_LEFT else .DIR_RIGHT }
  else
    let moveAmount : Int :=
      if g.alienDirection = .DIR_RIGHT then ALIEN_MOVE_SPEED else -ALIEN_MOVE_SPEED
    forFin 5 (fun row => forFin 11 (fun col => shiftAlien moveAmount row col)) g

/-! ## Collisions -/

/-- The point test of a bullet against the rectangle of an alien. -/
def inAlien (b : Bullet) (a : Alien) : Prop :=
  b.x ≥ a.x ∧ b.x ≤ a.x + ALIEN_WIDTH ∧ b.y ≥ a.y ∧ b.y ≤ a.y + ALIEN_HEIGHT

instance (b : Bullet) (a : Alien) : Decidable (inAlien b a) := by
  unfold inAlien; infer_instance

/-- The point test of a bullet against the rectangle of the player. -/
def inPlayer (b : Bullet) (g : Game) : Prop :=
  b.x ≥ g.playerX ∧ b.x ≤ g.playerX + PLAYER_WIDTH ∧
  b.y ≥ g.playerY ∧ b.y ≤ g.playerY + PLAYER_HEIGHT

instance (b : Bullet) (g : Game) : Decidable (inPlayer b g) := by
  unfold inPlayer; infer_instance

/-- The point test of a bullet against a shield block (`blockX`, `blockY`). -/
def inBlock (b : Bullet) (k : ShieldBlock) : Prop :=
  b.x ≥ k.x ∧ b.x ≤ k.x + SHIELD_BLOCK_SIZE ∧ b.y ≥ k.y ∧ b.y ≤ k.y + SHIELD_BLOCK_SIZE

instance (b : Bullet) (k : ShieldBlock) : Decidable (inBlock b k) := by
  unfold inBlock; infer_instance

/-- The body run when player bullet `i` hits the alien at (`row`, `col`). -/
def hitAlien (i : PSlot) (row : Row) (col : Col) (g : Game) : Game :=
  have g : Game := setAlien g row col { g.aliens row col with alive := false }
  have g : Game := setPlayerBullet g i { g.playerBullets i with active := false }
  have g : Game := { g with alienCount := g.alienCount - 1 }
  have g : Game :=
    if (g.aliens row col).type = 0 then { g with score := g.score + 30 }
    else if (g.aliens row col).type = 1 then { g with score := g.score + 20 }
    else if (g.aliens row col).type = 2 then { g with score := g.score + 10 }
    else g
  CreateExplosion ((g.aliens row col).x + ALIEN_WIDTH / 2)
    ((g.aliens row col).y + ALIEN_HEIGHT / 2) g

/-- The `col` loop of the first block of `CheckCollisions` for bullet `i` and
row `row`, over the columns still to be visited; a hit leaves it by `break`. -/
def alienColLoop (i : PSlot) (row : Row) : List Col → Game → Game
  | [], g => g
  | col :: rest, g =>
    if (g.aliens row col).alive = true ∧ inAlien (g.playerBullets i) (g.aliens row col) then
      hitAlien i row col g
    else alienColLoop i row rest g

/-- The body of the first block of `CheckCollisions` for player bullet `i`.
The `break` leaves the `col` loop only: the `row` loop goes on with the next
row. -/
def playerBulletVsAliens (i : PSlot) (g : Game) : Game :=
  if (g.playerBullets i).active = true then
    forFin 5 (fun row => alienColLoop i row (List.finRange 11)) g
  else g

/-- Player bullets against aliens. -/
def playerBulletsVsAliens (g : Game) : Game :=
  forFin 3 playerBulletVsAliens g

/-- The body run when alien bullet `i` hits the player. -/
def hitPlayer (i : ASlot) (g : Game) : Game :=
  have g : Game := setAlienBullet g i { g.alienBullets i with active := false }
  have g : Game := { g with playerLives := g.playerLives - 1 }
  have g : Game :=
    CreateExplosion (g.playerX + PLAYER_WIDTH / 2) (g.playerY + PLAYER_HEIGHT / 2) g
  if g.playerLives ≤ 0 then { g with state := .GAME_OVER, gameOverTimer := 0 } else g

/-- Alien bullets against the player, over the slots still to be visited; the
first hit leaves the loop by `break`. -/
def alienBulletsVsPlayer : List ASlot → Game → Game
  | [], g => g
  | i :: rest, g =>
    if (g.alienBullets i).active = true ∧ inPlayer (g.alienBullets i) g then hitPlayer i g
    else alienBulletsVsPlayer rest g

/-- The `y` loop of the player-bullet shield block for bullet `i`, shield `s`
and block column `x`; a hit leaves it by `break`. -/
def playerBlockLoop (i : PSlot) (s : SIdx) (x : BX) : List BY → Game → Game
  | [], g => g
  | y :: rest, g =>
    if ((g.shields s).blocks x y).active = true ∧
        inBlock (g.playerBullets i) ((g.shields s).blocks x y) then
      have g : Game := setBlock g s x y { (g.shields s).blocks x y with active := false }
      setPlayerBullet g i { g.playerBullets i with active := false }
    else playerBlockLoop i s x rest g

/-- The body of the player-bullet shield block for bullet `i`. The `break`
leaves the `y` loop only. -/
def playerBulletVsShields (i : PSlot) (g : Game) : Game :=
  if (g.playerBullets i).active = true then
    forFin 4 (fun s => forFin 10 (fun x => playerBlockLoop i s x (List.finRange 7))) g
  else g

/-- Player bullets against shield blocks. -/
def playerBulletsVsShields (g : Game) : Game :=
  forFin 3 playerBulletVsShields g

/-- The `y` loop of the alien-bullet shield block for bullet `i`, shield `s`
and block column `x`; a hit leaves it by `break`. -/
def alienBlockLoop (i : ASlot) (s : SIdx) (x : BX) : List BY → Game → Game
  | [], g => g
  | y :: rest, g =>
    if ((g.shields s).blocks x y).active = true ∧
        inBlock (g.alienBullets i) ((g.shields s).blocks x y) then
      have g : Game := setBlock g s x y { (g.shields s).blocks x y with active := false }
      setAlienBullet g i { g.alienBullets i with active := false }
    else alienBlockLoop i s x rest g

/-- The body of the alien-bullet shield block for bullet `i`. The `break`
leaves the `y` loop only. -/
def alienBulletVsShields (i : ASlot) (g : Game) : Game :=
  if (g.alienBullets i).active = true then
    forFin 4 (fun s => forFin 10 (fun x => alienBlockLoop i s x (List.finRange 7))) g
  else g

/-- Alien bullets against shield blocks. -/
def alienBulletsVsShields (g : Game) : Game :=
  forFin 8 alienBulletVsShields g

/-- `CheckCollisions()`: its four blocks in order. -/
def CheckCollisions (g : Game) : Game :=
  alienBulletsVsShields (playerBulletsVsShields
    (alienBulletsVsPlayer (List.finRange 8) (playerBulletsVsAliens g)))

/-! ## The tick -/

/-- The block "Move aliens" of `UpdateGame`. -/
def tickMoveAliens (g : Game) : Game :=
  have g : Game := { g with alienMoveTimer := g.alienMoveTimer + 1 }
  if g.alienMoveTimer ≥ g.alienMoveDelay then MoveAliens { g with alienMoveTimer := 0 } else g

/-- The block "Alien shooting" of `UpdateGame`. -/
def tickAlienShooting (rand : Nat → Nat) (g : Game) : Game :=
  have g : Game := { g with alienShootTimer := g.alienShootTimer + 1 }
  if g.alienShootTimer ≥ g.alienShootDelay then
    FireAlienBullet rand { g with alienShootTimer := 0 }
  else g

/-- The body of the block "Move player bullets" of `UpdateGame` for slot `i`. -/
def movePlayerBullet (i : PSlot) (g : Game) : Game :=
  if (g.playerBullets i).active = true then
    have g : Game := setPlayerBullet g i
      { g.playerBullets i with y := (g.playerBullets i).y - PLAYER_BULLET_SPEED }
    if (g.playerBullets i).y < 0 then
      setPlayerBullet g i { g.playerBullets i with active := false }
    else g
  else g

/-- The block "Move player bullets" of `UpdateGame`. -/
def tickPlayerBullets (g : Game) : Game :=
  forFin 3 movePlayerBullet g

/-- The body of the block "Move alien bullets" of `UpdateGame` for slot `i`. -/
def moveAlienBullet (i : ASlot) (g : Game) : Game :=
  if (g.alienBullets i).active = true then
    have g : Game := setAlienBullet g i
      { g.alienBullets i with y := (g.alienBullets i).y + ALIEN_BULLET_SPEED }
    if (g.alienBullets i).y > WINDOW_HEIGHT then
      setAlienBullet g i { g.alienBullets i with active := false }
    else g
  else g

/-- The block "Move alien bullets" of `UpdateGame`. -/
def tickAlienBullets (g : Game) : Game :=
  forFin 8 moveAlienBullet g

/-- The body of the block "Update explosions" of `UpdateGame` for slot `i`. -/
def updateExplosion (i : ESlot) (g : Game) : Game :=
  if (g.explosions i).active = true then
    have g : Game := setExplosion g i { g.explosions i with timer := (g.explosions i).timer + 1 }
    if (g.explosions i).timer ≥ EXPLOSION_DURATION then
      have g : Game := setExplosion g i { g.explosions i with timer := 0 }
      have g : Game := setExplosion g i { g.explosions i with frame := (g.explosions i).frame + 1 }
      if (g.explosions i).frame ≥ EXPLOSION_FRAMES then
        setExplosion g i { g.explosions i with active := false }
      else g
    else g
  else g

/-- The block "Update explosions" of `UpdateGame`. -/
def tickExplosions (g : Game) : Game :=
  forFin 20 updateExplosion g

/-- The part of a `GAME_PLAYING` tick up to and including `CheckCollisions()`. -/
def tickUntilCollisions (rand : Nat → Nat) (g : Game) : Game :=
  CheckCollisions (tickExplosions (tickAlienBullets (tickPlayerBullets
    (tickAlienShooting rand (tickMoveAliens g)))))

/-- The block "Check win condition" of `UpdateGame`. -/
def tickWinCondition (g : Game) : Game :=
  if g.alienCount = 0 then
    have g : Game := { g with level := g.level + 1 }
    if g.level > 10 then { g with state := .GAME_WIN } else InitializeLevel g
  else g

/-- `UpdateGame()`, one tick; `rand` supplies the values of `rand()`. -/
def UpdateGame (rand : Nat → Nat) (g : Game) : Game :=
  if g.state = .GAME_PLAYING then
    tickWinCondition (tickUntilCollisions rand g)
  else if g.state = .GAME_OVER then
    have g : Game := { g with gameOverTimer := g.gameOverTimer + 1 }
    if g.gameOverTimer > 180 then { g with state := .GAME_MENU } else g
  else g

/-! ## Messages -/

/-- The keys `WindowProc` reacts to. -/
inductive Key where
  | VK_LEFT
  | VK_RIGHT
  | VK_SPACE
  | VK_ESCAPE
deriving DecidableEq, Repr

/-- The messages of `WindowProc` that write to the game state. `WM_TIMER`
carries the values `rand()` returns during that tick. -/
inductive Msg where
  | WM_TIMER (rand : Nat → Nat)
  | WM_KEYDOWN (key : Key)

/-- `WindowProc` on `WM_TIMER` and `WM_KEYDOWN`. `DestroyWindow` (escape in the
menu) ends the program and leaves the game state as it is. -/
def WindowProc (m : Msg) (g : Game) : Game :=
  match m with
  | .WM_TIMER rand => UpdateGame rand g
  | .WM_KEYDOWN .VK_LEFT =>
    if g.state = .GAME_PLAYING then MovePlayer (-1) g else g
  | .WM_KEYDOWN .VK_RIGHT =>
    if g.state = .GAME_PLAYING then MovePlayer 1 g else g
  | .WM_KEYDOWN .VK_SPACE =>
    if g.state = .GAME_PLAYING then FirePlayerBullet g
    else if g.state = .GAME_MENU then InitializeLevel { g with state := .GAME_PLAYING }
    else if g.state = .GAME_OVER ∨ g.state = .GAME_WIN then InitializeGame g
    else g
  | .WM_KEYDOWN .VK_ESCAPE =>
    if g.state = .GAME_PLAYING then { g with state := .GAME_MENU }
    else g

/-- The game states the program can be in: `WinMain` calls `InitializeGame` on
the zeroed global, then the message loop delivers timer ticks and key presses
in any order. -/
inductive Reachable : Game → Prop
  | init : Reachable (InitializeGame zeroGame)
  | step (m : Msg) {g : Game} : Reachable g → Reachable (WindowProc m g)

/-! ## Definitions used to state the properties -/

/-- The number of active player bullets. -/
def activePlayerBullets (g : Game) : Nat :=
  (Finset.univ.filter fun i : PSlot => (g.playerBullets i).active = true).card

/-- Closed form of the shield that `InitializeShields` builds at index `s`. -/
def freshShield (s : SIdx) : Shield where
  x := 96 + s.val * 176
  y := 450
  blocks := fun x y =>
    { x := 96 + s.val * 176 + x.val * 8, y := 450 + y.val * 8, active := !archCutout x y }

/-- Shield `s` stands at (`X`, `Y`): the loop invariant of the block loops of
`InitializeShields`. -/
def ShieldAt (s : SIdx) (X Y : Int) (g : Game) : Prop :=
  (g.shields s).x = X ∧ (g.shields s).y = Y

instance (s : SIdx) (X Y : Int) (g : Game) : Decidable (ShieldAt s X Y g) := by
  unfold ShieldAt; infer_instance

/-- Closed form of the alien that `InitializeLevel` puts at (`row`, `col`). -/
def freshAlien (row : Row) (col : Col) : Alien where
  x := 100 + col.val * 60
  y := 80 + row.val * 55
  type := if row.val < 1 then 0 else (if row.val < 3 then 1 else 2)
  alive := true

/-- The fields no block of a playing tick writes before the win check, and the
only way such a block changes the session state: to `GAME_OVER`. -/
def TickFrame (g k : Game) : Prop :=
  k.playerX = g.playerX ∧ k.playerY = g.playerY ∧ k.level = g.level ∧
  k.alienMoveDelay = g.alienMoveDelay ∧ k.alienDropDistance = g.alienDropDistance ∧
  k.alienShootDelay = g.alienShootDelay ∧
  (k.state = g.state ∨ k.state = .GAME_OVER)

instance (g k : Game) : Decidable (TickFrame g k) := by
  unfold TickFrame; infer_instance

/-- The alien grid after the drop loops of `MoveAliens` have visited the cells
of `l`: the aliens alive there stand `alienDropDistance` lower. -/
def dropped (l : List (Row × Col)) (k : Game) : Row → Col → Alien := fun r c =>
  if (r, c) ∈ l ∧ (k.aliens r c).alive = true then
    { k.aliens r c with y := (k.aliens r c).y + k.alienDropDistance }
  else k.aliens r c

/-- The alien at cell `p` is alive and, once dropped, its bottom edge is below
the top of the player. -/
def reachesPlayer (k : Game) (p : Row × Col) : Prop :=
  (k.aliens p.1 p.2).alive = true ∧
    (k.aliens p.1 p.2).y + k.alienDropDistance + ALIEN_HEIGHT > k.playerY

instance (k : Game) (p : Row × Col) : Decidable (reachesPlayer k p) := by
  unfold reachesPlayer; infer_instance

/-- The direction after `alienDirection = (alienDirection == DIR_RIGHT) ? DIR_LEFT : DIR_RIGHT`. -/
def Direction.reversed : Direction → Direction
  | .DIR_RIGHT => .DIR_LEFT
  | .DIR_LEFT => .DIR_RIGHT

/-- Successive timer ticks with no key press in between; tick number `k` draws
its `rand()` values from the `k`-th element of `rands`. -/
def runTicks (rands : List (Nat → Nat)) (g : Game) : Game :=
  rands.foldl (fun k rand => UpdateGame rand k) g

/-- The 40x40 rectangles of two aliens overlap in more than an edge. -/
def overlap (a b : Alien) : Prop :=
  a.x < b.x + ALIEN_WIDTH ∧ b.x < a.x + ALIEN_WIDTH ∧
  a.y < b.y + ALIEN_HEIGHT ∧ b.y < a.y + ALIEN_HEIGHT

instance (a b : Alien) : Decidable (overlap a b) := by
  unfold overlap; infer_instance

/-- The point of bullet `b` lies strictly inside the rectangle of alien `a`. -/
def strictlyInside (b : Bullet) (a : Alien) : Prop :=
  a.x < b.x ∧ b.x < a.x + ALIEN_WIDTH ∧ a.y < b.y ∧ b.y < a.y + ALIEN_HEIGHT

instance (b : Bullet) (a : Alien) : Decidable (strictlyInside b a) := by
  unfold strictlyInside; infer_instance

/-- Player bullet `i` passes the test of the first block of `CheckCollisions`
at cell `p`: the alien there is alive and contains the point of the bullet. -/
def hitsCell (g : Game) (i : PSlot) (p : Row × Col) : Prop :=
  (g.aliens p.1 p.2).alive = true ∧ inAlien (g.playerBullets i) (g.aliens p.1 p.2)

instance (g : Game) (i : PSlot) (p : Row × Col) : Decidable (hitsCell g i p) := by
  unfold hitsCell; infer_instance

/-- The number of enemies whose `alive` flag is set. -/
def countAlive (g : Game) : Int :=
  ((Finset.univ.filter fun p : Row × Col => (g.aliens p.1 p.2).alive = true).card : Int)

/-! ## Concrete states -/

/-- The state `InitializeGame` produces from the zeroed global: the menu before
the first game. -/
def startGame : Game where
  playerX := 370
  playerY := 540
  playerLives := 3
  playerBullets := fun _ => ⟨0, 0, false⟩
  aliens := freshAlien
  alienCount := 55
  alienDirection := .DIR_RIGHT
  alienMoveTimer := 0
  alienMoveDelay := 28
  alienDropDistance := 20
  alienBullets := fun _ => ⟨0, 0, false⟩
  alienShootTimer := 0
  alienShootDelay := 55
  shields := freshShield
  explosions := fun _ => ⟨0, 0, 0, 0, false⟩
  state := .GAME_MENU
  score := 0
  level := 1
  gameOverTimer := 0

/-- A playing state in which all three player bullets are in flight. -/
def fullMagazine : Game :=
  { startGame with
    state := .GAME_PLAYING
    playerBullets := fun i => ⟨400, 500 - 100 * i.val, true⟩ }

/-- A playing state whose formation has reached the right edge: column 10
stands at `x = 760`, and `760 + 40 + 2 > 800`. -/
def edgeGame : Game :=
  { startGame with
    state := .GAME_PLAYING
    aliens := fun row col => { freshAlien row col with x := 160 + col.val * 60 } }

/-- A playing state at the right edge whose bottom row stands at `y = 500`:
dropped by 20 its bottom edge is at 560, below the player at 540. -/
def lowGame : Game :=
  { startGame with
    state := .GAME_PLAYING
    aliens := fun row col =>
      { freshAlien row col with x := 160 + col.val * 60, y := 280 + row.val * 55 } }

/-- A game lost a moment ago: `GAME_OVER` with the timer just reset. -/
def lostGame : Game :=
  { startGame with state := .GAME_OVER, playerLives := 0, gameOverTimer := 0 }

/-- A playing state of level 3 in which player bullet 0 is about to hit the
last alien alive, the one of row 4, column 5. -/
def lastShotGame : Game :=
  { startGame with
    state := .GAME_PLAYING
    level := 3
    alienMoveDelay := 24
    alienShootDelay := 45
    aliens := fun row col =>
      { freshAlien row col with
        x := 84 + col.val * 60, y := 180 + row.val * 55, alive := decide (row = 4 ∧ col = 5) }
    alienCount := 1
    score := 1040
    playerBullets := fun i => ⟨400, 432, decide (i = 0)⟩ }

/-- A playing state of level 10 with one life left in which, during the next
tick, player bullet 0 hits the last alien alive (row 4, column 5, at
`(384, 400)`) and alien bullet 0 hits the player. -/
def finalShotGame : Game :=
  { lastShotGame with
    level := 10
    alienMoveDelay := 10
    alienShootDelay := 20
    playerLives := 1
    alienBullets := fun i => ⟨400, 536, decide (i = 0)⟩ }

/-- A playing state with the fresh formation and one player bullet, in slot 1,
inside the alien of row 2, column 0 (which stands at `(100, 190)`). -/
def oneBulletGame : Game :=
  { startGame with
    state := .GAME_PLAYING
    playerBullets := fun i => ⟨120, 200, decide (i = 1)⟩ }

/-- The state `edgeGame` with a drop distance of 5 instead of the 20 that
`InitializeLevel` sets. -/
def slowDropGame : Game :=
  { edgeGame with alienDropDistance := 5 }

/-- A playing state at the right edge with a drop distance of 5 whose bottom
row stands at `y = 490`: `490 + 20 + 40 > 540`, but `490 + 5 + 40` is not. -/
def slowLowGame : Game :=
  { startGame with
    state := .GAME_PLAYING
    alienDropDistance := 5
    aliens := fun row col =>
      { freshAlien row col with x := 160 + col.val * 60, y := 270 + row.val * 55 } }

/-! ## The values of the aliens -/

/-- The points the `switch` on `game.aliens[row][col].type` in `CheckCollisions`
adds to the score: 30, 20 and 10 for the types 0, 1 and 2, nothing for any
other value (the `switch` has no `default`). -/
def alienValue (t : Int) : Int :=
  if t = 0 then 30 else if t = 1 then 20 else if t = 2 then 10 else 0

/-- The sum of the values of the aliens alive. -/
def aliveValue (g : Game) : Int :=
  ∑ p : Row × Col, if (g.aliens p.1 p.2).alive = true then alienValue (g.aliens p.1 p.2).type else 0

/-- The alien at cell `p` is alive in `g` and dead in `k`. -/
def killed (g k : Game) (p : Row × Col) : Prop :=
  (g.aliens p.1 p.2).alive = true ∧ (k.aliens p.1 p.2).alive = false

instance (g k : Game) (p : Row × Col) : Decidable (killed g k p) := by
  unfold killed; infer_instance

/-- The sum of the values of the aliens alive in `g` and dead in `k`, one
summand per alien. -/
def killedValue (g k : Game) : Int :=
  ∑ p : Row × Col, if killed g k p then alienValue (g.aliens p.1 p.2).type else 0

/-- The aliens of `k` have the types they have in `g`, and those alive in `k`
are alive in `g`. -/
def OnlyKills (g k : Game) : Prop :=
  ∀ r c, (k.aliens r c).type = (g.aliens r c).type ∧
    ((k.aliens r c).alive = true → (g.aliens r c).alive = true)

/-- The type `InitializeLevel` gives to the aliens of a row. -/
def rowType (row : Row) : Int :=
  if row.val = 0 then 0 else if row.val ≤ 2 then 1 else 2

/-- The invariant of the collision loops: what the score gains, the aliens
alive lose, and no alien comes back to life or changes its type. -/
def ValueKept (g k : Game) : Prop :=
  k.score + aliveValue k = g.score + aliveValue g ∧ OnlyKills g k

/-! ## The picks of `FireAlienBullet` -/

/-- The row of pick number `n` of `FireAlienBullet`: `rand() % ALIEN_ROWS`, read
from call `2 * n` of `rand()`. -/
def pickRow (rand : Nat → Nat) (n : Nat) : Row :=
  ⟨rand (2 * n) % 5, Nat.mod_lt _ (by decide)⟩

/-- The column of pick number `n` of `FireAlienBullet`: `rand() % ALIEN_COLS`,
read from call `2 * n + 1` of `rand()`. -/
def pickCol (rand : Nat → Nat) (n : Nat) : Col :=
  ⟨rand (2 * n + 1) % 11, Nat.mod_lt _ (by decide)⟩

/-- Values of `rand()` whose first pick is the dead cell (0, 0) of
`lastShotGame` and whose second pick is its alive cell (4, 5). -/
def secondPickRand (k : Nat) : Nat :=
  if k = 2 then 4 else if k = 3 then 5 else 0

/-! ## Runs of the program -/

/-- The state after the messages of `l` have been delivered in order. -/
def runMsgs (l : List Msg) (g : Game) : Game :=
  l.foldl (fun k m => WindowProc m k) g

/-- The messages of a shot under the second shield: start the game, seven steps
to the left (to `playerX = 314`), fire, and two ticks. -/
def shieldShot : List Msg :=
  [.WM_KEYDOWN .VK_SPACE] ++ List.replicate 7 (.WM_KEYDOWN .VK_LEFT) ++
    [.WM_KEYDOWN .VK_SPACE] ++ List.replicate 2 (.WM_TIMER fun _ => 0)

/-- A playing state in which player bullet 0 stands at (344, 504) under the
fresh shields: the point is on the common edge of the blocks (8, 6) and (9, 6)
of shield 1, which cover `x` from 336 to 344 and from 344 to 352. -/
def shieldShotGame : Game :=
  { startGame with
    state := .GAME_PLAYING
    playerX := 314
    playerBullets := fun i => ⟨344, 504, decide (i = 0)⟩ }

/-- A playing state whose rows of aliens stand 20 apart, so that the
rectangles of neighbouring rows overlap, with player bullet 0 at (120, 110),
inside the aliens (0, 0) and (1, 0). -/
def overlapGame : Game :=
  { startGame with
    state := .GAME_PLAYING
    aliens := fun row col => { freshAlien row col with y := 80 + row.val * 20 }
    playerBullets := fun i => ⟨120, 110, decide (i = 0)⟩ }

/-! ## A shorter collision pass for bullets away from the shields -/

/-- The bullet's `x` is outside the columns of all four shields, which span
`x` from `96 + 176 * s` to `96 + 176 * s + 80`. -/
def offShields (b : Bullet) : Prop :=
  ∀ s : SIdx, b.x < 96 + s.val * 176 ∨ 96 + s.val * 176 + 80 < b.x

instance (b : Bullet) : Decidable (offShields b) := by
  unfold offShields; infer_instance

/-- No player bullet is active, and every active alien bullet is outside the
columns of the shields: the shield blocks of `CheckCollisions` find nothing. -/
def quietShields (g : Game) : Prop :=
  (∀ i, (g.playerBullets i).active = false) ∧
  ∀ i, (g.alienBullets i).active = true → offShields (g.alienBullets i)

instance (g : Game) : Decidable (quietShields g) := by
  unfold quietShields; infer_instance

/-- The blocks of the shields have the `x` that `InitializeShields` gave them. -/
def ShieldsInPlace (g : Game) : Prop :=
  ∀ (s : SIdx) (x : BX) (y : BY), ((g.shields s).blocks x y).x = 96 + s.val * 176 + x.val * 8

/-- `CheckCollisions` with the two shield blocks skipped when `quietShields`
holds after the first two blocks. -/
def quickCollisions (g : Game) : Game :=
  have g : Game := alienBulletsVsPlayer (List.finRange 8) (playerBulletsVsAliens g)
  if quietShields g then g else alienBulletsVsShields (playerBulletsVsShields g)

/-- `UpdateGame` with `quickCollisions` for `CheckCollisions`. -/
def quickUpdate (rand : Nat → Nat) (g : Game) : Game :=
  if g.state = .GAME_PLAYING then
    tickWinCondition (quickCollisions (tickExplosions (tickAlienBullets (tickPlayerBullets
      (tickAlienShooting rand (tickMoveAliens g))))))
  else UpdateGame rand g

/-- `WindowProc` with `quickUpdate` for `UpdateGame`. -/
def quickProc (m : Msg) (g : Game) : Game :=
  match m with
  | .WM_TIMER rand => quickUpdate rand g
  | .WM_KEYDOWN key => WindowProc (.WM_KEYDOWN key) g

/-- The run `runMsgs` of `quickProc`. -/
def quickRun (l : List Msg) (g : Game) : Game :=
  l.foldl (fun k m => quickProc m k) g

/-- A timer tick during which every call of `rand()` returns 5, so that every
pick of `FireAlienBullet` is the cell (0, 5). -/
def tick5 : Msg := .WM_TIMER fun _ => 5

/-- A game lost without touching the keys after the start: the space key in the
menu, then 198 ticks, in which the aliens of column 5 shoot at the ticks 55,
110 and 165 and each bullet hits the player 33 ticks later, then the 181 ticks
of the game-over screen. -/
def lostRun : List Msg :=
  [.WM_KEYDOWN .VK_SPACE] ++ List.replicate 198 tick5 ++ List.replicate 181 tick5

/-- The space key and 88 ticks: the first alien bullet is fired at tick 55 and
reaches the player at tick 88. -/
def firstHitRun : List Msg :=
  [.WM_KEYDOWN .VK_SPACE] ++ List.replicate 88 tick5

/-- The state `lowGame` one tick before the formation moves, with alien bullet
0 at (400, 536), 6 above the reach of the player: in the next tick the drop
of the formation reaches the player and the bullet hits the player. -/
def lowHitGame : Game :=
  { lowGame with
    alienMoveTimer := 27
    alienBullets := fun i => ⟨400, 536, decide (i = 0)⟩ }

/-! ## Aliens that stand apart -/

/-- The closed 40x40 rectangles of two aliens have a point in common. -/
def touch (a b : Alien) : Prop :=
  a.x ≤ b.x + ALIEN_WIDTH ∧ b.x ≤ a.x + ALIEN_WIDTH ∧
  a.y ≤ b.y + ALIEN_HEIGHT ∧ b.y ≤ a.y + ALIEN_HEIGHT

instance (a b : Alien) : Decidable (touch a b) := by
  unfold touch; infer_instance

/-- No point lies in the rectangles of two different aliens alive. -/
def Separate (g : Game) : Prop :=
  ∀ p q : Row × Col, p ≠ q → (g.aliens p.1 p.2).alive = true →
    (g.aliens q.1 q.2).alive = true → ¬ touch (g.aliens p.1 p.2) (g.aliens q.1 q.2)

/-! ## The life of an explosion -/

/-- What the block "Update explosions" of `UpdateGame` does to one slot. -/
def explosionStep (e : Explosion) : Explosion :=
  if e.active = true then
    have e : Explosion := { e with timer := e.timer + 1 }
    if e.timer ≥ EXPLOSION_DURATION then
      have e : Explosion := { e with timer := 0 }
      have e : Explosion := { e with frame := e.frame + 1 }
      if e.frame ≥ EXPLOSION_FRAMES then { e with active := false } else e
    else e
  else e

/-- Every active explosion has `0 ≤ frame < 8` and `0 ≤ timer < 4`. -/
def ExplosionsInBounds (g : Game) : Prop :=
  ∀ i : ESlot, (g.explosions i).active = true →
    0 ≤ (g.explosions i).frame ∧ (g.explosions i).frame < 8 ∧
    0 ≤ (g.explosions i).timer ∧ (g.explosions i).timer < 4

/-- Every explosion slot of `k` is as in `g`, or was inactive in `g` and holds
an explosion just created (active, `frame = 0`, `timer = 0`). -/
def FreshOrSame (g k : Game) : Prop :=
  ∀ j : ESlot, k.explosions j = g.explosions j ∨
    ((g.explosions j).active = false ∧ (k.explosions j).frame = 0 ∧
      (k.explosions j).timer = 0 ∧ (k.explosions j).active = true)

/-- Every tick of the run `rands` from `g` starts in a playing state. -/
def PlayingRun : List (Nat → Nat) → Game → Prop
  | [], _ => True
  | rand :: rest, g => g.state = .GAME_PLAYING ∧ PlayingRun rest (UpdateGame rand g)

/-- The explosion `e` after `n` steps of its animation: frame `n / 4`, timer
`n % 4`. -/
def aged (e : Explosion) (n : Nat) : Explosion :=
  { e with frame := ((n / 4 : Nat) : Int), timer := ((n % 4 : Nat) : Int) }

/-- The explosion `e` at the end of its animation: inactive, with `frame = 8`
and `timer = 0`. -/
def ended (e : Explosion) : Explosion :=
  { e with frame := 8, timer := 0, active := false }

instance decPlayingRun : (rands : List (Nat → Nat)) → (g : Game) → Decidable (PlayingRun rands g)
  | [], _ => isTrue trivial
  | rand :: rest, g =>
    have : Decidable (PlayingRun rest (UpdateGame rand g)) := decPlayingRun rest (UpdateGame rand g)
    inferInstanceAs (Decidable (g.state = .GAME_PLAYING ∧ PlayingRun rest (UpdateGame rand g)))

/-- A playing state with the fresh formation in which slot 0 holds an explosion
just created at (400, 560). -/
def explodingGame : Game :=
  { startGame with
    state := .GAME_PLAYING
    explosions := fun i => ⟨400, 560, 0, 0, decide (i = 0)⟩ }

/-! ## The formation -/

/-- The aliens alive stand on the grid of `InitializeLevel`, moved as a whole
by some offset (`dx`, `dy`), inside the window and above the player. -/
def InFormation (g : Game) : Prop :=
  ∃ dx dy : Int, ∀ (r : Row) (c : Col), (g.aliens r c).alive = true →
    (g.aliens r c).x = 100 + c.val * 60 + dx ∧ (g.aliens r c).y = 80 + r.val * 55 + dy ∧
    0 ≤ (g.aliens r c).x ∧ (g.aliens r c).x + 40 ≤ 800 ∧ (g.aliens r c).y + 40 ≤ g.playerY

/-- Every alien alive in `k` is as it is in `g`: `k` has the aliens of `g`,
some of them killed. -/
def Thinned (g k : Game) : Prop :=
  ∀ (r : Row) (c : Col), (k.aliens r c).alive = true → k.aliens r c = g.aliens r c

/-- What the horizontal move loops of `MoveAliens` do to one alien. -/
def shiftOne (moveAmount : Int) (a : Alien) : Alien :=
  if a.alive = true then { a with x := a.x + moveAmount } else a

/-! ## One hit per bullet -/

theorem foldl_invariant {σ ι : Type} (I : σ → Prop) (body : ι → σ → σ)
    (h : ∀ i s, I s → I (body i s)) (l : List ι) (s : σ) (hs : I s) :
    I (l.foldl (fun acc i => body i acc) s) := by
  induction l generalizing s with
  | nil => exact hs
  | cons i rest ih => exact ih _ (h i s hs)

theorem forFin_invariant {σ : Type} {n : Nat} (I : σ → Prop) (body : Fin n → σ → σ)
    (h : ∀ i s, I s → I (body i s)) (s : σ) (hs : I s) : I (forFin n body s) :=
  foldl_invariant I body h _ s hs

theorem foldl_write {σ ι α : Type} [DecidableEq ι] (I : σ → Prop) (get : σ → ι → α)
    (body : ι → σ → σ) (v : ι → α)
    (hI : ∀ i s, I s → I (body i s))
    (hset : ∀ i s, I s → get (body i s) i = v i)
    (hother : ∀ i j s, I s → j ≠ i → get (body i s) j = get s j)
    (l : List ι) (s : σ) (hs : I s) (j : ι) :
    get (l.foldl (fun acc i => body i acc) s) j = if j ∈ l then v j else get s j := by
  induction l generalizing s with
  | nil => simp
  | cons i rest ih =>
    rw [List.foldl_cons, ih _ (hI i s hs)]
    by_cases hj : j ∈ rest
    · simp [hj]
    · by_cases hji : j = i
      · subst hji; simp [hj, hset j s hs]
      · simp [hj, hji, hother i j s hs hji]

theorem forFin_write {σ α : Type} {n : Nat} (I : σ → Prop) (get : σ → Fin n → α)
    (body : Fin n → σ → σ) (v : Fin n → α)
    (hI : ∀ i s, I s → I (body i s))
    (hset : ∀ i s, I s → get (body i s) i = v i)
    (hother : ∀ i j s, I s → j ≠ i → get (body i s) j = get s j)
    (s : σ) (hs : I s) (j : Fin n) : get (forFin n body s) j = v j := by
  unfold forFin
  rw [foldl_write I get body v hI hset hother _ s hs j]
  simp [List.mem_finRange]

/-! ## Shields after `InitializeShields` -/

theorem setShield_shields_other (g : Game) (s t : SIdx) (sh : Shield) (h : t ≠ s) :
    (setShield g s sh).shields t = g.shields t := by
  simp [setShield, Function.update_noteq h]

theorem initBlock_shieldAt (s : SIdx) (X Y : Int) (x : BX) (y : BY) (g : Game)
    (h : ShieldAt s X Y g) : ShieldAt s X Y (initBlock s x y g) := by
  obtain ⟨h1, h2⟩ := h
  constructor <;> simp [initBlock, setBlock, setShield, h1, h2]

theorem initBlock_other (s t : SIdx) (x : BX) (y : BY) (g : Game) (h : t ≠ s) :
    (initBlock s x y g).shields t = g.shields t := by
  simp [initBlock, setBlock, setShield, Function.update_noteq h]

theorem initBlock_block_same (s : SIdx) (X Y : Int) (x : BX) (y : BY) (g : Game)
    (h : ShieldAt s X Y g) :
    ((initBlock s x y g).shields s).blocks x y =
      ⟨X + x.val * 8, Y + y.val * 8, !archCutout x y⟩ := by
  obtain ⟨h1, h2⟩ := h
  simp [initBlock, setBlock, setShield, h1, h2]

theorem initBlock_block_row (s : SIdx) (x : BX) (y y' : BY) (g : Game) (h : y' ≠ y) :
    ((initBlock s x y g).shields s).blocks x y' = (g.shields s).blocks x y' := by
  simp [initBlock, setBlock, setShield, Function.update_noteq h]

theorem initBlock_block_col (s : SIdx) (x x' : BX) (y : BY) (g : Game) (h : x' ≠ x) :
    ((initBlock s x y g).shields s).blocks x' = (g.shields s).blocks x' := by
  simp [initBlock, setBlock, setShield, Function.update_noteq h]

theorem initColumn_shieldAt (s : SIdx) (X Y : Int) (x : BX) (g : Game)
    (h : ShieldAt s X Y g) : ShieldAt s X Y (forFin 7 (fun y => initBlock s x y) g) :=
  forFin_invariant (ShieldAt s X Y) _ (fun y k hk => initBlock_shieldAt s X Y x y k hk) g h

theorem initColumn_blocks (s : SIdx) (X Y : Int) (x : BX) (g : Game)
    (h : ShieldAt s X Y g) :
    ((forFin 7 (fun y => initBlock s x y) g).shields s).blocks x =
      fun y => ⟨X + x.val * 8, Y + y.val * 8, !archCutout x y⟩ := by
  funext y
  exact forFin_write (ShieldAt s X Y) (fun k y => (k.shields s).blocks x y)
    (fun y => initBlock s x y) (fun y => ⟨X + x.val * 8, Y + y.val * 8, !archCutout x y⟩)
    (fun y k hk => initBlock_shieldAt s X Y x y k hk)
    (fun y k hk => initBlock_block_same s X Y x y k hk)
    (fun y y' k _ hne => initBlock_block_row s x y y' k hne) g h y

theorem initColumn_other_col (s : SIdx) (x x' : BX) (g : Game) (h : x' ≠ x) :
    ((forFin 7 (fun y => initBlock s x y) g).shields s).blocks x' = (g.shields s).blocks x' :=
  forFin_invariant (fun k => (k.shields s).blocks x' = (g.shields s).blocks x') _
    (fun y k hk => (initBlock_block_col s x x' y k h).trans hk) g rfl

theorem initColumn_other (s t : SIdx) (x : BX) (g : Game) (h : t ≠ s) :
    (forFin 7 (fun y => initBlock s x y) g).shields t = g.shields t :=
  forFin_invariant (fun k => k.shields t = g.shields t) _
    (fun y k hk => (initBlock_other s t x y k h).trans hk) g rfl

theorem initGrid_shieldAt (s : SIdx) (X Y : Int) (g : Game) (h : ShieldAt s X Y g) :
    ShieldAt s X Y (forFin 10 (fun x => forFin 7 (fun y => initBlock s x y)) g) :=
  forFin_invariant (ShieldAt s X Y) _ (fun x k hk => initColumn_shieldAt s X Y x k hk) g h

theorem initGrid_blocks (s : SIdx) (X Y : Int) (g : Game) (h : ShieldAt s X Y g) (x : BX) :
    ((forFin 10 (fun x => forFin 7 (fun y => initBlock s x y)) g).shields s).blocks x =
      fun y => ⟨X + x.val * 8, Y + y.val * 8, !archCutout x y⟩ :=
  forFin_write (ShieldAt s X Y) (fun k x => (k.shields s).blocks x)
    (fun x => forFin 7 (fun y => initBlock s x y))
    (fun x y => ⟨X + x.val * 8, Y + y.val * 8, !archCutout x y⟩)
    (fun x k hk => initColumn_shieldAt s X Y x k hk)
    (fun x k hk => initColumn_blocks s X Y x k hk)
    (fun x x' k _ hne => initColumn_other_col s x x' k hne) g h x

theorem initGrid_other (s t : SIdx) (g : Game) (h : t ≠ s) :
    (forFin 10 (fun x => forFin 7 (fun y => initBlock s x y)) g).shields t = g.shields t :=
  forFin_invariant (fun k => k.shields t = g.shields t) _
    (fun x k hk => (initColumn_other s t x k h).trans hk) g rfl

theorem initShield_same (s : SIdx) (g : Game) :
    (initShield s g).shields s = freshShield s := by
  have hat : ShieldAt s (96 + s.val * 176) 450
      (setShield (setShield g s { g.shields s with x := 96 + s.val * (80 + 96) }) s
        { (setShield g s { g.shields s with x := 96 + s.val * (80 + 96) }).shields s
          with y := 450 }) := by
    constructor <;> simp [setShield]
  have h1 := initGrid_shieldAt s _ _ _ hat
  have h2 := initGrid_blocks s _ _ _ hat
  have hdef : initShield s g = forFin 10 (fun x => forFin 7 (fun y => initBlock s x y))
      (setShield (setShield g s { g.shields s with x := 96 + s.val * (80 + 96) }) s
        { (setShield g s { g.shields s with x := 96 + s.val * (80 + 96) }).shields s
          with y := 450 }) := by
    simp [initShield]
  rw [hdef]
  obtain ⟨hx, hy⟩ := h1
  generalize ((forFin 10 (fun x => forFin 7 (fun y => initBlock s x y))
      (setShield (setShield g s { g.shields s with x := 96 + s.val * (80 + 96) }) s
        { (setShield g s { g.shields s with x := 96 + s.val * (80 + 96) }).shields s
          with y := 450 })).shields s) = sh at hx hy h2
  cases sh with
  | mk sx sy sb =>
    simp only at hx hy h2
    subst hx hy
    have : sb = fun x y => ⟨96 + s.val * 176 + x.val * 8, 450 + y.val * 8, !archCutout x y⟩ :=
      funext h2
    subst this
    rfl

theorem initShield_other (s t : SIdx) (g : Game) (h : t ≠ s) :
    (initShield s g).shields t = g.shields t := by
  unfold initShield
  simp only []
  rw [initGrid_other s t _ h, setShield_shields_other _ _ _ _ h,
    setShield_shields_other _ _ _ _ h]

/-- The shields `InitializeShields` leaves do not depend on the state before. -/
theorem InitializeShields_shields (g : Game) (s : SIdx) :
    (InitializeShields g).shields s = freshShield s :=
  forFin_write (fun _ => True) (fun k s => k.shields s) initShield freshShield
    (fun _ _ _ => trivial) (fun s k _ => initShield_same s k)
    (fun s t k _ hne => initShield_other s t k hne) g trivial s

/-! ## Player bullets: `FirePlayerBullet` -/

theorem activePlayerBullets_le (g : Game) : activePlayerBullets g ≤ 3 := by
  unfold activePlayerBullets
  exact (Finset.card_le_univ _).trans (by simp)

theorem activePlayerBullets_set (g : Game) (i : PSlot) (b : Bullet)
    (hold : (g.playerBullets i).active = false) (hb : b.active = true) :
    activePlayerBullets (setPlayerBullet g i b) = activePlayerBullets g + 1 := by
  unfold activePlayerBullets
  have hset : (Finset.univ.filter fun j : PSlot =>
        ((setPlayerBullet g i b).playerBullets j).active = true)
      = insert i (Finset.univ.filter fun j : PSlot => (g.playerBullets j).active = true) := by
    ext j
    by_cases hj : j = i
    · subst hj; simp [setPlayerBullet, hb]
    · simp [setPlayerBullet, Function.update_noteq hj, hj]
  rw [hset, Finset.card_insert_of_not_mem]
  simp [hold]

theorem FirePlayerBullet.go_all_active (g : Game) (l : List PSlot)
    (h : ∀ j ∈ l, (g.playerBullets j).active = true) : FirePlayerBullet.go g l = g := by
  induction l with
  | nil => rfl
  | cons i rest ih =>
    have hi := h i (List.mem_cons_self _ _)
    simp only [FirePlayerBullet.go, hi]
    exact ih fun j hj => h j (List.mem_cons_of_mem _ hj)

theorem FirePlayerBullet.go_first (g : Game) (pre post : List PSlot) (i : PSlot)
    (hpre : ∀ j ∈ pre, (g.playerBullets j).active = true)
    (hi : (g.playerBullets i).active = false) :
    FirePlayerBullet.go g (pre ++ i :: post) =
      setPlayerBullet g i ⟨g.playerX + PLAYER_WIDTH / 2, g.playerY, true⟩ := by
  induction pre with
  | nil => simp [FirePlayerBullet.go, hi]
  | cons j rest ih =>
    have hj := hpre j (List.mem_cons_self _ _)
    simp only [List.cons_append, FirePlayerBullet.go, hj]
    exact ih fun k hk => hpre k (List.mem_cons_of_mem _ hk)

/-- Among the three slots, a free one of least index, and the slots the loop of
`FirePlayerBullet` visits before it. -/
theorem exists_lowest_free (g : Game)
    (hfree : ∃ i : PSlot, (g.playerBullets i).active = false) :
    ∃ i : PSlot, (g.playerBullets i).active = false ∧
      (∀ j : PSlot, j < i → (g.playerBullets j).active = true) ∧
      ∃ pre post, List.finRange 3 = pre ++ i :: post ∧ ∀ j ∈ pre, j < i := by
  rcases h0 : (g.playerBullets 0).active with _ | _
  · exact ⟨0, h0, fun j hj => absurd hj (Fin.not_lt_zero j), [], [1, 2], by decide, by simp⟩
  · rcases h1 : (g.playerBullets 1).active with _ | _
    · refine ⟨1, h1, ?_, [0], [2], by decide, by decide⟩
      intro j hj; fin_cases j <;> simp_all
    · rcases h2 : (g.playerBullets 2).active with _ | _
      · refine ⟨2, h2, ?_, [0, 1], [], by decide, by decide⟩
        intro j hj; fin_cases j <;> simp_all
      · obtain ⟨k, hk⟩ := hfree
        fin_cases k <;> simp_all

/-- C8: when all 3 player-bullet slots are active, `FirePlayerBullet` returns
the state unchanged, so no slot is moved or re-activated and the number of
active player bullets stays 3. -/
theorem FirePlayerBullet_full_noop (g : Game)
    (hfull : ∀ i : PSlot, (g.playerBullets i).active = true) :
    FirePlayerBullet g = g ∧ activePlayerBullets (FirePlayerBullet g) = 3 ∧
      activePlayerBullets g = 3 := by
  have h : FirePlayerBullet g = g :=
    FirePlayerBullet.go_all_active g _ fun j _ => hfull j
  rw [h]
  simp [activePlayerBullets, hfull]

/-- The previous theorem at a state with three bullets in flight. -/
theorem FirePlayerBullet_full_noop_witness :
    (∀ i : PSlot, (fullMagazine.playerBullets i).active = true) ∧
    FirePlayerBullet fullMagazine = fullMagazine ∧
    activePlayerBullets (FirePlayerBullet fullMagazine) = 3 ∧
    activePlayerBullets fullMagazine = 3 :=
  ⟨fun _ => rfl, FirePlayerBullet_full_noop fullMagazine (fun _ => rfl)⟩

/-- C9: when some player-bullet slot is inactive, `FirePlayerBullet` writes
exactly one slot, the inactive slot of least index, which becomes active at
(`playerX + 30`, `playerY`); every other slot and every other field of the
state is as before, so the number of active player bullets rises by exactly 1
and is at most 3. -/
theorem FirePlayerBullet_lowest_free (g : Game)
    (hfree : ∃ i : PSlot, (g.playerBullets i).active = false) :
    ∃ i : PSlot, (g.playerBullets i).active = false ∧
      (∀ j : PSlot, j < i → (g.playerBullets j).active = true) ∧
      FirePlayerBullet g = setPlayerBullet g i ⟨g.playerX + 30, g.playerY, true⟩ ∧
      (∀ j : PSlot, j ≠ i → (FirePlayerBullet g).playerBullets j = g.playerBullets j) ∧
      activePlayerBullets (FirePlayerBullet g) = activePlayerBullets g + 1 ∧
      activePlayerBullets (FirePlayerBullet g) ≤ 3 := by
  obtain ⟨i, hi, hlow, pre, post, hsplit, hpre⟩ := exists_lowest_free g hfree
  have hfire : FirePlayerBullet g = setPlayerBullet g i ⟨g.playerX + 30, g.playerY, true⟩ := by
    unfold FirePlayerBullet
    rw [hsplit, FirePlayerBullet.go_first g pre post i (fun j hj => hlow j (hpre j hj)) hi]
    rfl
  refine ⟨i, hi, hlow, hfire, ?_, ?_, activePlayerBullets_le _⟩
  · intro j hj
    rw [hfire]
    simp [setPlayerBullet, Function.update_noteq hj]
  · rw [hfire]
    exact activePlayerBullets_set g i _ hi rfl

/-- The previous theorem at the fresh formation with player bullet 1 in
flight: slots 0 and 2 are free, and slot 0 is the one taken. -/
theorem FirePlayerBullet_lowest_free_witness :
    ∃ i : PSlot, (oneBulletGame.playerBullets i).active = false ∧
      (∀ j : PSlot, j < i → (oneBulletGame.playerBullets j).active = true) ∧
      FirePlayerBullet oneBulletGame =
        setPlayerBullet oneBulletGame i
          ⟨oneBulletGame.playerX + 30, oneBulletGame.playerY, true⟩ ∧
      (∀ j : PSlot, j ≠ i →
        (FirePlayerBullet oneBulletGame).playerBullets j = oneBulletGame.playerBullets j) ∧
      activePlayerBullets (FirePlayerBullet oneBulletGame) =
        activePlayerBullets oneBulletGame + 1 ∧
      activePlayerBullets (FirePlayerBullet oneBulletGame) ≤ 3 :=
  FirePlayerBullet_lowest_free oneBulletGame ⟨0, rfl⟩

/-! ## The arch of a fresh shield -/

theorem archCutout_eq (x : BX) (y : BY) :
    archCutout x y = decide (5 ≤ y.val ∧ 4 ≤ x.val ∧ x.val ≤ 6) := by
  revert x y; decide

/-- C10: after `InitializeShields`, in each of the 4 shields the block at
column `c` (0..9) and row `r` (0..6) is inactive exactly when `r > 0.6 * 7`
and `0.3 * 10 < c < 0.7 * 10`, that is exactly when `r` is 5 or 6 and `c` is
4, 5 or 6, and is active otherwise; the block stands at
(`shield.x + 8 c`, `shield.y + 8 r`). -/
theorem InitializeShields_arch (g : Game) (s : SIdx) (c : BX) (r : BY) :
    ((((InitializeShields g).shields s).blocks c r).active = false ↔
      ((r.val : ℚ) > 0.6 * 7 ∧ 0.3 * 10 < (c.val : ℚ) ∧ (c.val : ℚ) < 0.7 * 10)) ∧
    ((((InitializeShields g).shields s).blocks c r).active = false ↔
      ((r.val = 5 ∨ r.val = 6) ∧ (c.val = 4 ∨ c.val = 5 ∨ c.val = 6))) ∧
    ((((InitializeShields g).shields s).blocks c r).active = true ↔
      ¬ ((r.val = 5 ∨ r.val = 6) ∧ (c.val = 4 ∨ c.val = 5 ∨ c.val = 6))) ∧
    (((InitializeShields g).shields s).blocks c r).x =
      ((InitializeShields g).shields s).x + 8 * c.val ∧
    (((InitializeShields g).shields s).blocks c r).y =
      ((InitializeShields g).shields s).y + 8 * r.val := by
  rw [InitializeShields_shields]
  simp only [freshShield, archCutout_eq]
  refine ⟨?_, ?_, ?_, by ring, by ring⟩
  · fin_cases r <;> fin_cases c <;> norm_num
  · fin_cases r <;> fin_cases c <;> simp
  · fin_cases r <;> fin_cases c <;> simp

theorem foldl_measure {σ ι : Type} (m : σ → Int) (body : ι → σ → σ) (c : Int)
    (h : ∀ i s, m (body i s) = m s + c) (l : List ι) (s : σ) :
    m (l.foldl (fun acc i => body i acc) s) = m s + c * l.length := by
  induction l generalizing s with
  | nil => simp
  | cons i rest ih =>
    rw [List.foldl_cons, ih, h, List.length_cons]
    push_cast
    ring

theorem forFin_measure {σ : Type} {n : Nat} (m : σ → Int) (body : Fin n → σ → σ) (c : Int)
    (h : ∀ i s, m (body i s) = m s + c) (s : σ) :
    m (forFin n body s) = m s + c * n := by
  unfold forFin
  rw [foldl_measure m body c h, List.length_finRange]

theorem initBlock_frame (s : SIdx) (x : BX) (y : BY) (g k : Game)
    (h : ∃ sh, k = { g with shields := sh }) :
    ∃ sh, initBlock s x y k = { g with shields := sh } := by
  obtain ⟨sh, rfl⟩ := h
  exact ⟨_, rfl⟩

theorem initShield_frame (s : SIdx) (g k : Game)
    (h : ∃ sh, k = { g with shields := sh }) :
    ∃ sh, initShield s k = { g with shields := sh } := by
  obtain ⟨sh, rfl⟩ := h
  simp only [initShield]
  refine forFin_invariant (fun k : Game => ∃ sh, k = { g with shields := sh }) _ ?_ _ ?_
  · intro x k hk
    exact forFin_invariant (fun k : Game => ∃ sh, k = { g with shields := sh }) _
      (fun y k hk => initBlock_frame s x y g k hk) k hk
  · exact ⟨_, rfl⟩

/-- `InitializeShields` writes the shields and nothing else. -/
theorem InitializeShields_eq (g : Game) :
    InitializeShields g = { g with shields := freshShield } := by
  have hframe : ∃ sh, InitializeShields g = { g with shields := sh } :=
    forFin_invariant (fun k : Game => ∃ sh, k = { g with shields := sh }) initShield
      (fun s k hk => initShield_frame s g k hk) g ⟨g.shields, rfl⟩
  obtain ⟨sh, hsh⟩ := hframe
  have : sh = freshShield := by
    funext s
    have := InitializeShields_shields g s
    rw [hsh] at this
    exact this
  rw [hsh, this]

/-! ## The formation after `InitializeLevel` -/

theorem initAlien_same (row : Row) (col : Col) (g : Game) :
    (initAlien row col g).aliens row col = freshAlien row col := by
  simp [initAlien, setAlien, freshAlien]

theorem initAlien_other_col (row : Row) (col col' : Col) (g : Game) (h : col' ≠ col) :
    (initAlien row col g).aliens row col' = g.aliens row col' := by
  simp [initAlien, setAlien, Function.update_noteq h]

theorem initAlien_other_row (row row' : Row) (col : Col) (g : Game) (h : row' ≠ row) :
    (initAlien row col g).aliens row' = g.aliens row' := by
  simp [initAlien, setAlien, Function.update_noteq h]

theorem initAlien_count (row : Row) (col : Col) (g : Game) :
    (initAlien row col g).alienCount = g.alienCount + 1 := by
  simp [initAlien, setAlien]

theorem initAlien_frame (row : Row) (col : Col) (g k : Game)
    (h : ∃ al n, k = { g with aliens := al, alienCount := n }) :
    ∃ al n, initAlien row col k = { g with aliens := al, alienCount := n } := by
  obtain ⟨al, n, rfl⟩ := h
  exact ⟨_, _, rfl⟩

theorem initRow_aliens (row : Row) (g : Game) :
    (forFin 11 (fun col => initAlien row col) g).aliens row = fun col => freshAlien row col := by
  funext col
  exact forFin_write (fun _ => True) (fun k col => k.aliens row col)
    (fun col => initAlien row col) (fun col => freshAlien row col)
    (fun _ _ _ => trivial) (fun col k _ => initAlien_same row col k)
    (fun col col' k _ hne => initAlien_other_col row col col' k hne) g trivial col

theorem initRow_other_row (row row' : Row) (g : Game) (h : row' ≠ row) :
    (forFin 11 (fun col => initAlien row col) g).aliens row' = g.aliens row' :=
  forFin_invariant (fun k => k.aliens row' = g.aliens row') _
    (fun col k hk => (initAlien_other_row row row' col k h).trans hk) g rfl

theorem initRow_count (row : Row) (g : Game) :
    (forFin 11 (fun col => initAlien row col) g).alienCount = g.alienCount + 11 := by
  have := forFin_measure (fun k : Game => k.alienCount) (fun col => initAlien row col) 1
    (fun col k => initAlien_count row col k) g
  simpa using this

theorem initGrid_aliens (g : Game) (row : Row) :
    (forFin 5 (fun row => forFin 11 (fun col => initAlien row col)) g).aliens row =
      fun col => freshAlien row col :=
  forFin_write (fun _ => True) (fun k row => k.aliens row)
    (fun row => forFin 11 (fun col => initAlien row col)) (fun row col => freshAlien row col)
    (fun _ _ _ => trivial) (fun row k _ => initRow_aliens row k)
    (fun row row' k _ hne => initRow_other_row row row' k hne) g trivial row

theorem initGrid_count (g : Game) :
    (forFin 5 (fun row => forFin 11 (fun col => initAlien row col)) g).alienCount =
      g.alienCount + 55 := by
  have := forFin_measure (fun k : Game => k.alienCount)
    (fun row => forFin 11 (fun col => initAlien row col)) 11
    (fun row k => initRow_count row k) g
  simpa using this

theorem initGrid_eq (g : Game) :
    forFin 5 (fun row => forFin 11 (fun col => initAlien row col)) g =
      { g with aliens := freshAlien, alienCount := g.alienCount + 55 } := by
  have hframe : ∃ al n, forFin 5 (fun row => forFin 11 (fun col => initAlien row col)) g =
      { g with aliens := al, alienCount := n } := by
    refine forFin_invariant
      (fun k : Game => ∃ al n, k = { g with aliens := al, alienCount := n })
      _ ?_ g ⟨g.aliens, g.alienCount, rfl⟩
    intro row k hk
    exact forFin_invariant
      (fun k : Game => ∃ al n, k = { g with aliens := al, alienCount := n })
      _ (fun col k hk => initAlien_frame row col g k hk) k hk
  obtain ⟨al, n, h⟩ := hframe
  have hal : al = freshAlien := by
    funext row
    have := initGrid_aliens g row
    rw [h] at this
    exact this
  have hn : n = g.alienCount + 55 := by
    have := initGrid_count g
    rw [h] at this
    exact this
  rw [h, hal, hn]

/-- `InitializeLevel` in closed form: the formation, its counters and the
shields are reset, the delays are recomputed from the level, and every other
field is kept. -/
theorem InitializeLevel_eq (g : Game) :
    InitializeLevel g =
      { g with
        aliens := freshAlien
        alienCount := 55
        alienDirection := .DIR_RIGHT
        alienMoveTimer := 0
        alienMoveDelay := max 10 (30 - g.level * 2)
        alienDropDistance := 20
        alienShootTimer := 0
        alienShootDelay := max 20 (60 - g.level * 5)
        shields := freshShield } := by
  have hdef : InitializeLevel g =
      InitializeShields
        ((fun k : Game => if k.alienShootDelay < 20 then { k with alienShootDelay := 20 } else k)
          ((fun k : Game => { k with alienShootTimer := 0, alienShootDelay := 60 - k.level * 5 })
            ((fun k : Game => { k with alienDropDistance := 20 })
              ((fun k : Game => if k.alienMoveDelay < 10 then { k with alienMoveDelay := 10 } else k)
                ((fun k : Game => { k with alienDirection := .DIR_RIGHT, alienMoveTimer := 0,
                                           alienMoveDelay := 30 - k.level * 2 })
                  (forFin 5 (fun row => forFin 11 (fun col => initAlien row col))
                    { g with alienCount := 0 })))))) := rfl
  rw [hdef, InitializeShields_eq, initGrid_eq]
  by_cases hA : 30 - g.level * 2 < 10 <;> by_cases hB : 60 - g.level * 5 < 20
  · have h1 : max 10 (30 - g.level * 2) = 10 := by omega
    have h2 : max 20 (60 - g.level * 5) = 20 := by omega
    simp [hA, hB, h1, h2]
  · have h1 : max 10 (30 - g.level * 2) = 10 := by omega
    have h2 : max 20 (60 - g.level * 5) = 60 - g.level * 5 := by omega
    simp [hA, hB, h1, h2]
  · have h1 : max 10 (30 - g.level * 2) = 30 - g.level * 2 := by omega
    have h2 : max 20 (60 - g.level * 5) = 20 := by omega
    simp [hA, hB, h1, h2]
  · have h1 : max 10 (30 - g.level * 2) = 30 - g.level * 2 := by omega
    have h2 : max 20 (60 - g.level * 5) = 60 - g.level * 5 := by omega
    simp [hA, hB, h1, h2]

/-! ## Which fields each function writes -/

theorem CreateExplosion.go_shape (x y : Int) (g : Game) (l : List ESlot) :
    ∃ ex, CreateExplosion.go x y g l = { g with explosions := ex } := by
  induction l with
  | nil => exact ⟨g.explosions, rfl⟩
  | cons i rest ih =>
    unfold CreateExplosion.go
    split
    · exact ⟨_, rfl⟩
    · exact ih

theorem CreateExplosion_shape (x y : Int) (g : Game) :
    ∃ ex, CreateExplosion x y g = { g with explosions := ex } :=
  CreateExplosion.go_shape x y g _

theorem FireAlienBullet.attempt_shape (rand : Nat → Nat) (i : ASlot) (g : Game)
    (fuel attempts : Nat) :
    ∃ ab, FireAlienBullet.attempt rand i g fuel attempts = { g with alienBullets := ab } := by
  induction fuel generalizing attempts with
  | zero => exact ⟨g.alienBullets, rfl⟩
  | succ n ih =>
    unfold FireAlienBullet.attempt
    simp only []
    split
    · exact ⟨_, rfl⟩
    · exact ih _

theorem FireAlienBullet_shape (rand : Nat → Nat) (g : Game) :
    ∃ ab, FireAlienBullet rand g = { g with alienBullets := ab } := by
  unfold FireAlienBullet
  generalize List.finRange 8 = l
  induction l with
  | nil => exact ⟨g.alienBullets, rfl⟩
  | cons i rest ih =>
    unfold FireAlienBullet.go
    split
    · exact FireAlienBullet.attempt_shape rand i g 50 0
    · exact ih

theorem tickAlienShooting_shape (rand : Nat → Nat) (g : Game) :
    ∃ ab t, tickAlienShooting rand g = { g with alienBullets := ab, alienShootTimer := t } := by
  unfold tickAlienShooting
  simp only []
  split
  · obtain ⟨ab, h⟩ := FireAlienBullet_shape rand { g with alienShootTimer := 0 }
    exact ⟨ab, 0, h⟩
  · exact ⟨_, _, rfl⟩

theorem tickPlayerBullets_shape (g : Game) :
    ∃ pb, tickPlayerBullets g = { g with playerBullets := pb } := by
  refine forFin_invariant (fun k : Game => ∃ pb, k = { g with playerBullets := pb })
    movePlayerBullet ?_ g ⟨g.playerBullets, rfl⟩
  rintro i k ⟨pb, rfl⟩
  unfold movePlayerBullet
  simp only []
  split
  · split <;> exact ⟨_, rfl⟩
  · exact ⟨_, rfl⟩

theorem tickAlienBullets_shape (g : Game) :
    ∃ ab, tickAlienBullets g = { g with alienBullets := ab } := by
  refine forFin_invariant (fun k : Game => ∃ ab, k = { g with alienBullets := ab })
    moveAlienBullet ?_ g ⟨g.alienBullets, rfl⟩
  rintro i k ⟨ab, rfl⟩
  unfold moveAlienBullet
  simp only []
  split
  · split <;> exact ⟨_, rfl⟩
  · exact ⟨_, rfl⟩

theorem tickExplosions_shape (g : Game) :
    ∃ ex, tickExplosions g = { g with explosions := ex } := by
  refine forFin_invariant (fun k : Game => ∃ ex, k = { g with explosions := ex })
    updateExplosion ?_ g ⟨g.explosions, rfl⟩
  rintro i k ⟨ex, rfl⟩
  unfold updateExplosion
  simp only []
  split
  · split
    · split <;> exact ⟨_, rfl⟩
    · exact ⟨_, rfl⟩
  · exact ⟨_, rfl⟩

theorem playerBlockLoop_shape (i : PSlot) (s : SIdx) (x : BX) (l : List BY) (g k : Game)
    (h : ∃ pb sh, k = { g with playerBullets := pb, shields := sh }) :
    ∃ pb sh, playerBlockLoop i s x l k = { g with playerBullets := pb, shields := sh } := by
  induction l with
  | nil => exact h
  | cons y rest ih =>
    unfold playerBlockLoop
    split
    · obtain ⟨pb, sh, rfl⟩ := h
      exact ⟨_, _, rfl⟩
    · exact ih

theorem playerBulletsVsShields_shape (g : Game) :
    ∃ pb sh, playerBulletsVsShields g = { g with playerBullets := pb, shields := sh } := by
  refine forFin_invariant
    (fun k : Game => ∃ pb sh, k = { g with playerBullets := pb, shields := sh })
    playerBulletVsShields ?_ g ⟨g.playerBullets, g.shields, rfl⟩
  intro i k hk
  unfold playerBulletVsShields
  split
  · refine forFin_invariant
      (fun k : Game => ∃ pb sh, k = { g with playerBullets := pb, shields := sh }) _ ?_ k hk
    intro s k hk
    exact forFin_invariant
      (fun k : Game => ∃ pb sh, k = { g with playerBullets := pb, shields := sh }) _
      (fun x k hk => playerBlockLoop_shape i s x _ g k hk) k hk
  · exact hk

theorem alienBlockLoop_shape (i : ASlot) (s : SIdx) (x : BX) (l : List BY) (g k : Game)
    (h : ∃ ab sh, k = { g with alienBullets := ab, shields := sh }) :
    ∃ ab sh, alienBlockLoop i s x l k = { g with alienBullets := ab, shields := sh } := by
  induction l with
  | nil => exact h
  | cons y rest ih =>
    unfold alienBlockLoop
    split
    · obtain ⟨ab, sh, rfl⟩ := h
      exact ⟨_, _, rfl⟩
    · exact ih

theorem alienBulletsVsShields_shape (g : Game) :
    ∃ ab sh, alienBulletsVsShields g = { g with alienBullets := ab, shields := sh } := by
  refine forFin_invariant
    (fun k : Game => ∃ ab sh, k = { g with alienBullets := ab, shields := sh })
    alienBulletVsShields ?_ g ⟨g.alienBullets, g.shields, rfl⟩
  intro i k hk
  unfold alienBulletVsShields
  split
  · refine forFin_invariant
      (fun k : Game => ∃ ab sh, k = { g with alienBullets := ab, shields := sh }) _ ?_ k hk
    intro s k hk
    exact forFin_invariant
      (fun k : Game => ∃ ab sh, k = { g with alienBullets := ab, shields := sh }) _
      (fun x k hk => alienBlockLoop_shape i s x _ g k hk) k hk
  · exact hk

theorem hitPlayer_shape (i : ASlot) (g : Game) :
    ∃ ab pl ex st t, hitPlayer i g =
        { g with alienBullets := ab, playerLives := pl, explosions := ex, state := st,
                 gameOverTimer := t } ∧
      (st = g.state ∨ st = .GAME_OVER) := by
  have key : ∀ (x y : Int) (k : Game),
      (∃ ab pl, k = { g with alienBullets := ab, playerLives := pl }) →
      ∃ ab pl ex st t,
        (if (CreateExplosion x y k).playerLives ≤ 0 then
          { CreateExplosion x y k with state := .GAME_OVER, gameOverTimer := 0 }
         else CreateExplosion x y k) =
          { g with alienBullets := ab, playerLives := pl, explosions := ex, state := st,
                   gameOverTimer := t } ∧
        (st = g.state ∨ st = .GAME_OVER) := by
    rintro x y k ⟨ab, pl, rfl⟩
    obtain ⟨ex, hex⟩ := CreateExplosion_shape x y
      { g with alienBullets := ab, playerLives := pl }
    rw [hex]
    split
    · exact ⟨_, _, _, _, _, rfl, Or.inr rfl⟩
    · exact ⟨_, _, _, _, _, rfl, Or.inl rfl⟩
  exact key _ _ _ ⟨_, _, rfl⟩

theorem alienBulletsVsPlayer_shape (l : List ASlot) (g : Game) :
    ∃ ab pl ex st t, alienBulletsVsPlayer l g =
        { g with alienBullets := ab, playerLives := pl, explosions := ex, state := st,
                 gameOverTimer := t } ∧
      (st = g.state ∨ st = .GAME_OVER) := by
  induction l with
  | nil => exact ⟨g.alienBullets, g.playerLives, g.explosions, g.state, g.gameOverTimer, rfl,
      Or.inl rfl⟩
  | cons i rest ih =>
    unfold alienBulletsVsPlayer
    split
    · exact hitPlayer_shape i g
    · exact ih

theorem hitAlien_shape (i : PSlot) (row : Row) (col : Col) (g k : Game)
    (h : ∃ al pb n sc ex, k =
      { g with aliens := al, playerBullets := pb, alienCount := n, score := sc,
               explosions := ex }) :
    ∃ al pb n sc ex, hitAlien i row col k =
      { g with aliens := al, playerBullets := pb, alienCount := n, score := sc,
               explosions := ex } := by
  obtain ⟨al, pb, n, sc, ex, rfl⟩ := h
  unfold hitAlien
  simp only []
  split
  · obtain ⟨ex', h⟩ := CreateExplosion_shape _ _ _
    rw [h]; exact ⟨_, _, _, _, _, rfl⟩
  · split
    · obtain ⟨ex', h⟩ := CreateExplosion_shape _ _ _
      rw [h]; exact ⟨_, _, _, _, _, rfl⟩
    · split
      · obtain ⟨ex', h⟩ := CreateExplosion_shape _ _ _
        rw [h]; exact ⟨_, _, _, _, _, rfl⟩
      · obtain ⟨ex', h⟩ := CreateExplosion_shape _ _ _
        rw [h]; exact ⟨_, _, _, _, _, rfl⟩

theorem alienColLoop_shape (i : PSlot) (row : Row) (l : List Col) (g k : Game)
    (h : ∃ al pb n sc ex, k =
      { g with aliens := al, playerBullets := pb, alienCount := n, score := sc,
               explosions := ex }) :
    ∃ al pb n sc ex, alienColLoop i row l k =
      { g with aliens := al, playerBullets := pb, alienCount := n, score := sc,
               explosions := ex } := by
  induction l with
  | nil => exact h
  | cons col rest ih =>
    unfold alienColLoop
    split
    · exact hitAlien_shape i row col g k h
    · exact ih

theorem playerBulletsVsAliens_shape (g : Game) :
    ∃ al pb n sc ex, playerBulletsVsAliens g =
      { g with aliens := al, playerBullets := pb, alienCount := n, score := sc,
               explosions := ex } := by
  refine forFin_invariant
    (fun k : Game => ∃ al pb n sc ex, k =
      { g with aliens := al, playerBullets := pb, alienCount := n, score := sc,
               explosions := ex })
    playerBulletVsAliens ?_ g ⟨g.aliens, g.playerBullets, g.alienCount, g.score, g.explosions, rfl⟩
  intro i k hk
  unfold playerBulletVsAliens
  split
  · exact forFin_invariant
      (fun k : Game => ∃ al pb n sc ex, k =
        { g with aliens := al, playerBullets := pb, alienCount := n, score := sc,
                 explosions := ex }) _
      (fun row k hk => alienColLoop_shape i row _ g k hk) k hk
  · exact hk

/-! ## `MoveAliens` -/

theorem mem_allCells (p : Row × Col) : p ∈ allCells := by
  obtain ⟨r, c⟩ := p
  simp [allCells, List.mem_flatMap, List.mem_finRange]

theorem allCells_nodup : allCells.Nodup := by decide

/-- The first element of a list with a given property, and what precedes it. -/
theorem exists_first {α : Type} (P : α → Prop) (l : List α) (h : ∃ a ∈ l, P a) :
    ∃ pre p post, l = pre ++ p :: post ∧ P p ∧ ∀ q ∈ pre, ¬ P q := by
  classical
  induction l with
  | nil => obtain ⟨a, ha, _⟩ := h; simp at ha
  | cons b rest ih =>
    by_cases hb : P b
    · exact ⟨[], b, rest, rfl, hb, by simp⟩
    · have : ∃ a ∈ rest, P a := by
        obtain ⟨a, ha, hPa⟩ := h
        rcases List.mem_cons.mp ha with rfl | ha'
        · exact absurd hPa hb
        · exact ⟨a, ha', hPa⟩
      obtain ⟨pre, p, post, hl, hp, hpre⟩ := ih this
      refine ⟨b :: pre, p, post, by simp [hl], hp, ?_⟩
      intro q hq
      rcases List.mem_cons.mp hq with rfl | hq'
      · exact hb
      · exact hpre q hq'

theorem shouldDropAndReverse_iff (g : Game) :
    shouldDropAndReverse g = true ↔
      (g.alienDirection = .DIR_RIGHT ∧
        ∃ row col, (g.aliens row col).alive = true ∧ (g.aliens row col).x + 40 + 2 > 800) ∨
      (g.alienDirection = .DIR_LEFT ∧
        ∃ row col, (g.aliens row col).alive = true ∧ (g.aliens row col).x - 2 < 0) := by
  unfold shouldDropAndReverse
  cases hd : g.alienDirection <;>
    simp [List.any_eq_true, List.mem_finRange]

theorem dropped_cons_dead (p : Row × Col) (l : List (Row × Col)) (k : Game)
    (hp : (k.aliens p.1 p.2).alive ≠ true) : dropped (p :: l) k = dropped l k := by
  funext r c
  unfold dropped
  by_cases h : (r, c) = p
  · subst h
    simp only [Bool.not_eq_true] at hp
    simp [hp]
  · simp [h]

theorem setAlien_aliens_other (k : Game) (p q : Row × Col) (a : Alien) (h : q ≠ p) :
    (setAlien k p.1 p.2 a).aliens q.1 q.2 = k.aliens q.1 q.2 := by
  simp only [setAlien]
  by_cases hr : q.1 = p.1
  · have hc : q.2 ≠ p.2 := fun hc => h (Prod.ext hr hc)
    rw [hr]
    simp [Function.update_noteq hc]
  · simp [Function.update_noteq hr]

theorem dropAlien_same (row : Row) (col : Col) (k : Game) :
    (dropAlien row col k).aliens row col =
      { k.aliens row col with y := (k.aliens row col).y + k.alienDropDistance } := by
  simp [dropAlien, setAlien]

theorem dropAlien_other (p q : Row × Col) (k : Game) (h : q ≠ p) :
    (dropAlien p.1 p.2 k).aliens q.1 q.2 = k.aliens q.1 q.2 :=
  setAlien_aliens_other k p q _ h

theorem dropAlien_eq (row : Row) (col : Col) (k : Game) :
    dropAlien row col k = { k with aliens := (dropAlien row col k).aliens } := rfl

theorem dropped_nil (k : Game) : dropped [] k = k.aliens := by
  funext r c; simp [dropped]

theorem dropped_cons_alive (p : Row × Col) (l : List (Row × Col)) (k : Game)
    (hp : (k.aliens p.1 p.2).alive = true) (hnot : p ∉ l) :
    dropped l (dropAlien p.1 p.2 k) = dropped (p :: l) k := by
  funext r c
  unfold dropped
  by_cases h : (r, c) = p
  · subst h
    simp [hnot, hp, dropAlien_same]
  · have hsame := dropAlien_other p (r, c) k h
    simp only at hsame
    rw [hsame]
    simp [h, dropAlien, setAlien]

theorem reachesPlayer_dropAlien (k : Game) (p q : Row × Col) (h : q ≠ p) :
    reachesPlayer (dropAlien p.1 p.2 k) q ↔ reachesPlayer k q := by
  unfold reachesPlayer
  rw [dropAlien_other p q k h]
  simp [dropAlien, setAlien]

theorem dropAliens_cons_dead (row : Row) (col : Col) (rest : List (Row × Col)) (k : Game)
    (h : (k.aliens row col).alive ≠ true) :
    dropAliens ((row, col) :: rest) k = dropAliens rest k := by
  rw [dropAliens, if_neg h]

theorem dropAliens_cons_go (row : Row) (col : Col) (rest : List (Row × Col)) (k : Game)
    (h : (k.aliens row col).alive = true) (hno : ¬ reachesPlayer k (row, col)) :
    dropAliens ((row, col) :: rest) k = dropAliens rest (dropAlien row col k) := by
  have hcond : ¬ (((dropAlien row col k).aliens row col).y + ALIEN_HEIGHT
      > (dropAlien row col k).playerY) := by
    rw [dropAlien_same]
    exact fun hc => hno ⟨h, hc⟩
  rw [dropAliens, if_pos h]
  exact if_neg hcond

theorem dropAliens_cons_stop (row : Row) (col : Col) (rest : List (Row × Col)) (k : Game)
    (hp : reachesPlayer k (row, col)) :
    dropAliens ((row, col) :: rest) k =
      ({ dropAlien row col k with playerLives := 0, state := .GAME_OVER, gameOverTimer := 0 },
        true) := by
  have hcond : (((dropAlien row col k).aliens row col).y + ALIEN_HEIGHT
      > (dropAlien row col k).playerY) := by
    rw [dropAlien_same]
    exact hp.2
  rw [dropAliens, if_pos hp.1]
  exact if_pos hcond

/-- The drop loops when no alien reaches the player. -/
theorem dropAliens_all (l : List (Row × Col)) (k : Game) (hl : l.Nodup)
    (hsafe : ∀ p ∈ l, ¬ reachesPlayer k p) :
    dropAliens l k = ({ k with aliens := dropped l k }, false) := by
  induction l generalizing k with
  | nil => rw [dropped_nil]; rfl
  | cons p rest ih =>
    obtain ⟨row, col⟩ := p
    have hnot : (row, col) ∉ rest := (List.nodup_cons.mp hl).1
    have hrest : rest.Nodup := (List.nodup_cons.mp hl).2
    by_cases halive : (k.aliens row col).alive = true
    · rw [dropAliens_cons_go row col rest k halive (hsafe _ (List.mem_cons_self _ _)),
        ih _ hrest, dropped_cons_alive (row, col) rest k halive hnot]
      · rfl
      · intro q hq
        have hne : q ≠ (row, col) := fun h => hnot (h ▸ hq)
        rw [reachesPlayer_dropAlien k (row, col) q hne]
        exact hsafe q (List.mem_cons_of_mem _ hq)
    · rw [dropAliens_cons_dead row col rest k halive,
        ih k hrest (fun q hq => hsafe q (List.mem_cons_of_mem _ hq)),
        dropped_cons_dead (row, col) rest k halive]

/-- The drop loops when `p` is the first cell whose alien reaches the player. -/
theorem dropAliens_stop (pre post : List (Row × Col)) (p : Row × Col) (k : Game)
    (hl : (pre ++ p :: post).Nodup)
    (hsafe : ∀ q ∈ pre, ¬ reachesPlayer k q) (hp : reachesPlayer k p) :
    dropAliens (pre ++ p :: post) k =
      ({ k with aliens := dropped (pre ++ [p]) k, playerLives := 0, state := .GAME_OVER,
                gameOverTimer := 0 }, true) := by
  induction pre generalizing k with
  | nil =>
    obtain ⟨row, col⟩ := p
    have h := dropped_cons_alive (row, col) [] k hp.1 (by simp)
    rw [dropped_nil] at h
    rw [List.nil_append, dropAliens_cons_stop row col post k hp, List.nil_append, ← h]
    rfl
  | cons q rest ih =>
    obtain ⟨row, col⟩ := q
    simp only [List.cons_append] at hl ⊢
    have hnot : (row, col) ∉ rest ++ p :: post := (List.nodup_cons.mp hl).1
    have hrest : (rest ++ p :: post).Nodup := (List.nodup_cons.mp hl).2
    have hnot' : (row, col) ∉ rest ++ [p] := by
      intro h
      apply hnot
      simp only [List.mem_append, List.mem_cons, List.mem_singleton, List.not_mem_nil,
        or_false] at h ⊢
      tauto
    have hpne : p ≠ (row, col) := fun h => hnot (by simp [h])
    by_cases halive : (k.aliens row col).alive = true
    · rw [dropAliens_cons_go row col _ k halive (hsafe _ (List.mem_cons_self _ _)),
        ih _ hrest, dropped_cons_alive (row, col) (rest ++ [p]) k halive hnot']
      · rfl
      · intro q hq'
        have hne : q ≠ (row, col) := fun h => hnot (by simp [← h, hq'])
        rw [reachesPlayer_dropAlien k (row, col) q hne]
        exact hsafe q (List.mem_cons_of_mem _ hq')
      · rw [reachesPlayer_dropAlien k (row, col) p hpne]
        exact hp
    · rw [dropAliens_cons_dead row col _ k halive,
        ih k hrest (fun q hq' => hsafe q (List.mem_cons_of_mem _ hq')) hp,
        dropped_cons_dead (row, col) (rest ++ [p]) k halive]

theorem dropped_mem (l : List (Row × Col)) (k : Game) (q : Row × Col) (hq : q ∈ l)
    (halive : (k.aliens q.1 q.2).alive = true) :
    dropped l k q.1 q.2 =
      { k.aliens q.1 q.2 with y := (k.aliens q.1 q.2).y + k.alienDropDistance } := by
  simp [dropped, hq, halive]

theorem dropped_dead (l : List (Row × Col)) (k : Game) (q : Row × Col)
    (hdead : (k.aliens q.1 q.2).alive ≠ true) : dropped l k q.1 q.2 = k.aliens q.1 q.2 := by
  simp [dropped, hdead]

theorem dropped_not_mem (l : List (Row × Col)) (k : Game) (q : Row × Col) (hq : q ∉ l) :
    dropped l k q.1 q.2 = k.aliens q.1 q.2 := by
  simp [dropped, hq]

theorem dropped_x (l : List (Row × Col)) (k : Game) (r : Row) (c : Col) :
    (dropped l k r c).x = (k.aliens r c).x := by
  unfold dropped
  split <;> rfl

theorem dropped_alive (l : List (Row × Col)) (k : Game) (r : Row) (c : Col) :
    (dropped l k r c).alive = (k.aliens r c).alive := by
  unfold dropped
  split <;> rfl

/-- `MoveAliens` at an edge when no alien reaches the player: all aliens alive
drop and the direction is reversed. -/
theorem MoveAliens_drop (g : Game) (hflag : shouldDropAndReverse g = true)
    (hsafe : ∀ p, ¬ reachesPlayer g p) :
    MoveAliens g =
      { g with aliens := dropped allCells g, alienDirection := g.alienDirection.reversed } := by
  unfold MoveAliens
  rw [if_pos hflag, dropAliens_all allCells g allCells_nodup (fun p _ => hsafe p)]
  cases hd : g.alienDirection <;> simp [hd, Direction.reversed]

/-- `MoveAliens` at an edge when `p` is the first cell, in row-major order,
whose alien reaches the player. -/
theorem MoveAliens_stop (g : Game) (hflag : shouldDropAndReverse g = true)
    (pre post : List (Row × Col)) (p : Row × Col) (hsplit : allCells = pre ++ p :: post)
    (hsafe : ∀ q ∈ pre, ¬ reachesPlayer g q) (hp : reachesPlayer g p) :
    MoveAliens g =
      { g with aliens := dropped (pre ++ [p]) g, playerLives := 0, state := .GAME_OVER,
               gameOverTimer := 0 } := by
  unfold MoveAliens
  rw [if_pos hflag, hsplit,
    dropAliens_stop pre post p g (hsplit ▸ allCells_nodup) hsafe hp]

/-! ## The tick -/

theorem TickFrame.refl (g : Game) : TickFrame g g :=
  ⟨rfl, rfl, rfl, rfl, rfl, rfl, Or.inl rfl⟩

theorem TickFrame.trans {a b c : Game} (h1 : TickFrame a b) (h2 : TickFrame b c) :
    TickFrame a c := by
  obtain ⟨a1, a2, a3, a4, a5, a6, a7⟩ := h1
  obtain ⟨b1, b2, b3, b4, b5, b6, b7⟩ := h2
  refine ⟨b1.trans a1, b2.trans a2, b3.trans a3, b4.trans a4, b5.trans a5, b6.trans a6, ?_⟩
  rcases b7 with h | h
  · rw [h]; exact a7
  · exact Or.inr h

theorem shiftAliens_shape (m : Int) (g : Game) :
    ∃ al, forFin 5 (fun row => forFin 11 (fun col => shiftAlien m row col)) g =
      { g with aliens := al } := by
  refine forFin_invariant (fun k : Game => ∃ al, k = { g with aliens := al }) _ ?_ g
    ⟨g.aliens, rfl⟩
  intro row k hk
  refine forFin_invariant (fun k : Game => ∃ al, k = { g with aliens := al }) _ ?_ k hk
  rintro col k ⟨al, rfl⟩
  unfold shiftAlien
  split <;> exact ⟨_, rfl⟩

theorem MoveAliens_shape (g : Game) :
    ∃ al d pl st t, MoveAliens g =
        { g with aliens := al, alienDirection := d, playerLives := pl, state := st,
                 gameOverTimer := t } ∧
      (st = g.state ∨ st = .GAME_OVER) := by
  by_cases hflag : shouldDropAndReverse g = true
  · by_cases hex : ∃ a ∈ allCells, reachesPlayer g a
    · obtain ⟨pre, p, post, hsplit, hp, hpre⟩ := exists_first (reachesPlayer g) allCells hex
      exact ⟨_, _, _, _, _, MoveAliens_stop g hflag pre post p hsplit hpre hp, Or.inr rfl⟩
    · have hsafe : ∀ p, ¬ reachesPlayer g p := fun p hp => hex ⟨p, mem_allCells p, hp⟩
      exact ⟨_, _, _, _, _, MoveAliens_drop g hflag hsafe, Or.inl rfl⟩
  · unfold MoveAliens
    rw [if_neg hflag]
    obtain ⟨al, h⟩ := shiftAliens_shape
      (if g.alienDirection = .DIR_RIGHT then ALIEN_MOVE_SPEED else -ALIEN_MOVE_SPEED) g
    exact ⟨al, _, _, _, _, h, Or.inl rfl⟩

theorem tickMoveAliens_shape (g : Game) :
    ∃ al d pl st t mt, tickMoveAliens g =
        { g with aliens := al, alienDirection := d, playerLives := pl, state := st,
                 gameOverTimer := t, alienMoveTimer := mt } ∧
      (st = g.state ∨ st = .GAME_OVER) := by
  unfold tickMoveAliens
  simp only []
  split
  · obtain ⟨al, d, pl, st, t, h, hst⟩ :=
      MoveAliens_shape { g with alienMoveTimer := 0 }
    exact ⟨al, d, pl, st, t, 0, h, hst⟩
  · exact ⟨_, _, _, _, _, _, rfl, Or.inl rfl⟩

theorem tickMoveAliens_frame (g : Game) : TickFrame g (tickMoveAliens g) := by
  obtain ⟨al, d, pl, st, t, mt, h, hst⟩ := tickMoveAliens_shape g
  rw [h]
  exact ⟨rfl, rfl, rfl, rfl, rfl, rfl, hst⟩

theorem tickAlienShooting_frame (rand : Nat → Nat) (g : Game) :
    TickFrame g (tickAlienShooting rand g) := by
  obtain ⟨ab, t, h⟩ := tickAlienShooting_shape rand g
  rw [h]
  exact ⟨rfl, rfl, rfl, rfl, rfl, rfl, Or.inl rfl⟩

theorem tickPlayerBullets_frame (g : Game) : TickFrame g (tickPlayerBullets g) := by
  obtain ⟨pb, h⟩ := tickPlayerBullets_shape g
  rw [h]
  exact ⟨rfl, rfl, rfl, rfl, rfl, rfl, Or.inl rfl⟩

theorem tickAlienBullets_frame (g : Game) : TickFrame g (tickAlienBullets g) := by
  obtain ⟨ab, h⟩ := tickAlienBullets_shape g
  rw [h]
  exact ⟨rfl, rfl, rfl, rfl, rfl, rfl, Or.inl rfl⟩

theorem tickExplosions_frame (g : Game) : TickFrame g (tickExplosions g) := by
  obtain ⟨ex, h⟩ := tickExplosions_shape g
  rw [h]
  exact ⟨rfl, rfl, rfl, rfl, rfl, rfl, Or.inl rfl⟩

theorem playerBulletsVsAliens_frame (g : Game) : TickFrame g (playerBulletsVsAliens g) := by
  obtain ⟨al, pb, n, sc, ex, h⟩ := playerBulletsVsAliens_shape g
  rw [h]
  exact ⟨rfl, rfl, rfl, rfl, rfl, rfl, Or.inl rfl⟩

theorem alienBulletsVsPlayer_frame (l : List ASlot) (g : Game) :
    TickFrame g (alienBulletsVsPlayer l g) := by
  obtain ⟨ab, pl, ex, st, t, h, hst⟩ := alienBulletsVsPlayer_shape l g
  rw [h]
  exact ⟨rfl, rfl, rfl, rfl, rfl, rfl, hst⟩

theorem playerBulletsVsShields_frame (g : Game) : TickFrame g (playerBulletsVsShields g) := by
  obtain ⟨pb, sh, h⟩ := playerBulletsVsShields_shape g
  rw [h]
  exact ⟨rfl, rfl, rfl, rfl, rfl, rfl, Or.inl rfl⟩

theorem alienBulletsVsShields_frame (g : Game) : TickFrame g (alienBulletsVsShields g) := by
  obtain ⟨ab, sh, h⟩ := alienBulletsVsShields_shape g
  rw [h]
  exact ⟨rfl, rfl, rfl, rfl, rfl, rfl, Or.inl rfl⟩

theorem CheckCollisions_frame (g : Game) : TickFrame g (CheckCollisions g) :=
  (((playerBulletsVsAliens_frame g).trans (alienBulletsVsPlayer_frame _ _)).trans
    (playerBulletsVsShields_frame _)).trans (alienBulletsVsShields_frame _)

theorem tickUntilCollisions_frame (rand : Nat → Nat) (g : Game) :
    TickFrame g (tickUntilCollisions rand g) :=
  (((((tickMoveAliens_frame g).trans (tickAlienShooting_frame rand _)).trans
    (tickPlayerBullets_frame _)).trans (tickAlienBullets_frame _)).trans
    (tickExplosions_frame _)).trans (CheckCollisions_frame _)

theorem UpdateGame_playing (rand : Nat → Nat) (g : Game) (h : g.state = .GAME_PLAYING) :
    UpdateGame rand g = tickWinCondition (tickUntilCollisions rand g) := by
  rw [UpdateGame, if_pos h]

theorem tickWinCondition_clear (k : Game) (h : k.alienCount = 0) :
    tickWinCondition k =
      if k.level + 1 > 10 then { k with level := k.level + 1, state := .GAME_WIN }
      else InitializeLevel { k with level := k.level + 1 } := by
  rw [tickWinCondition, if_pos h]

/-- C7: when the collision pass of a playing tick ends with `alienCount = 0`,
the tick raises `level` by exactly 1. If the new level exceeds 10 the state
becomes `GAME_WIN` and nothing else is written: formation and shields are as
the collision pass left them. Otherwise `InitializeLevel` runs on the new
level: all 55 enemies are alive, `alienCount = 55`, the shields are fresh, the
delays are `max 10 (30 - 2 * level)` and `max 20 (60 - 5 * level)` of the new
level, and the state is not `GAME_WIN`. -/
theorem UpdateGame_level_cleared (rand : Nat → Nat) (g : Game)
    (hplay : g.state = .GAME_PLAYING)
    (hclear : (tickUntilCollisions rand g).alienCount = 0) :
    (UpdateGame rand g).level = g.level + 1 ∧
    (g.level + 1 > 10 →
      (UpdateGame rand g).state = .GAME_WIN ∧
      UpdateGame rand g =
        { tickUntilCollisions rand g with level := g.level + 1, state := .GAME_WIN } ∧
      (UpdateGame rand g).aliens = (tickUntilCollisions rand g).aliens ∧
      (UpdateGame rand g).alienCount = 0 ∧
      (UpdateGame rand g).shields = (tickUntilCollisions rand g).shields) ∧
    (¬ (g.level + 1 > 10) →
      UpdateGame rand g =
        InitializeLevel { tickUntilCollisions rand g with level := g.level + 1 } ∧
      (∀ row col, ((UpdateGame rand g).aliens row col).alive = true) ∧
      (UpdateGame rand g).aliens = freshAlien ∧
      (UpdateGame rand g).alienCount = 55 ∧
      (UpdateGame rand g).shields = freshShield ∧
      (UpdateGame rand g).alienMoveDelay = max 10 (30 - (g.level + 1) * 2) ∧
      (UpdateGame rand g).alienShootDelay = max 20 (60 - (g.level + 1) * 5) ∧
      (UpdateGame rand g).state ≠ .GAME_WIN) := by
  obtain ⟨_, _, hlevel, _, _, _, hstate⟩ := tickUntilCollisions_frame rand g
  have hupd := UpdateGame_playing rand g hplay
  rw [tickWinCondition_clear _ hclear, hlevel] at hupd
  generalize tickUntilCollisions rand g = k at hupd hclear hstate
  generalize UpdateGame rand g = u at hupd
  subst hupd
  have hk : k.state ≠ .GAME_WIN := by
    rcases hstate with h | h
    · rw [h, hplay]; decide
    · rw [h]; decide
  refine ⟨?_, ?_, ?_⟩
  · split
    · rfl
    · rw [InitializeLevel_eq]
  · intro hwin
    rw [if_pos hwin]
    exact ⟨rfl, rfl, rfl, hclear, rfl⟩
  · intro hnext
    rw [if_neg hnext, InitializeLevel_eq]
    exact ⟨rfl, fun _ _ => rfl, rfl, rfl, rfl, rfl, rfl, hk⟩

/-! ## The game-over screen -/

theorem UpdateGame_gameOver (rand : Nat → Nat) (g : Game) (h : g.state = .GAME_OVER) :
    UpdateGame rand g =
      if g.gameOverTimer + 1 > 180 then
        { g with gameOverTimer := g.gameOverTimer + 1, state := .GAME_MENU }
      else { g with gameOverTimer := g.gameOverTimer + 1 } := by
  have hne : g.state ≠ .GAME_PLAYING := by rw [h]; decide
  rw [UpdateGame, if_neg hne, if_pos h]

theorem runTicks_gameOver (rands : List (Nat → Nat)) (g : Game) (h : g.state = .GAME_OVER)
    (hlen : g.gameOverTimer + rands.length ≤ 180) :
    runTicks rands g = { g with gameOverTimer := g.gameOverTimer + rands.length } := by
  induction rands generalizing g with
  | nil => simp [runTicks]
  | cons r rest ih =>
    simp only [List.length_cons, Nat.cast_add, Nat.cast_one] at hlen
    have hstep : UpdateGame r g = { g with gameOverTimer := g.gameOverTimer + 1 } := by
      rw [UpdateGame_gameOver r g h, if_neg (by omega)]
    have := ih { g with gameOverTimer := g.gameOverTimer + 1 } h (by simp only []; omega)
    simp only [runTicks, List.foldl_cons] at this ⊢
    rw [hstep, this]
    simp only [List.length_cons, Nat.cast_add, Nat.cast_one]
    congr 1
    ring

/-- The previous theorem at a level-3 state in which the last alien is shot
during the tick: level 4 starts with a fresh formation. -/
theorem UpdateGame_level_cleared_witness :
    (UpdateGame (fun _ => 0) lastShotGame).level = lastShotGame.level + 1 ∧
    (lastShotGame.level + 1 > 10 →
      (UpdateGame (fun _ => 0) lastShotGame).state = .GAME_WIN ∧
      UpdateGame (fun _ => 0) lastShotGame =
        { tickUntilCollisions (fun _ => 0) lastShotGame with
          level := lastShotGame.level + 1, state := .GAME_WIN } ∧
      (UpdateGame (fun _ => 0) lastShotGame).aliens =
        (tickUntilCollisions (fun _ => 0) lastShotGame).aliens ∧
      (UpdateGame (fun _ => 0) lastShotGame).alienCount = 0 ∧
      (UpdateGame (fun _ => 0) lastShotGame).shields =
        (tickUntilCollisions (fun _ => 0) lastShotGame).shields) ∧
    (¬ (lastShotGame.level + 1 > 10) →
      UpdateGame (fun _ => 0) lastShotGame =
        InitializeLevel { tickUntilCollisions (fun _ => 0) lastShotGame with
          level := lastShotGame.level + 1 } ∧
      (∀ row col, ((UpdateGame (fun _ => 0) lastShotGame).aliens row col).alive = true) ∧
      (UpdateGame (fun _ => 0) lastShotGame).aliens = freshAlien ∧
      (UpdateGame (fun _ => 0) lastShotGame).alienCount = 55 ∧
      (UpdateGame (fun _ => 0) lastShotGame).shields = freshShield ∧
      (UpdateGame (fun _ => 0) lastShotGame).alienMoveDelay =
        max 10 (30 - (lastShotGame.level + 1) * 2) ∧
      (UpdateGame (fun _ => 0) lastShotGame).alienShootDelay =
        max 20 (60 - (lastShotGame.level + 1) * 5) ∧
      (UpdateGame (fun _ => 0) lastShotGame).state ≠ .GAME_WIN) :=
  UpdateGame_level_cleared (fun _ => 0) lastShotGame rfl
    (by set_option maxRecDepth 100000 in decide)

/-- C5, evaluated where it fails: in `finalShotGame` (level 10, one life, one
alien alive) alien bullet 0 is still active when the collision pass of the tick
starts; the pass lets it hit the player, which brings `playerLives` from 1 to 0
and sets `GAME_OVER` with `gameOverTimer = 0`, and the bullet is deactivated.
The same pass kills the last alien, so the win check that follows raises the
level to 11 and overwrites the state: the tick ends in `GAME_WIN`, not
`GAME_OVER`. -/
theorem UpdateGame_last_life_and_last_alien :
    finalShotGame.state = .GAME_PLAYING ∧ finalShotGame.playerLives = 1 ∧
    finalShotGame.alienCount = countAlive finalShotGame ∧
    ((tickExplosions (tickAlienBullets (tickPlayerBullets (tickAlienShooting (fun _ => 0)
      (tickMoveAliens finalShotGame))))).alienBullets 0).active = true ∧
    (tickUntilCollisions (fun _ => 0) finalShotGame).playerLives = 0 ∧
    (tickUntilCollisions (fun _ => 0) finalShotGame).state = .GAME_OVER ∧
    (tickUntilCollisions (fun _ => 0) finalShotGame).gameOverTimer = 0 ∧
    ((tickUntilCollisions (fun _ => 0) finalShotGame).alienBullets 0).active = false ∧
    (UpdateGame (fun _ => 0) finalShotGame).playerLives = 0 ∧
    (UpdateGame (fun _ => 0) finalShotGame).level = 11 ∧
    (UpdateGame (fun _ => 0) finalShotGame).state = .GAME_WIN ∧
    (UpdateGame (fun _ => 0) finalShotGame).state ≠ .GAME_OVER := by
  set_option maxRecDepth 100000 in decide

/-- C6, as the code has it: from `GAME_OVER` with `gameOverTimer = 0`, after
exactly 180 ticks without a key press the timer is 180, which is not `> 180`,
and the state is still `GAME_OVER`; it is the 181st tick that sets `GAME_MENU`. -/
theorem gameOver_screen_lasts_181_ticks (g : Game) (rands : List (Nat → Nat))
    (rand : Nat → Nat)
    (hover : g.state = .GAME_OVER) (htimer : g.gameOverTimer = 0)
    (hlen : rands.length = 180) :
    (runTicks rands g).state = .GAME_OVER ∧
    (runTicks rands g).state ≠ .GAME_MENU ∧
    (runTicks rands g).gameOverTimer = 180 ∧
    (runTicks (rands ++ [rand]) g).state = .GAME_MENU := by
  have h180 := runTicks_gameOver rands g hover (by rw [htimer, hlen]; norm_num)
  rw [htimer, hlen] at h180
  have hlast : runTicks (rands ++ [rand]) g = UpdateGame rand (runTicks rands g) := by
    simp [runTicks, List.foldl_append]
  rw [hlast, h180]
  refine ⟨hover, by rw [hover]; decide, by norm_num, ?_⟩
  rw [UpdateGame_gameOver rand { g with gameOverTimer := 0 + (180 : Nat) } hover]
  norm_num

/-- The previous theorem at a game just lost. -/
theorem gameOver_screen_lasts_181_ticks_witness :
    (runTicks (List.replicate 180 (fun _ => 0)) lostGame).state = .GAME_OVER ∧
    (runTicks (List.replicate 180 (fun _ => 0)) lostGame).state ≠ .GAME_MENU ∧
    (runTicks (List.replicate 180 (fun _ => 0)) lostGame).gameOverTimer = 180 ∧
    (runTicks (List.replicate 180 (fun _ => 0) ++ [fun _ => 0]) lostGame).state = .GAME_MENU :=
  gameOver_screen_lasts_181_ticks lostGame (List.replicate 180 (fun _ => 0)) (fun _ => 0)
    rfl rfl (List.length_replicate _ _)

/-! ## Player bullets against aliens -/

theorem hitAlien_eq (i : PSlot) (row : Row) (col : Col) (g : Game) :
    ∃ sc ex, hitAlien i row col g =
      { g with
        aliens := Function.update g.aliens row
          (Function.update (g.aliens row) col { g.aliens row col with alive := false })
        playerBullets := Function.update g.playerBullets i
          { g.playerBullets i with active := false }
        alienCount := g.alienCount - 1
        score := sc
        explosions := ex } := by
  have key : ∀ (x y : Int) (k : Game), ∃ ex, CreateExplosion x y k =
      { k with explosions := ex } := CreateExplosion_shape
  unfold hitAlien
  simp only []
  split
  · obtain ⟨ex, h⟩ := key _ _ _
    rw [h]; exact ⟨_, _, rfl⟩
  · split
    · obtain ⟨ex, h⟩ := key _ _ _
      rw [h]; exact ⟨_, _, rfl⟩
    · split
      · obtain ⟨ex, h⟩ := key _ _ _
        rw [h]; exact ⟨_, _, rfl⟩
      · obtain ⟨ex, h⟩ := key _ _ _
        rw [h]; exact ⟨_, _, rfl⟩

theorem hitAlien_aliens_same (i : PSlot) (row : Row) (col : Col) (g : Game) :
    (hitAlien i row col g).aliens row col = { g.aliens row col with alive := false } := by
  obtain ⟨sc, ex, h⟩ := hitAlien_eq i row col g
  rw [h]
  simp

theorem hitAlien_aliens_other (i : PSlot) (p q : Row × Col) (g : Game) (h : q ≠ p) :
    (hitAlien i p.1 p.2 g).aliens q.1 q.2 = g.aliens q.1 q.2 := by
  obtain ⟨sc, ex, heq⟩ := hitAlien_eq i p.1 p.2 g
  rw [heq]
  exact setAlien_aliens_other g p q _ h

theorem hitAlien_bullet_same (i : PSlot) (row : Row) (col : Col) (g : Game) :
    (hitAlien i row col g).playerBullets i = { g.playerBullets i with active := false } := by
  obtain ⟨sc, ex, h⟩ := hitAlien_eq i row col g
  rw [h]
  simp

theorem hitAlien_bullet_other (i j : PSlot) (row : Row) (col : Col) (g : Game) (h : j ≠ i) :
    (hitAlien i row col g).playerBullets j = g.playerBullets j := by
  obtain ⟨sc, ex, heq⟩ := hitAlien_eq i row col g
  rw [heq]
  simp [Function.update_noteq h]

theorem hitAlien_alienCount (i : PSlot) (row : Row) (col : Col) (g : Game) :
    (hitAlien i row col g).alienCount = g.alienCount - 1 := by
  obtain ⟨sc, ex, h⟩ := hitAlien_eq i row col g
  rw [h]

theorem alienColLoop_cons_hit (i : PSlot) (row : Row) (col : Col) (rest : List Col)
    (g : Game) (h : hitsCell g i (row, col)) :
    alienColLoop i row (col :: rest) g = hitAlien i row col g := by
  rw [alienColLoop]
  exact if_pos h

theorem alienColLoop_cons_miss (i : PSlot) (row : Row) (col : Col) (rest : List Col)
    (g : Game) (h : ¬ hitsCell g i (row, col)) :
    alienColLoop i row (col :: rest) g = alienColLoop i row rest g := by
  rw [alienColLoop]
  exact if_neg h

theorem alienColLoop_none (i : PSlot) (row : Row) (l : List Col) (g : Game)
    (h : ∀ col ∈ l, ¬ hitsCell g i (row, col)) : alienColLoop i row l g = g := by
  induction l with
  | nil => rfl
  | cons col rest ih =>
    rw [alienColLoop_cons_miss i row col rest g (h col (List.mem_cons_self _ _))]
    exact ih fun c hc => h c (List.mem_cons_of_mem _ hc)

theorem alienColLoop_first (i : PSlot) (row : Row) (pre post : List Col) (col : Col)
    (g : Game) (hpre : ∀ c ∈ pre, ¬ hitsCell g i (row, c)) (h : hitsCell g i (row, col)) :
    alienColLoop i row (pre ++ col :: post) g = hitAlien i row col g := by
  induction pre with
  | nil => exact alienColLoop_cons_hit i row col post g h
  | cons c rest ih =>
    rw [List.cons_append,
      alienColLoop_cons_miss i row c _ g (hpre c (List.mem_cons_self _ _))]
    exact ih fun c' hc' => hpre c' (List.mem_cons_of_mem _ hc')

/-- After the hit at `p` no cell passes the test for bullet `i` that did not
pass it before, and `p` no longer does. -/
theorem hitsCell_hitAlien (i : PSlot) (p q : Row × Col) (g : Game) :
    hitsCell (hitAlien i p.1 p.2 g) i q → hitsCell g i q ∧ q ≠ p := by
  intro h
  by_cases hq : q = p
  · subst hq
    obtain ⟨halive, _⟩ := h
    rw [hitAlien_aliens_same] at halive
    simp at halive
  · refine ⟨?_, hq⟩
    unfold hitsCell at h ⊢
    rw [hitAlien_aliens_other i p q g hq, hitAlien_bullet_same] at h
    exact h

/-- The row loop for bullet `i` over the rows of `l` when no cell of these rows
is hit. -/
theorem alienRows_none (i : PSlot) (l : List Row) (g : Game)
    (h : ∀ row ∈ l, ∀ col, ¬ hitsCell g i (row, col)) :
    l.foldl (fun acc row => alienColLoop i row (List.finRange 11) acc) g = g := by
  induction l with
  | nil => rfl
  | cons row rest ih =>
    rw [List.foldl_cons,
      alienColLoop_none i row _ g (fun col _ => h row (List.mem_cons_self _ _) col)]
    exact ih fun r hr => h r (List.mem_cons_of_mem _ hr)

/-- The row loop for bullet `i` when exactly one cell is hit. -/
theorem alienRows_unique (i : PSlot) (l : List Row) (g : Game) (p : Row × Col)
    (hmem : p.1 ∈ l) (hp : hitsCell g i p) (huniq : ∀ q, hitsCell g i q → q = p) :
    l.foldl (fun acc row => alienColLoop i row (List.finRange 11) acc) g =
      hitAlien i p.1 p.2 g := by
  induction l with
  | nil => simp at hmem
  | cons row rest ih =>
    rw [List.foldl_cons]
    by_cases hrow : row = p.1
    · subst hrow
      obtain ⟨pre, post, hsplit⟩ := List.append_of_mem (List.mem_finRange p.2)
      have hnodup : (pre ++ p.2 :: post).Nodup := hsplit ▸ List.nodup_finRange 11
      have hpre : ∀ c ∈ pre, ¬ hitsCell g i (p.1, c) := by
        intro c hc hhit
        have := huniq (p.1, c) hhit
        have hc2 : c = p.2 := by rw [← this]
        subst hc2
        rw [List.nodup_append] at hnodup
        exact hnodup.2.2 hc (List.mem_cons_self _ _)
      have hcol : alienColLoop i p.1 (List.finRange 11) g = hitAlien i p.1 p.2 g := by
        rw [hsplit]
        exact alienColLoop_first i p.1 pre post p.2 g hpre hp
      rw [hcol]
      apply alienRows_none
      intro r _ c hhit
      obtain ⟨hhit', hne⟩ := hitsCell_hitAlien i p (r, c) g hhit
      exact hne (huniq _ hhit')
    · have hmem' : p.1 ∈ rest := by
        rcases List.mem_cons.mp hmem with h | h
        · exact absurd h.symm hrow
        · exact h
      have hnone : ∀ col ∈ List.finRange 11, ¬ hitsCell g i (row, col) := by
        intro col _ hhit
        have := huniq (row, col) hhit
        exact hrow (by rw [← this])
      rw [alienColLoop_none i row _ g hnone]
      exact ih hmem'

theorem playerBulletVsAliens_inactive (i : PSlot) (g : Game)
    (h : (g.playerBullets i).active = false) : playerBulletVsAliens i g = g := by
  rw [playerBulletVsAliens, if_neg (by simp [h])]

theorem playerBulletVsAliens_unique (i : PSlot) (g : Game) (p : Row × Col)
    (hactive : (g.playerBullets i).active = true)
    (hp : hitsCell g i p) (huniq : ∀ q, hitsCell g i q → q = p) :
    playerBulletVsAliens i g = hitAlien i p.1 p.2 g := by
  rw [playerBulletVsAliens, if_pos hactive]
  exact alienRows_unique i _ g p (List.mem_finRange _) hp huniq

theorem playerBullets_all_inactive (l : List PSlot) (g : Game)
    (h : ∀ j ∈ l, (g.playerBullets j).active = false) :
    l.foldl (fun acc j => playerBulletVsAliens j acc) g = g := by
  induction l with
  | nil => rfl
  | cons j rest ih =>
    rw [List.foldl_cons, playerBulletVsAliens_inactive j g (h j (List.mem_cons_self _ _))]
    exact ih fun k hk => h k (List.mem_cons_of_mem _ hk)

/-- The first block of `CheckCollisions` when bullet `i` is the only active
player bullet and `p` is the only cell it hits. -/
theorem playerBulletsVsAliens_single (g : Game) (i : PSlot) (p : Row × Col)
    (hactive : (g.playerBullets i).active = true)
    (honly : ∀ j, j ≠ i → (g.playerBullets j).active = false)
    (hp : hitsCell g i p) (huniq : ∀ q, hitsCell g i q → q = p) :
    playerBulletsVsAliens g = hitAlien i p.1 p.2 g := by
  unfold playerBulletsVsAliens forFin
  obtain ⟨pre, post, hsplit⟩ := List.append_of_mem (List.mem_finRange i)
  have hnodup : (pre ++ i :: post).Nodup := hsplit ▸ List.nodup_finRange 3
  rw [List.nodup_append] at hnodup
  obtain ⟨_, hnd2, hdisj⟩ := hnodup
  rw [hsplit, List.foldl_append, List.foldl_cons]
  rw [playerBullets_all_inactive pre g (fun j hj =>
    honly j (fun hji => hdisj hj (hji ▸ List.mem_cons_self _ _)))]
  rw [playerBulletVsAliens_unique i g p hactive hp huniq]
  apply playerBullets_all_inactive
  intro j hj
  have hji : j ≠ i := fun h => (List.nodup_cons.mp hnd2).1 (h ▸ hj)
  rw [hitAlien_bullet_other i j p.1 p.2 g hji]
  exact honly j hji

theorem playerBulletsVsShields_inactive (g : Game)
    (h : ∀ j, (g.playerBullets j).active = false) : playerBulletsVsShields g = g := by
  refine forFin_invariant (fun k : Game => k = g) playerBulletVsShields ?_ g rfl
  rintro j k rfl
  rw [playerBulletVsShields, if_neg (by simp [h j])]

/-- What `CheckCollisions` does to aliens and player bullets when bullet `i` is
the only active player bullet and `p` is the only cell it hits. -/
theorem CheckCollisions_single (g : Game) (i : PSlot) (p : Row × Col)
    (hactive : (g.playerBullets i).active = true)
    (honly : ∀ j, j ≠ i → (g.playerBullets j).active = false)
    (hp : hitsCell g i p) (huniq : ∀ q, hitsCell g i q → q = p) :
    (CheckCollisions g).aliens = (hitAlien i p.1 p.2 g).aliens ∧
    (CheckCollisions g).playerBullets = (hitAlien i p.1 p.2 g).playerBullets ∧
    (CheckCollisions g).alienCount = g.alienCount - 1 := by
  unfold CheckCollisions
  rw [playerBulletsVsAliens_single g i p hactive honly hp huniq]
  have hcount := hitAlien_alienCount i p.1 p.2 g
  have hbul : ∀ j, ((hitAlien i p.1 p.2 g).playerBullets j).active = false := by
    intro j
    by_cases hj : j = i
    · subst hj; rw [hitAlien_bullet_same]
    · rw [hitAlien_bullet_other i j p.1 p.2 g hj]; exact honly j hj
  generalize hitAlien i p.1 p.2 g = g1 at hbul hcount ⊢
  obtain ⟨ab, pl, ex, st, t, h2, _⟩ := alienBulletsVsPlayer_shape (List.finRange 8) g1
  have hb2 : ∀ j, ((alienBulletsVsPlayer (List.finRange 8) g1).playerBullets j).active
      = false := by
    rw [h2]; exact hbul
  have ha2 : (alienBulletsVsPlayer (List.finRange 8) g1).aliens = g1.aliens := by rw [h2]
  have hp2 : (alienBulletsVsPlayer (List.finRange 8) g1).playerBullets = g1.playerBullets := by
    rw [h2]
  have hc2 : (alienBulletsVsPlayer (List.finRange 8) g1).alienCount = g1.alienCount := by
    rw [h2]
  generalize alienBulletsVsPlayer (List.finRange 8) g1 = g2 at hb2 ha2 hp2 hc2 ⊢
  rw [playerBulletsVsShields_inactive g2 hb2]
  obtain ⟨ab', sh', h4⟩ := alienBulletsVsShields_shape g2
  rw [h4]
  exact ⟨ha2, hp2, hc2.trans hcount⟩

/-- A point strictly inside one rectangle and inside (edges included) another
makes the two rectangles overlap. -/
theorem overlap_of_inside (b : Bullet) (a a' : Alien)
    (h : strictlyInside b a) (h' : inAlien b a') : overlap a a' := by
  unfold strictlyInside at h
  unfold inAlien at h'
  unfold overlap
  simp only [ALIEN_WIDTH, ALIEN_HEIGHT] at *
  omega

/-- C1: in a state in which the rectangles of any two distinct alive enemies do
not overlap, player bullet `i` is the only active player bullet, and its point
lies strictly inside the 40x40 rectangle of the alive enemy at (`row`, `col`),
one `CheckCollisions` pass leaves that enemy dead and bullet `i` inactive;
every other enemy, in particular every other enemy of column `col` that was
alive, is as before and so still alive; `alienCount` is lowered by 1. -/
theorem CheckCollisions_kills_exactly_the_hit (g : Game) (i : PSlot) (row : Row) (col : Col)
    (hsep : ∀ p q : Row × Col, p ≠ q → (g.aliens p.1 p.2).alive = true →
      (g.aliens q.1 q.2).alive = true → ¬ overlap (g.aliens p.1 p.2) (g.aliens q.1 q.2))
    (hactive : (g.playerBullets i).active = true)
    (honly : ∀ j, j ≠ i → (g.playerBullets j).active = false)
    (halive : (g.aliens row col).alive = true)
    (hinside : strictlyInside (g.playerBullets i) (g.aliens row col)) :
    ((CheckCollisions g).aliens row col).alive = false ∧
    ((CheckCollisions g).playerBullets i).active = false ∧
    (∀ r, r ≠ row → (g.aliens r col).alive = true →
      ((CheckCollisions g).aliens r col).alive = true) ∧
    (∀ r c, (r, c) ≠ (row, col) → (CheckCollisions g).aliens r c = g.aliens r c) ∧
    (CheckCollisions g).alienCount = g.alienCount - 1 := by
  have hp : hitsCell g i (row, col) := by
    refine ⟨halive, ?_⟩
    unfold strictlyInside at hinside
    unfold inAlien
    simp only [ALIEN_WIDTH, ALIEN_HEIGHT] at *
    omega
  have huniq : ∀ q, hitsCell g i q → q = (row, col) := by
    intro q hq
    by_contra hne
    exact hsep (row, col) q (fun h => hne h.symm) halive hq.1
      (overlap_of_inside _ _ _ hinside hq.2)
  obtain ⟨hal, hpb, hcnt⟩ := CheckCollisions_single g i (row, col) hactive honly hp huniq
  have hother : ∀ r c, (r, c) ≠ (row, col) → (CheckCollisions g).aliens r c = g.aliens r c := by
    intro r c hne
    rw [hal]
    exact hitAlien_aliens_other i (row, col) (r, c) g hne
  refine ⟨?_, ?_, ?_, hother, hcnt⟩
  · rw [hal, hitAlien_aliens_same]
  · rw [hpb, hitAlien_bullet_same]
  · intro r hr hra
    rw [hother r col (fun h => hr (congrArg Prod.fst h))]
    exact hra

theorem freshAlien_separate (p q : Row × Col) (h : p ≠ q) :
    ¬ overlap (freshAlien p.1 p.2) (freshAlien q.1 q.2) := by
  have hne : p.1.val ≠ q.1.val ∨ p.2.val ≠ q.2.val := by
    by_contra hcon
    push_neg at hcon
    exact h (Prod.ext (Fin.ext hcon.1) (Fin.ext hcon.2))
  unfold overlap freshAlien
  simp only [ALIEN_WIDTH, ALIEN_HEIGHT]
  omega

/-- The previous theorem at the fresh formation with one bullet inside the
alien of row 2, column 0: that alien dies, the aliens of rows 3 and 4 beneath
it stay alive. -/
theorem CheckCollisions_kills_exactly_the_hit_witness :
    ((CheckCollisions oneBulletGame).aliens 2 0).alive = false ∧
    ((CheckCollisions oneBulletGame).playerBullets 1).active = false ∧
    (∀ r, r ≠ 2 → (oneBulletGame.aliens r 0).alive = true →
      ((CheckCollisions oneBulletGame).aliens r 0).alive = true) ∧
    (∀ r c, (r, c) ≠ ((2 : Row), (0 : Col)) →
      (CheckCollisions oneBulletGame).aliens r c = oneBulletGame.aliens r c) ∧
    (CheckCollisions oneBulletGame).alienCount = oneBulletGame.alienCount - 1 :=
  CheckCollisions_kills_exactly_the_hit oneBulletGame 1 2 0
    (fun p q h _ _ => freshAlien_separate p q h) rfl
    (fun j hj => by fin_cases j <;> first | rfl | exact absurd rfl hj)
    rfl (by decide)

/-! ## `alienCount` and the number of aliens alive -/

theorem countAlive_congr (g k : Game)
    (h : ∀ r c, (k.aliens r c).alive = (g.aliens r c).alive) : countAlive k = countAlive g := by
  unfold countAlive
  congr 2
  ext p
  simp [h]

theorem countAlive_fresh (g : Game) (h : g.aliens = freshAlien) : countAlive g = 55 := by
  unfold countAlive
  rw [h]
  have : (Finset.univ.filter fun p : Row × Col => (freshAlien p.1 p.2).alive = true)
      = Finset.univ := by
    ext p; simp [freshAlien]
  rw [this]
  simp

theorem countAlive_kill (g k : Game) (p : Row × Col)
    (halive : (g.aliens p.1 p.2).alive = true)
    (hdead : (k.aliens p.1 p.2).alive = false)
    (hother : ∀ q, q ≠ p → (k.aliens q.1 q.2).alive = (g.aliens q.1 q.2).alive) :
    countAlive k = countAlive g - 1 := by
  unfold countAlive
  have hset : (Finset.univ.filter fun q : Row × Col => (k.aliens q.1 q.2).alive = true)
      = (Finset.univ.filter fun q : Row × Col => (g.aliens q.1 q.2).alive = true).erase p := by
    ext q
    by_cases hq : q = p
    · subst hq; simp [hdead]
    · simp [hq, hother q hq]
  have hmem : p ∈ Finset.univ.filter fun q : Row × Col => (g.aliens q.1 q.2).alive = true := by
    simp [halive]
  rw [hset, Finset.card_erase_of_mem hmem]
  have hpos : 0 < (Finset.univ.filter fun q : Row × Col =>
      (g.aliens q.1 q.2).alive = true).card := Finset.card_pos.mpr ⟨p, hmem⟩
  omega

/-- A kill lowers `alienCount` and the number of aliens alive by exactly 1. -/
theorem hitAlien_counts (i : PSlot) (row : Row) (col : Col) (g : Game)
    (halive : (g.aliens row col).alive = true) :
    (hitAlien i row col g).alienCount = g.alienCount - 1 ∧
    countAlive (hitAlien i row col g) = countAlive g - 1 := by
  refine ⟨hitAlien_alienCount i row col g, ?_⟩
  apply countAlive_kill g _ (row, col) halive
  · rw [hitAlien_aliens_same]
  · intro q hq
    rw [hitAlien_aliens_other i (row, col) q g hq]

theorem alienColLoop_gap (i : PSlot) (row : Row) (l : List Col) (g : Game) :
    (alienColLoop i row l g).alienCount - countAlive (alienColLoop i row l g) =
      g.alienCount - countAlive g := by
  induction l with
  | nil => rfl
  | cons col rest ih =>
    by_cases h : hitsCell g i (row, col)
    · rw [alienColLoop_cons_hit i row col rest g h]
      obtain ⟨h1, h2⟩ := hitAlien_counts i row col g h.1
      rw [h1, h2]
      ring
    · rw [alienColLoop_cons_miss i row col rest g h]
      exact ih

theorem playerBulletsVsAliens_gap (g : Game) :
    (playerBulletsVsAliens g).alienCount - countAlive (playerBulletsVsAliens g) =
      g.alienCount - countAlive g := by
  refine forFin_invariant
    (fun k : Game => k.alienCount - countAlive k = g.alienCount - countAlive g)
    playerBulletVsAliens ?_ g rfl
  intro i k hk
  unfold playerBulletVsAliens
  split
  · refine forFin_invariant
      (fun k : Game => k.alienCount - countAlive k = g.alienCount - countAlive g) _ ?_ k hk
    intro row k hk
    rw [alienColLoop_gap]
    exact hk
  · exact hk

/-- The number of aliens alive depends on the `aliens` field only. -/
theorem countAlive_of_aliens (g k : Game) (h : k.aliens = g.aliens) :
    countAlive k = countAlive g :=
  countAlive_congr g k (fun r c => by rw [h])

/-- One collision pass lowers `alienCount` by exactly the number of aliens it
kills, in any state. -/
theorem CheckCollisions_gap (g : Game) :
    (CheckCollisions g).alienCount - countAlive (CheckCollisions g) =
      g.alienCount - countAlive g := by
  unfold CheckCollisions
  rw [← playerBulletsVsAliens_gap g]
  generalize playerBulletsVsAliens g = g1
  obtain ⟨ab, pl, ex, st, t, h2, _⟩ := alienBulletsVsPlayer_shape (List.finRange 8) g1
  have e2 : (alienBulletsVsPlayer (List.finRange 8) g1).aliens = g1.aliens := by rw [h2]
  have c2 : (alienBulletsVsPlayer (List.finRange 8) g1).alienCount = g1.alienCount := by
    rw [h2]
  generalize alienBulletsVsPlayer (List.finRange 8) g1 = g2 at e2 c2 ⊢
  obtain ⟨pb, sh, h3⟩ := playerBulletsVsShields_shape g2
  have e3 : (playerBulletsVsShields g2).aliens = g2.aliens := by rw [h3]
  have c3 : (playerBulletsVsShields g2).alienCount = g2.alienCount := by rw [h3]
  generalize playerBulletsVsShields g2 = g3 at e3 c3 ⊢
  obtain ⟨ab', sh', h4⟩ := alienBulletsVsShields_shape g3
  have e4 : (alienBulletsVsShields g3).aliens = g3.aliens := by rw [h4]
  have c4 : (alienBulletsVsShields g3).alienCount = g3.alienCount := by rw [h4]
  rw [c4, c3, c2, countAlive_of_aliens g3 _ e4, countAlive_of_aliens g2 _ e3,
    countAlive_of_aliens g1 _ e2]

theorem shiftAliens_alive (m : Int) (g : Game) (r : Row) (c : Col) :
    ((forFin 5 (fun row => forFin 11 (fun col => shiftAlien m row col)) g).aliens r c).alive =
      (g.aliens r c).alive := by
  refine forFin_invariant
    (fun k : Game => (k.aliens r c).alive = (g.aliens r c).alive) _ ?_ g rfl
  intro row k hk
  refine forFin_invariant
    (fun k : Game => (k.aliens r c).alive = (g.aliens r c).alive) _ ?_ k hk
  intro col k hk
  unfold shiftAlien
  split
  · by_cases h : (r, c) = (row, col)
    · obtain ⟨rfl, rfl⟩ := Prod.mk.inj h
      simpa [setAlien] using hk
    · rw [setAlien_aliens_other k (row, col) (r, c) _ h]
      exact hk
  · exact hk

/-- `MoveAliens` kills and revives nobody and does not write `alienCount`. -/
theorem MoveAliens_alive (g : Game) :
    (∀ r c, ((MoveAliens g).aliens r c).alive = (g.aliens r c).alive) ∧
    (MoveAliens g).alienCount = g.alienCount := by
  by_cases hflag : shouldDropAndReverse g = true
  · by_cases hex : ∃ a ∈ allCells, reachesPlayer g a
    · obtain ⟨pre, p, post, hsplit, hp, hpre⟩ := exists_first (reachesPlayer g) allCells hex
      rw [MoveAliens_stop g hflag pre post p hsplit hpre hp]
      exact ⟨fun r c => dropped_alive _ g r c, rfl⟩
    · have hsafe : ∀ p, ¬ reachesPlayer g p := fun p hp => hex ⟨p, mem_allCells p, hp⟩
      rw [MoveAliens_drop g hflag hsafe]
      exact ⟨fun r c => dropped_alive _ g r c, rfl⟩
  · have hdef : MoveAliens g = forFin 5 (fun row => forFin 11 (fun col => shiftAlien
        (if g.alienDirection = .DIR_RIGHT then ALIEN_MOVE_SPEED else -ALIEN_MOVE_SPEED)
        row col)) g := by
      rw [MoveAliens, if_neg hflag]
    rw [hdef]
    refine ⟨fun r c => shiftAliens_alive _ g r c, ?_⟩
    obtain ⟨al, h⟩ := shiftAliens_shape
      (if g.alienDirection = .DIR_RIGHT then ALIEN_MOVE_SPEED else -ALIEN_MOVE_SPEED) g
    rw [h]

theorem tickMoveAliens_gap (g : Game) :
    countAlive (tickMoveAliens g) = countAlive g ∧
    (tickMoveAliens g).alienCount = g.alienCount := by
  unfold tickMoveAliens
  simp only []
  split
  · obtain ⟨h1, h2⟩ := MoveAliens_alive { g with alienMoveTimer := 0 }
    exact ⟨countAlive_congr _ _ h1, h2⟩
  · exact ⟨rfl, rfl⟩

theorem tickUntilCollisions_gap (rand : Nat → Nat) (g : Game) :
    (tickUntilCollisions rand g).alienCount - countAlive (tickUntilCollisions rand g) =
      g.alienCount - countAlive g := by
  unfold tickUntilCollisions
  rw [CheckCollisions_gap]
  obtain ⟨e1, c1⟩ := tickMoveAliens_gap g
  rw [← e1, ← c1]
  generalize tickMoveAliens g = g1
  obtain ⟨ab, t, h2⟩ := tickAlienShooting_shape rand g1
  have e2 : (tickAlienShooting rand g1).aliens = g1.aliens := by rw [h2]
  have c2 : (tickAlienShooting rand g1).alienCount = g1.alienCount := by rw [h2]
  generalize tickAlienShooting rand g1 = g2 at e2 c2 ⊢
  obtain ⟨pb, h3⟩ := tickPlayerBullets_shape g2
  have e3 : (tickPlayerBullets g2).aliens = g2.aliens := by rw [h3]
  have c3 : (tickPlayerBullets g2).alienCount = g2.alienCount := by rw [h3]
  generalize tickPlayerBullets g2 = g3 at e3 c3 ⊢
  obtain ⟨ab', h4⟩ := tickAlienBullets_shape g3
  have e4 : (tickAlienBullets g3).aliens = g3.aliens := by rw [h4]
  have c4 : (tickAlienBullets g3).alienCount = g3.alienCount := by rw [h4]
  generalize tickAlienBullets g3 = g4 at e4 c4 ⊢
  obtain ⟨ex, h5⟩ := tickExplosions_shape g4
  have e5 : (tickExplosions g4).aliens = g4.aliens := by rw [h5]
  have c5 : (tickExplosions g4).alienCount = g4.alienCount := by rw [h5]
  rw [c5, c4, c3, c2, countAlive_of_aliens g4 _ e5, countAlive_of_aliens g3 _ e4,
    countAlive_of_aliens g2 _ e3, countAlive_of_aliens g1 _ e2]

theorem InitializeLevel_counts (g : Game) :
    (∀ row col, ((InitializeLevel g).aliens row col).alive = true) ∧
    (InitializeLevel g).alienCount = 55 ∧ countAlive (InitializeLevel g) = 55 := by
  rw [InitializeLevel_eq]
  exact ⟨fun _ _ => rfl, rfl, countAlive_fresh _ rfl⟩

theorem InitializeShields_InitializeLevel_counts (k : Game) :
    (InitializeShields (InitializeLevel k)).alienCount = 55 ∧
    countAlive (InitializeShields (InitializeLevel k)) = 55 := by
  have h := InitializeLevel_counts k
  generalize InitializeLevel k = L at h ⊢
  obtain ⟨_, h1, h2⟩ := h
  rw [InitializeShields_eq]
  refine ⟨h1, ?_⟩
  rw [countAlive_of_aliens L { L with shields := freshShield } rfl]
  exact h2

theorem InitializeGame_counts (g : Game) :
    (InitializeGame g).alienCount = 55 ∧ countAlive (InitializeGame g) = 55 := by
  rw [InitializeGame]
  simp only []
  exact InitializeShields_InitializeLevel_counts _

theorem tickWinCondition_counts (k : Game) (h : k.alienCount = countAlive k) :
    (tickWinCondition k).alienCount = countAlive (tickWinCondition k) := by
  unfold tickWinCondition
  split
  · simp only []
    split
    · exact h
    · obtain ⟨_, h1, h2⟩ := InitializeLevel_counts { k with level := k.level + 1 }
      rw [h1, h2]
  · exact h

theorem UpdateGame_counts (rand : Nat → Nat) (g : Game) (h : g.alienCount = countAlive g) :
    (UpdateGame rand g).alienCount = countAlive (UpdateGame rand g) := by
  unfold UpdateGame
  split
  · apply tickWinCondition_counts
    have := tickUntilCollisions_gap rand g
    omega
  · split
    · simp only []
      split <;> exact h
    · exact h

theorem MovePlayer_shape (d : Int) (g : Game) :
    ∃ x, MovePlayer d g = { g with playerX := x } := by
  unfold MovePlayer
  simp only []
  split
  · exact ⟨_, rfl⟩
  · split <;> exact ⟨_, rfl⟩

theorem FirePlayerBullet_shape (g : Game) :
    ∃ pb, FirePlayerBullet g = { g with playerBullets := pb } := by
  unfold FirePlayerBullet
  generalize List.finRange 3 = l
  induction l with
  | nil => exact ⟨g.playerBullets, rfl⟩
  | cons i rest ih =>
    unfold FirePlayerBullet.go
    split
    · exact ⟨_, rfl⟩
    · exact ih

theorem WindowProc_counts (m : Msg) (g : Game) (h : g.alienCount = countAlive g) :
    (WindowProc m g).alienCount = countAlive (WindowProc m g) := by
  cases m with
  | WM_TIMER rand => exact UpdateGame_counts rand g h
  | WM_KEYDOWN key =>
    cases key with
    | VK_LEFT =>
      simp only [WindowProc]
      split
      · obtain ⟨x, hx⟩ := MovePlayer_shape (-1) g
        rw [hx]; exact h
      · exact h
    | VK_RIGHT =>
      simp only [WindowProc]
      split
      · obtain ⟨x, hx⟩ := MovePlayer_shape 1 g
        rw [hx]; exact h
      · exact h
    | VK_SPACE =>
      simp only [WindowProc]
      split
      · obtain ⟨pb, hpb⟩ := FirePlayerBullet_shape g
        rw [hpb]; exact h
      · split
        · obtain ⟨_, h1, h2⟩ := InitializeLevel_counts { g with state := .GAME_PLAYING }
          rw [h1, h2]
        · split
          · obtain ⟨h1, h2⟩ := InitializeGame_counts g
            rw [h1, h2]
          · exact h
    | VK_ESCAPE =>
      simp only [WindowProc]
      split
      · exact h
      · exact h

theorem reachable_counts (g : Game) (h : Reachable g) : g.alienCount = countAlive g := by
  induction h with
  | init =>
    obtain ⟨h1, h2⟩ := InitializeGame_counts zeroGame
    rw [h1, h2]
  | step m _ ih => exact WindowProc_counts m _ ih

/-- C2: right after `InitializeLevel` all 55 (5 x 11) enemies are alive and
`alienCount = 55`; in every state reachable from `InitializeGame` through key
presses and ticks, `alienCount` equals the number of enemies whose `alive` flag
is set; one `CheckCollisions` pass lowers `alienCount` by exactly the number of
enemies it kills, each kill (`hitAlien` on an enemy alive) lowering both by
exactly 1. -/
theorem alienCount_counts_alive :
    (∀ g : Game,
      (∀ row col, ((InitializeLevel g).aliens row col).alive = true) ∧
      (InitializeLevel g).alienCount = 55 ∧ countAlive (InitializeLevel g) = 55) ∧
    (∀ g : Game, Reachable g → g.alienCount = countAlive g) ∧
    (∀ g : Game, g.alienCount - (CheckCollisions g).alienCount =
      countAlive g - countAlive (CheckCollisions g)) ∧
    (∀ (g : Game) (i : PSlot) (row : Row) (col : Col), (g.aliens row col).alive = true →
      (hitAlien i row col g).alienCount = g.alienCount - 1 ∧
      countAlive (hitAlien i row col g) = countAlive g - 1) := by
  refine ⟨InitializeLevel_counts, reachable_counts, ?_, ?_⟩
  · intro g
    have := CheckCollisions_gap g
    omega
  · intro g i row col h
    exact hitAlien_counts i row col g h

/-- The previous theorem at the first playing state of a game: the menu state
of program start, then the space key. -/
theorem alienCount_counts_alive_witness :
    (WindowProc (.WM_KEYDOWN .VK_SPACE) (InitializeGame zeroGame)).alienCount =
      countAlive (WindowProc (.WM_KEYDOWN .VK_SPACE) (InitializeGame zeroGame)) :=
  alienCount_counts_alive.2.1 _ (Reachable.step _ Reachable.init)

/-! ## The state at program start -/

theorem clearPlayerBullets_eq (g : Game) :
    forFin 3 clearPlayerBullet g =
      { g with playerBullets := fun i => { g.playerBullets i with active := false } } := by
  have hframe : ∃ pb, forFin 3 clearPlayerBullet g = { g with playerBullets := pb } := by
    refine forFin_invariant (fun k : Game => ∃ pb, k = { g with playerBullets := pb })
      clearPlayerBullet ?_ g ⟨g.playerBullets, rfl⟩
    rintro i k ⟨pb, rfl⟩
    exact ⟨_, rfl⟩
  obtain ⟨pb, h⟩ := hframe
  have hpb : pb = fun i => { g.playerBullets i with active := false } := by
    funext i
    have := forFin_write
      (fun k : Game => ∀ j, (k.playerBullets j).x = (g.playerBullets j).x ∧
        (k.playerBullets j).y = (g.playerBullets j).y)
      (fun k i => k.playerBullets i) clearPlayerBullet
      (fun i => { g.playerBullets i with active := false })
      (by
        intro i k hk j
        by_cases hj : j = i
        · subst hj; simpa [clearPlayerBullet, setPlayerBullet] using hk j
        · simpa [clearPlayerBullet, setPlayerBullet, Function.update_noteq hj] using hk j)
      (by
        intro i k hk
        obtain ⟨h1, h2⟩ := hk i
        simp [clearPlayerBullet, setPlayerBullet, h1, h2])
      (by
        intro i j k _ hj
        simp [clearPlayerBullet, setPlayerBullet, Function.update_noteq hj])
      g (fun j => ⟨rfl, rfl⟩) i
    rw [h] at this
    exact this
  rw [h, hpb]

theorem clearAlienBullets_eq (g : Game) :
    forFin 8 clearAlienBullet g =
      { g with alienBullets := fun i => { g.alienBullets i with active := false } } := by
  have hframe : ∃ ab, forFin 8 clearAlienBullet g = { g with alienBullets := ab } := by
    refine forFin_invariant (fun k : Game => ∃ ab, k = { g with alienBullets := ab })
      clearAlienBullet ?_ g ⟨g.alienBullets, rfl⟩
    rintro i k ⟨ab, rfl⟩
    exact ⟨_, rfl⟩
  obtain ⟨ab, h⟩ := hframe
  have hab : ab = fun i => { g.alienBullets i with active := false } := by
    funext i
    have := forFin_write
      (fun k : Game => ∀ j, (k.alienBullets j).x = (g.alienBullets j).x ∧
        (k.alienBullets j).y = (g.alienBullets j).y)
      (fun k i => k.alienBullets i) clearAlienBullet
      (fun i => { g.alienBullets i with active := false })
      (by
        intro i k hk j
        by_cases hj : j = i
        · subst hj; simpa [clearAlienBullet, setAlienBullet] using hk j
        · simpa [clearAlienBullet, setAlienBullet, Function.update_noteq hj] using hk j)
      (by
        intro i k hk
        obtain ⟨h1, h2⟩ := hk i
        simp [clearAlienBullet, setAlienBullet, h1, h2])
      (by
        intro i j k _ hj
        simp [clearAlienBullet, setAlienBullet, Function.update_noteq hj])
      g (fun j => ⟨rfl, rfl⟩) i
    rw [h] at this
    exact this
  rw [h, hab]

theorem clearExplosions_eq (g : Game) :
    forFin 20 clearExplosion g =
      { g with explosions := fun i => { g.explosions i with active := false } } := by
  have hframe : ∃ ex, forFin 20 clearExplosion g = { g with explosions := ex } := by
    refine forFin_invariant (fun k : Game => ∃ ex, k = { g with explosions := ex })
      clearExplosion ?_ g ⟨g.explosions, rfl⟩
    rintro i k ⟨ex, rfl⟩
    exact ⟨_, rfl⟩
  obtain ⟨ex, h⟩ := hframe
  have hex : ex = fun i => { g.explosions i with active := false } := by
    funext i
    have := forFin_write
      (fun k : Game => ∀ j, (k.explosions j).x = (g.explosions j).x ∧
        (k.explosions j).y = (g.explosions j).y ∧
        (k.explosions j).frame = (g.explosions j).frame ∧
        (k.explosions j).timer = (g.explosions j).timer)
      (fun k i => k.explosions i) clearExplosion
      (fun i => { g.explosions i with active := false })
      (by
        intro i k hk j
        by_cases hj : j = i
        · subst hj; simpa [clearExplosion, setExplosion] using hk j
        · simpa [clearExplosion, setExplosion, Function.update_noteq hj] using hk j)
      (by
        intro i k hk
        obtain ⟨h1, h2, h3, h4⟩ := hk i
        simp [clearExplosion, setExplosion, h1, h2, h3, h4])
      (by
        intro i j k _ hj
        simp [clearExplosion, setExplosion, Function.update_noteq hj])
      g (fun j => ⟨rfl, rfl, rfl, rfl⟩) i
    rw [h] at this
    exact this
  rw [h, hex]

/-- `InitializeGame` in closed form: everything is reset except the game-over
timer and the coordinates left in the inactive pool slots. -/
theorem InitializeGame_eq (g : Game) :
    InitializeGame g =
      { g with
        state := .GAME_MENU
        score := 0
        level := 1
        playerLives := 3
        playerX := 370
        playerY := 540
        playerBullets := fun i => { g.playerBullets i with active := false }
        alienBullets := fun i => { g.alienBullets i with active := false }
        explosions := fun i => { g.explosions i with active := false }
        aliens := freshAlien
        alienCount := 55
        alienDirection := .DIR_RIGHT
        alienMoveTimer := 0
        alienMoveDelay := 28
        alienDropDistance := 20
        alienShootTimer := 0
        alienShootDelay := 55
        shields := freshShield } := by
  rw [InitializeGame]
  simp only []
  rw [InitializeShields_eq, InitializeLevel_eq, clearExplosions_eq, clearAlienBullets_eq,
    clearPlayerBullets_eq]
  simp

theorem InitializeGame_zeroGame : InitializeGame zeroGame = startGame := by
  rw [InitializeGame_eq]
  rfl

/-! ## Fields that are constant while the program runs -/

theorem tickWinCondition_constants (k : Game)
    (h : k.alienDropDistance = 20 ∧ k.playerY = 540) :
    (tickWinCondition k).alienDropDistance = 20 ∧ (tickWinCondition k).playerY = 540 := by
  unfold tickWinCondition
  split
  · simp only []
    split
    · exact h
    · rw [InitializeLevel_eq]
      exact ⟨rfl, h.2⟩
  · exact h

theorem UpdateGame_constants (rand : Nat → Nat) (g : Game)
    (h : g.alienDropDistance = 20 ∧ g.playerY = 540) :
    (UpdateGame rand g).alienDropDistance = 20 ∧ (UpdateGame rand g).playerY = 540 := by
  unfold UpdateGame
  split
  · apply tickWinCondition_constants
    obtain ⟨_, hy, _, _, hd, _, _⟩ := tickUntilCollisions_frame rand g
    exact ⟨hd.trans h.1, hy.trans h.2⟩
  · split
    · simp only []
      split <;> exact h
    · exact h

theorem WindowProc_constants (m : Msg) (g : Game)
    (h : g.alienDropDistance = 20 ∧ g.playerY = 540) :
    (WindowProc m g).alienDropDistance = 20 ∧ (WindowProc m g).playerY = 540 := by
  cases m with
  | WM_TIMER rand => exact UpdateGame_constants rand g h
  | WM_KEYDOWN key =>
    cases key with
    | VK_LEFT =>
      simp only [WindowProc]
      split
      · obtain ⟨x, hx⟩ := MovePlayer_shape (-1) g
        rw [hx]; exact h
      · exact h
    | VK_RIGHT =>
      simp only [WindowProc]
      split
      · obtain ⟨x, hx⟩ := MovePlayer_shape 1 g
        rw [hx]; exact h
      · exact h
    | VK_SPACE =>
      simp only [WindowProc]
      split
      · obtain ⟨pb, hpb⟩ := FirePlayerBullet_shape g
        rw [hpb]; exact h
      · split
        · rw [InitializeLevel_eq]
          exact ⟨rfl, h.2⟩
        · split
          · rw [InitializeGame_eq]
            exact ⟨rfl, rfl⟩
          · exact h
    | VK_ESCAPE =>
      simp only [WindowProc]
      split
      · exact h
      · exact h

/-- In every state of a running program the drop distance is 20 and the player
stands at `y = 540`: no code but the initialisation writes these fields. -/
theorem reachable_constants (g : Game) (h : Reachable g) :
    g.alienDropDistance = 20 ∧ g.playerY = 540 := by
  induction h with
  | init =>
    rw [InitializeGame_zeroGame]
    exact ⟨rfl, rfl⟩
  | step m _ ih => exact WindowProc_constants m _ ih

/-! ## `MoveAliens` with a drop distance other than 20

The two statements of this section are about states with `alienDropDistance = 5`.
No run of the program is in such a state (`reachable_constants`); they record
that the function reads the field. -/

/-- The drop of `MoveAliens` is by the field `alienDropDistance`: in
`slowDropGame` (direction right, column 10 at `x = 760`, drop
distance 5) no enemy ends below the player, every alive enemy is dropped by 5
and none by 20. -/
theorem MoveAliens_drops_by_alienDropDistance :
    slowDropGame.alienDirection = .DIR_RIGHT ∧
    (∃ row col, (slowDropGame.aliens row col).alive = true ∧
      (slowDropGame.aliens row col).x + 40 + 2 > 800) ∧
    (∀ row col, (slowDropGame.aliens row col).alive = true →
      ¬ (((MoveAliens slowDropGame).aliens row col).y + 40 > slowDropGame.playerY)) ∧
    (∀ row col, ((MoveAliens slowDropGame).aliens row col).y =
      (slowDropGame.aliens row col).y + 5) ∧
    ¬ (∀ row col, (slowDropGame.aliens row col).alive = true →
      ((MoveAliens slowDropGame).aliens row col).y = (slowDropGame.aliens row col).y + 20) := by
  set_option maxRecDepth 100000 in decide

/-- The test of `MoveAliens` for an enemy that reaches the player is made
with the field `alienDropDistance` too: in `slowLowGame` (at the right edge, drop distance 5,
bottom row at `y = 490`) `MoveAliens` decides to drop, the bottom row has
`490 + 20 + 40 > 540`, and the call drops every enemy by 5, flips the
direction and leaves lives and session state alone. -/
theorem MoveAliens_slow_drop_no_game_over :
    shouldDropAndReverse slowLowGame = true ∧
    (∃ row col, (slowLowGame.aliens row col).alive = true ∧
      (slowLowGame.aliens row col).y + 20 + 40 > slowLowGame.playerY) ∧
    (MoveAliens slowLowGame).playerLives = 3 ∧
    (MoveAliens slowLowGame).state = .GAME_PLAYING ∧
    (MoveAliens slowLowGame).alienDirection = .DIR_LEFT ∧
    (∀ row col, ((MoveAliens slowLowGame).aliens row col).y =
      (slowLowGame.aliens row col).y + 5) ∧
    ¬ ((MoveAliens slowLowGame).playerLives = 0 ∧
      (MoveAliens slowLowGame).state = .GAME_OVER) := by
  set_option maxRecDepth 100000 in decide

/-! ## What the win check does to a game that was just lost -/

/-- When the collision pass of a playing tick has set `GAME_OVER` with the
timer at 0, the tick ends in `GAME_OVER` with the timer at 0 unless the pass
also left `alienCount = 0` at level 10 or above; in that case the win check
sets `GAME_WIN`. -/
theorem UpdateGame_after_loss (rand : Nat → Nat) (g : Game)
    (hplay : g.state = .GAME_PLAYING)
    (hover : (tickUntilCollisions rand g).state = .GAME_OVER)
    (htimer : (tickUntilCollisions rand g).gameOverTimer = 0) :
    (((tickUntilCollisions rand g).alienCount = 0 ∧ g.level + 1 > 10) →
      (UpdateGame rand g).state = .GAME_WIN) ∧
    (¬ ((tickUntilCollisions rand g).alienCount = 0 ∧ g.level + 1 > 10) →
      (UpdateGame rand g).state = .GAME_OVER ∧ (UpdateGame rand g).gameOverTimer = 0) := by
  obtain ⟨_, _, hlevel, _, _, _, _⟩ := tickUntilCollisions_frame rand g
  have hupd := UpdateGame_playing rand g hplay
  generalize tickUntilCollisions rand g = k at hupd hover htimer hlevel
  generalize UpdateGame rand g = u at hupd
  subst hupd
  constructor
  · rintro ⟨hclear, hwin⟩
    rw [tickWinCondition_clear k hclear, hlevel, if_pos hwin]
  · intro hnot
    by_cases hclear : k.alienCount = 0
    · have hnext : ¬ (g.level + 1 > 10) := fun h => hnot ⟨hclear, h⟩
      rw [tickWinCondition_clear k hclear, hlevel, if_neg hnext, InitializeLevel_eq]
      exact ⟨hover, htimer⟩
    · rw [tickWinCondition, if_neg hclear]
      exact ⟨hover, htimer⟩

/-! ## Level delays -/

/-- C12: for every level `L ≥ 1` whose products `L * 2` and `L * 5` are
within the range of `int`, `InitializeLevel` sets `alienMoveDelay` to
`max(10, 30 - 2 * L)` and `alienShootDelay` to `max(20, 60 - 5 * L)`; the
intermediate values `30 - L * 2` and `60 - L * 5` stay within the range of
`int`, the delays are never below the floors 10 and 20, and they do not
increase when the level increases. -/
theorem InitializeLevel_delays (g : Game) (hlow : 1 ≤ g.level)
    (hhigh : g.level * 5 ≤ 2147483647) :
    (InitializeLevel g).alienMoveDelay = max 10 (30 - 2 * g.level) ∧
    (InitializeLevel g).alienShootDelay = max 20 (60 - 5 * g.level) ∧
    (-2147483648 ≤ 30 - g.level * 2 ∧ -2147483648 ≤ 60 - g.level * 5) ∧
    10 ≤ (InitializeLevel g).alienMoveDelay ∧ 20 ≤ (InitializeLevel g).alienShootDelay ∧
    ∀ k : Game, g.level ≤ k.level →
      (InitializeLevel k).alienMoveDelay ≤ (InitializeLevel g).alienMoveDelay ∧
      (InitializeLevel k).alienShootDelay ≤ (InitializeLevel g).alienShootDelay := by
  have hm : ∀ k : Game, (InitializeLevel k).alienMoveDelay = max 10 (30 - k.level * 2) := by
    intro k; rw [InitializeLevel_eq]
  have hs : ∀ k : Game, (InitializeLevel k).alienShootDelay = max 20 (60 - k.level * 5) := by
    intro k; rw [InitializeLevel_eq]
  refine ⟨?_, ?_, ⟨by omega, by omega⟩, ?_, ?_, ?_⟩
  · rw [hm, mul_comm]
  · rw [hs, mul_comm]
  · rw [hm]; exact le_max_left _ _
  · rw [hs]; exact le_max_left _ _
  · intro k hk
    rw [hm, hm, hs, hs]
    constructor
    · exact max_le_max (le_refl _) (by omega)
    · exact max_le_max (le_refl _) (by omega)

/-- The previous theorem at the first level: the delays are 28 and 55. -/
theorem InitializeLevel_delays_witness :
    (InitializeLevel startGame).alienMoveDelay = max 10 (30 - 2 * startGame.level) ∧
    (InitializeLevel startGame).alienShootDelay = max 20 (60 - 5 * startGame.level) ∧
    (-2147483648 ≤ 30 - startGame.level * 2 ∧ -2147483648 ≤ 60 - startGame.level * 5) ∧
    10 ≤ (InitializeLevel startGame).alienMoveDelay ∧
    20 ≤ (InitializeLevel startGame).alienShootDelay ∧
    ∀ k : Game, startGame.level ≤ k.level →
      (InitializeLevel k).alienMoveDelay ≤ (InitializeLevel startGame).alienMoveDelay ∧
      (InitializeLevel k).alienShootDelay ≤ (InitializeLevel startGame).alienShootDelay :=
  InitializeLevel_delays startGame (by decide) (by decide)

/-! ## The confirm key after a game -/

/-- C15: in a state with `state = GAME_OVER` or `state = GAME_WIN` the
space key resets the game: the result is in the menu with score 0, level 1,
3 lives, the player at (370, 540), every player bullet, alien bullet and
explosion slot inactive, the 55 aliens of a fresh formation all alive with
`alienCount = 55`, the formation timers and delays of level 1, and freshly
initialised shields, whatever the state before was. -/
theorem WindowProc_space_after_game (g : Game)
    (h : g.state = .GAME_OVER ∨ g.state = .GAME_WIN) :
    (WindowProc (.WM_KEYDOWN .VK_SPACE) g).state = .GAME_MENU ∧
    (WindowProc (.WM_KEYDOWN .VK_SPACE) g).score = 0 ∧
    (WindowProc (.WM_KEYDOWN .VK_SPACE) g).level = 1 ∧
    (WindowProc (.WM_KEYDOWN .VK_SPACE) g).playerLives = 3 ∧
    (WindowProc (.WM_KEYDOWN .VK_SPACE) g).playerX = 370 ∧
    (WindowProc (.WM_KEYDOWN .VK_SPACE) g).playerY = 540 ∧
    (∀ i, ((WindowProc (.WM_KEYDOWN .VK_SPACE) g).playerBullets i).active = false) ∧
    (∀ i, ((WindowProc (.WM_KEYDOWN .VK_SPACE) g).alienBullets i).active = false) ∧
    (∀ i, ((WindowProc (.WM_KEYDOWN .VK_SPACE) g).explosions i).active = false) ∧
    (WindowProc (.WM_KEYDOWN .VK_SPACE) g).aliens = freshAlien ∧
    (∀ row col, ((WindowProc (.WM_KEYDOWN .VK_SPACE) g).aliens row col).alive = true) ∧
    (WindowProc (.WM_KEYDOWN .VK_SPACE) g).alienCount = 55 ∧
    countAlive (WindowProc (.WM_KEYDOWN .VK_SPACE) g) = 55 ∧
    (WindowProc (.WM_KEYDOWN .VK_SPACE) g).alienDirection = .DIR_RIGHT ∧
    (WindowProc (.WM_KEYDOWN .VK_SPACE) g).alienMoveTimer = 0 ∧
    (WindowProc (.WM_KEYDOWN .VK_SPACE) g).alienMoveDelay = 28 ∧
    (WindowProc (.WM_KEYDOWN .VK_SPACE) g).alienDropDistance = 20 ∧
    (WindowProc (.WM_KEYDOWN .VK_SPACE) g).alienShootTimer = 0 ∧
    (WindowProc (.WM_KEYDOWN .VK_SPACE) g).alienShootDelay = 55 ∧
    (WindowProc (.WM_KEYDOWN .VK_SPACE) g).shields = freshShield := by
  have hw : WindowProc (.WM_KEYDOWN .VK_SPACE) g = InitializeGame g := by
    simp only [WindowProc]
    rcases h with h | h <;> simp [h]
  have hc : countAlive (InitializeGame g) = 55 := (InitializeGame_counts g).2
  rw [hw]
  refine ⟨?_, ?_, ?_, ?_, ?_, ?_, ?_, ?_, ?_, ?_, ?_, ?_, hc, ?_, ?_, ?_, ?_, ?_, ?_, ?_⟩ <;>
    rw [InitializeGame_eq] <;> intros <;> rfl

/-- The previous theorem at `lostGame`, a state with `state = GAME_OVER`. -/
theorem WindowProc_space_after_game_witness :
    (WindowProc (.WM_KEYDOWN .VK_SPACE) lostGame).state = .GAME_MENU ∧
    (WindowProc (.WM_KEYDOWN .VK_SPACE) lostGame).score = 0 ∧
    (WindowProc (.WM_KEYDOWN .VK_SPACE) lostGame).level = 1 ∧
    (WindowProc (.WM_KEYDOWN .VK_SPACE) lostGame).playerLives = 3 ∧
    (WindowProc (.WM_KEYDOWN .VK_SPACE) lostGame).playerX = 370 ∧
    (WindowProc (.WM_KEYDOWN .VK_SPACE) lostGame).playerY = 540 ∧
    (∀ i, ((WindowProc (.WM_KEYDOWN .VK_SPACE) lostGame).playerBullets i).active = false) ∧
    (∀ i, ((WindowProc (.WM_KEYDOWN .VK_SPACE) lostGame).alienBullets i).active = false) ∧
    (∀ i, ((WindowProc (.WM_KEYDOWN .VK_SPACE) lostGame).explosions i).active = false) ∧
    (WindowProc (.WM_KEYDOWN .VK_SPACE) lostGame).aliens = freshAlien ∧
    (∀ row col, ((WindowProc (.WM_KEYDOWN .VK_SPACE) lostGame).aliens row col).alive = true) ∧
    (WindowProc (.WM_KEYDOWN .VK_SPACE) lostGame).alienCount = 55 ∧
    countAlive (WindowProc (.WM_KEYDOWN .VK_SPACE) lostGame) = 55 ∧
    (WindowProc (.WM_KEYDOWN .VK_SPACE) lostGame).alienDirection = .DIR_RIGHT ∧
    (WindowProc (.WM_KEYDOWN .VK_SPACE) lostGame).alienMoveTimer = 0 ∧
    (WindowProc (.WM_KEYDOWN .VK_SPACE) lostGame).alienMoveDelay = 28 ∧
    (WindowProc (.WM_KEYDOWN .VK_SPACE) lostGame).alienDropDistance = 20 ∧
    (WindowProc (.WM_KEYDOWN .VK_SPACE) lostGame).alienShootTimer = 0 ∧
    (WindowProc (.WM_KEYDOWN .VK_SPACE) lostGame).alienShootDelay = 55 ∧
    (WindowProc (.WM_KEYDOWN .VK_SPACE) lostGame).shields = freshShield :=
  WindowProc_space_after_game lostGame (Or.inl rfl)

/-! ## The player stays on the screen -/

/-- `MovePlayer` in closed form: only `playerX` is written, to the clamped sum. -/
theorem MovePlayer_eq (d : Int) (g : Game) :
    MovePlayer d g = { g with playerX := max 0 (min 740 (g.playerX + 8 * d)) } := by
  unfold MovePlayer
  simp only [PLAYER_SPEED, WINDOW_WIDTH, PLAYER_WIDTH]
  by_cases h1 : g.playerX + d * 8 < 0
  · rw [if_pos h1]
    have : max 0 (min 740 (g.playerX + 8 * d)) = 0 := by omega
    rw [this]
  · rw [if_neg h1]
    by_cases h2 : g.playerX + d * 8 > 800 - 60
    · rw [if_pos h2]
      have : max 0 (min 740 (g.playerX + 8 * d)) = 800 - 60 := by omega
      rw [this]
    · rw [if_neg h2]
      have : max 0 (min 740 (g.playerX + 8 * d)) = g.playerX + d * 8 := by omega
      rw [this]

theorem tickWinCondition_playerX (k : Game) : (tickWinCondition k).playerX = k.playerX := by
  unfold tickWinCondition
  split
  · simp only []
    split
    · rfl
    · rw [InitializeLevel_eq]
  · rfl

theorem UpdateGame_playerX (rand : Nat → Nat) (g : Game) :
    (UpdateGame rand g).playerX = g.playerX := by
  unfold UpdateGame
  split
  · rw [tickWinCondition_playerX]
    exact (tickUntilCollisions_frame rand g).1
  · split
    · simp only []
      split <;> rfl
    · rfl

theorem WindowProc_playerX (m : Msg) (g : Game) (h : 0 ≤ g.playerX ∧ g.playerX ≤ 740) :
    0 ≤ (WindowProc m g).playerX ∧ (WindowProc m g).playerX ≤ 740 := by
  cases m with
  | WM_TIMER rand =>
    simp only [WindowProc]
    rw [UpdateGame_playerX]; exact h
  | WM_KEYDOWN key =>
    cases key with
    | VK_LEFT =>
      simp only [WindowProc]
      split
      · rw [MovePlayer_eq]
        exact ⟨le_max_left _ _, max_le (by decide) (min_le_left _ _)⟩
      · exact h
    | VK_RIGHT =>
      simp only [WindowProc]
      split
      · rw [MovePlayer_eq]
        exact ⟨le_max_left _ _, max_le (by decide) (min_le_left _ _)⟩
      · exact h
    | VK_SPACE =>
      simp only [WindowProc]
      split
      · obtain ⟨pb, hpb⟩ := FirePlayerBullet_shape g
        rw [hpb]; exact h
      · split
        · rw [InitializeLevel_eq]
          exact h
        · split
          · rw [InitializeGame_eq]
            simp
          · exact h
    | VK_ESCAPE =>
      simp only [WindowProc]
      split
      · exact h
      · exact h

/-- C17: for every state with `0 ≤ playerX ≤ 740` and every direction
`d` in {-1, +1}, `MovePlayer(d)` sets `playerX` to `playerX + 8 * d` clamped
into [0, 800 - 60] and changes no other field (the sum itself lies between -8
and 748); and `0 ≤ playerX ≤ 740` holds in every state reachable from
`InitializeGame` by key presses and ticks. -/
theorem MovePlayer_clamps (g : Game) (d : Int) (hx : 0 ≤ g.playerX ∧ g.playerX ≤ 740)
    (hd : d = -1 ∨ d = 1) :
    MovePlayer d g = { g with playerX := max 0 (min (800 - 60) (g.playerX + 8 * d)) } ∧
    (-8 ≤ g.playerX + 8 * d ∧ g.playerX + 8 * d ≤ 748) ∧
    (0 ≤ (MovePlayer d g).playerX ∧ (MovePlayer d g).playerX ≤ 740) ∧
    ∀ k : Game, Reachable k → 0 ≤ k.playerX ∧ k.playerX ≤ 740 := by
  refine ⟨MovePlayer_eq d g, by omega, ?_, ?_⟩
  · rw [MovePlayer_eq]
    exact ⟨le_max_left _ _, max_le (by decide) (min_le_left _ _)⟩
  · intro k hk
    induction hk with
    | init =>
      rw [InitializeGame_zeroGame]
      exact ⟨by decide, by decide⟩
    | step m _ ih => exact WindowProc_playerX m _ ih

/-- The previous theorem at the start position, moving left. -/
theorem MovePlayer_clamps_witness :
    MovePlayer (-1) startGame =
      { startGame with playerX := max 0 (min (800 - 60) (startGame.playerX + 8 * (-1))) } ∧
    (-8 ≤ startGame.playerX + 8 * (-1) ∧ startGame.playerX + 8 * (-1) ≤ 748) ∧
    (0 ≤ (MovePlayer (-1) startGame).playerX ∧ (MovePlayer (-1) startGame).playerX ≤ 740) ∧
    ∀ k : Game, Reachable k → 0 ≤ k.playerX ∧ k.playerX ≤ 740 :=
  MovePlayer_clamps startGame (-1) ⟨by decide, by decide⟩ (Or.inl rfl)

/-! ## Alien types and the score -/

theorem OnlyKills_refl (g : Game) : OnlyKills g g := fun _ _ => ⟨rfl, id⟩

theorem OnlyKills_trans {g k m : Game} (h1 : OnlyKills g k) (h2 : OnlyKills k m) :
    OnlyKills g m := fun r c =>
  ⟨(h2 r c).1.trans (h1 r c).1, fun h => (h1 r c).2 ((h2 r c).2 h)⟩

theorem OnlyKills_of_aliens (g k : Game) (h : k.aliens = g.aliens) : OnlyKills g k := by
  intro r c; rw [h]; exact ⟨rfl, id⟩

theorem aliveValue_congr (g k : Game)
    (h : ∀ r c, (k.aliens r c).alive = (g.aliens r c).alive ∧
      (k.aliens r c).type = (g.aliens r c).type) : aliveValue k = aliveValue g := by
  unfold aliveValue
  apply Finset.sum_congr rfl
  intro p _
  rw [(h p.1 p.2).1, (h p.1 p.2).2]

theorem aliveValue_of_aliens (g k : Game) (h : k.aliens = g.aliens) :
    aliveValue k = aliveValue g :=
  aliveValue_congr g k (fun r c => by rw [h]; exact ⟨rfl, rfl⟩)

theorem aliveValue_kill (g k : Game) (p : Row × Col)
    (halive : (g.aliens p.1 p.2).alive = true)
    (hdead : (k.aliens p.1 p.2).alive = false)
    (hother : ∀ q, q ≠ p → k.aliens q.1 q.2 = g.aliens q.1 q.2) :
    aliveValue k = aliveValue g - alienValue (g.aliens p.1 p.2).type := by
  unfold aliveValue
  have hpt : ∀ q : Row × Col,
      (if (k.aliens q.1 q.2).alive = true then alienValue (k.aliens q.1 q.2).type else 0) =
      (if (g.aliens q.1 q.2).alive = true then alienValue (g.aliens q.1 q.2).type else 0) -
        (if q = p then alienValue (g.aliens p.1 p.2).type else 0) := by
    intro q
    by_cases hq : q = p
    · subst hq; simp [halive, hdead]
    · rw [hother q hq]; simp [hq]
  rw [Finset.sum_congr rfl (fun q _ => hpt q), Finset.sum_sub_distrib]
  simp

/-- The `switch` of a kill: the score rises by the value of the type of the
alien killed. -/
theorem hitAlien_score (i : PSlot) (row : Row) (col : Col) (g : Game) :
    (hitAlien i row col g).score = g.score + alienValue (g.aliens row col).type := by
  unfold hitAlien alienValue
  simp only []
  have ht : ((setAlien g row col { g.aliens row col with alive := false }).aliens row col).type
      = (g.aliens row col).type := by simp [setAlien]
  simp only [setPlayerBullet] at *
  split
  · rename_i h
    obtain ⟨ex, hex⟩ := CreateExplosion_shape _ _ _
    rw [hex]
    rw [ht] at h
    simp [h, setAlien]
  · rename_i h
    rw [ht] at h
    split
    · rename_i h1
      rw [ht] at h1
      obtain ⟨ex, hex⟩ := CreateExplosion_shape _ _ _
      rw [hex]
      simp [h, h1, setAlien]
    · rename_i h1
      rw [ht] at h1
      split
      · rename_i h2
        rw [ht] at h2
        obtain ⟨ex, hex⟩ := CreateExplosion_shape _ _ _
        rw [hex]
        simp [h, h1, h2, setAlien]
      · rename_i h2
        rw [ht] at h2
        obtain ⟨ex, hex⟩ := CreateExplosion_shape _ _ _
        rw [hex]
        simp [h, h1, h2, setAlien]

theorem hitAlien_onlyKills (i : PSlot) (row : Row) (col : Col) (g : Game) :
    OnlyKills g (hitAlien i row col g) := by
  intro r c
  by_cases h : (r, c) = (row, col)
  · obtain ⟨rfl, rfl⟩ := Prod.mk.inj h
    rw [hitAlien_aliens_same]
    exact ⟨rfl, fun h => absurd h (by simp)⟩
  · rw [hitAlien_aliens_other i (row, col) (r, c) g h]
    exact ⟨rfl, id⟩

/-- A kill of an alive alien moves its value from the aliens alive to the score. -/
theorem hitAlien_value (i : PSlot) (row : Row) (col : Col) (g : Game)
    (halive : (g.aliens row col).alive = true) :
    (hitAlien i row col g).score + aliveValue (hitAlien i row col g) =
      g.score + aliveValue g := by
  rw [hitAlien_score, aliveValue_kill g (hitAlien i row col g) (row, col) halive
    (by rw [hitAlien_aliens_same])
    (fun q hq => hitAlien_aliens_other i (row, col) q g hq)]
  ring

theorem ValueKept_refl (g : Game) : ValueKept g g := ⟨rfl, OnlyKills_refl g⟩

theorem ValueKept_trans {g k m : Game} (h1 : ValueKept g k) (h2 : ValueKept k m) :
    ValueKept g m := ⟨h2.1.trans h1.1, OnlyKills_trans h1.2 h2.2⟩

theorem ValueKept_of_eq (g k : Game) (ha : k.aliens = g.aliens) (hs : k.score = g.score) :
    ValueKept g k :=
  ⟨by rw [hs, aliveValue_of_aliens g k ha], OnlyKills_of_aliens g k ha⟩

theorem alienColLoop_value (i : PSlot) (row : Row) (l : List Col) (g : Game) :
    ValueKept g (alienColLoop i row l g) := by
  induction l with
  | nil => exact ValueKept_refl g
  | cons col rest ih =>
    by_cases h : hitsCell g i (row, col)
    · rw [alienColLoop_cons_hit i row col rest g h]
      exact ⟨hitAlien_value i row col g h.1, hitAlien_onlyKills i row col g⟩
    · rw [alienColLoop_cons_miss i row col rest g h]
      exact ih

theorem playerBulletsVsAliens_value (g : Game) : ValueKept g (playerBulletsVsAliens g) := by
  refine forFin_invariant (fun k : Game => ValueKept g k) playerBulletVsAliens ?_ g
    (ValueKept_refl g)
  intro i k hk
  unfold playerBulletVsAliens
  split
  · refine forFin_invariant (fun k : Game => ValueKept g k) _ ?_ k hk
    intro row k hk
    exact ValueKept_trans hk (alienColLoop_value i row _ k)
  · exact hk

/-- One collision pass: the score gains exactly what the aliens alive lose. -/
theorem CheckCollisions_value (g : Game) : ValueKept g (CheckCollisions g) := by
  unfold CheckCollisions
  refine ValueKept_trans (playerBulletsVsAliens_value g) ?_
  generalize playerBulletsVsAliens g = g1
  obtain ⟨ab, pl, ex, st, t, h2, _⟩ := alienBulletsVsPlayer_shape (List.finRange 8) g1
  have e2 : ValueKept g1 (alienBulletsVsPlayer (List.finRange 8) g1) :=
    ValueKept_of_eq _ _ (by rw [h2]) (by rw [h2])
  refine ValueKept_trans e2 ?_
  generalize alienBulletsVsPlayer (List.finRange 8) g1 = g2
  obtain ⟨pb, sh, h3⟩ := playerBulletsVsShields_shape g2
  have e3 : ValueKept g2 (playerBulletsVsShields g2) :=
    ValueKept_of_eq _ _ (by rw [h3]) (by rw [h3])
  refine ValueKept_trans e3 ?_
  generalize playerBulletsVsShields g2 = g3
  obtain ⟨ab', sh', h4⟩ := alienBulletsVsShields_shape g3
  exact ValueKept_of_eq _ _ (by rw [h4]) (by rw [h4])

/-- The score gained is the sum of the values of the aliens killed. -/
theorem score_of_valueKept (g k : Game) (h : ValueKept g k) :
    k.score = g.score + killedValue g k := by
  obtain ⟨hv, hk⟩ := h
  have hsum : killedValue g k = aliveValue g - aliveValue k := by
    unfold killedValue aliveValue
    rw [← Finset.sum_sub_distrib]
    apply Finset.sum_congr rfl
    intro p _
    obtain ⟨ht, hal⟩ := hk p.1 p.2
    unfold killed
    rw [ht]
    by_cases hg : (g.aliens p.1 p.2).alive = true
    · by_cases hkk : (k.aliens p.1 p.2).alive = true
      · simp [hg, hkk]
      · simp [hg, hkk]
    · have hkk : ¬ (k.aliens p.1 p.2).alive = true := fun h => hg (hal h)
      simp [hg, hkk]
  rw [hsum]
  omega

theorem alienValue_nonneg (t : Int) : 0 ≤ alienValue t := by
  unfold alienValue
  split
  · decide
  · split
    · decide
    · split <;> decide

theorem killedValue_nonneg (g k : Game) : 0 ≤ killedValue g k := by
  unfold killedValue
  apply Finset.sum_nonneg
  intro p _
  split
  · exact alienValue_nonneg _
  · exact le_refl _

theorem dropped_type (l : List (Row × Col)) (k : Game) (r : Row) (c : Col) :
    (dropped l k r c).type = (k.aliens r c).type := by
  unfold dropped
  split <;> rfl

theorem shiftAliens_type (m : Int) (g : Game) (r : Row) (c : Col) :
    ((forFin 5 (fun row => forFin 11 (fun col => shiftAlien m row col)) g).aliens r c).type =
      (g.aliens r c).type := by
  refine forFin_invariant
    (fun k : Game => (k.aliens r c).type = (g.aliens r c).type) _ ?_ g rfl
  intro row k hk
  refine forFin_invariant
    (fun k : Game => (k.aliens r c).type = (g.aliens r c).type) _ ?_ k hk
  intro col k hk
  unfold shiftAlien
  split
  · by_cases h : (r, c) = (row, col)
    · obtain ⟨rfl, rfl⟩ := Prod.mk.inj h
      simpa [setAlien] using hk
    · rw [setAlien_aliens_other k (row, col) (r, c) _ h]
      exact hk
  · exact hk

/-- `MoveAliens` does not write the type of an alien. -/
theorem MoveAliens_type (g : Game) (r : Row) (c : Col) :
    ((MoveAliens g).aliens r c).type = (g.aliens r c).type := by
  by_cases hflag : shouldDropAndReverse g = true
  · by_cases hex : ∃ a ∈ allCells, reachesPlayer g a
    · obtain ⟨pre, p, post, hsplit, hp, hpre⟩ := exists_first (reachesPlayer g) allCells hex
      rw [MoveAliens_stop g hflag pre post p hsplit hpre hp]
      exact dropped_type _ g r c
    · have hsafe : ∀ p, ¬ reachesPlayer g p := fun p hp => hex ⟨p, mem_allCells p, hp⟩
      rw [MoveAliens_drop g hflag hsafe]
      exact dropped_type _ g r c
  · have hdef : MoveAliens g = forFin 5 (fun row => forFin 11 (fun col => shiftAlien
        (if g.alienDirection = .DIR_RIGHT then ALIEN_MOVE_SPEED else -ALIEN_MOVE_SPEED)
        row col)) g := by
      rw [MoveAliens, if_neg hflag]
    rw [hdef]
    exact shiftAliens_type _ g r c

theorem tickMoveAliens_value (g : Game) : ValueKept g (tickMoveAliens g) := by
  have hs : (tickMoveAliens g).score = g.score := by
    obtain ⟨al, d, pl, st, t, mt, h, _⟩ := tickMoveAliens_shape g
    rw [h]
  have ha : ∀ r c, ((tickMoveAliens g).aliens r c).alive = (g.aliens r c).alive ∧
      ((tickMoveAliens g).aliens r c).type = (g.aliens r c).type := by
    intro r c
    unfold tickMoveAliens
    simp only []
    split
    · exact ⟨(MoveAliens_alive { g with alienMoveTimer := 0 }).1 r c,
        MoveAliens_type { g with alienMoveTimer := 0 } r c⟩
    · exact ⟨rfl, rfl⟩
  refine ⟨?_, fun r c => ⟨(ha r c).2, fun h => (ha r c).1 ▸ h⟩⟩
  rw [hs, aliveValue_congr g _ ha]

/-- The part of a playing tick before the win check: the score gains exactly
what the aliens alive lose, and no alien changes its type or comes back. -/
theorem tickUntilCollisions_value (rand : Nat → Nat) (g : Game) :
    ValueKept g (tickUntilCollisions rand g) := by
  unfold tickUntilCollisions
  refine ValueKept_trans ?_ (CheckCollisions_value _)
  refine ValueKept_trans (tickMoveAliens_value g) ?_
  generalize tickMoveAliens g = g1
  obtain ⟨ab, t, h2⟩ := tickAlienShooting_shape rand g1
  have e2 : ValueKept g1 (tickAlienShooting rand g1) :=
    ValueKept_of_eq _ _ (by rw [h2]) (by rw [h2])
  refine ValueKept_trans e2 ?_
  generalize tickAlienShooting rand g1 = g2
  obtain ⟨pb, h3⟩ := tickPlayerBullets_shape g2
  have e3 : ValueKept g2 (tickPlayerBullets g2) :=
    ValueKept_of_eq _ _ (by rw [h3]) (by rw [h3])
  refine ValueKept_trans e3 ?_
  generalize tickPlayerBullets g2 = g3
  obtain ⟨ab', h4⟩ := tickAlienBullets_shape g3
  have e4 : ValueKept g3 (tickAlienBullets g3) :=
    ValueKept_of_eq _ _ (by rw [h4]) (by rw [h4])
  refine ValueKept_trans e4 ?_
  generalize tickAlienBullets g3 = g4
  obtain ⟨ex, h5⟩ := tickExplosions_shape g4
  exact ValueKept_of_eq _ _ (by rw [h5]) (by rw [h5])

theorem tickWinCondition_score (k : Game) : (tickWinCondition k).score = k.score := by
  unfold tickWinCondition
  split
  · simp only []
    split
    · rfl
    · rw [InitializeLevel_eq]
  · rfl

/-- The score after a playing tick is the score before it plus the values of
the aliens its collision pass killed. -/
theorem UpdateGame_score (rand : Nat → Nat) (g : Game) (h : g.state = .GAME_PLAYING) :
    (UpdateGame rand g).score = g.score + killedValue g (tickUntilCollisions rand g) := by
  rw [UpdateGame_playing rand g h, tickWinCondition_score]
  exact score_of_valueKept g _ (tickUntilCollisions_value rand g)

theorem freshAlien_type (r : Row) (c : Col) : (freshAlien r c).type = rowType r := by
  unfold freshAlien rowType
  fin_cases r <;> rfl

theorem tickWinCondition_types (k : Game) (h : ∀ r c, (k.aliens r c).type = rowType r) :
    ∀ r c, ((tickWinCondition k).aliens r c).type = rowType r := by
  unfold tickWinCondition
  split
  · simp only []
    split
    · exact h
    · rw [InitializeLevel_eq]
      exact freshAlien_type
  · exact h

theorem UpdateGame_types (rand : Nat → Nat) (g : Game)
    (h : ∀ r c, (g.aliens r c).type = rowType r) :
    ∀ r c, ((UpdateGame rand g).aliens r c).type = rowType r := by
  unfold UpdateGame
  split
  · apply tickWinCondition_types
    intro r c
    rw [((tickUntilCollisions_value rand g).2 r c).1]
    exact h r c
  · split
    · simp only []
      split <;> exact h
    · exact h

theorem WindowProc_types (m : Msg) (g : Game) (h : ∀ r c, (g.aliens r c).type = rowType r) :
    ∀ r c, ((WindowProc m g).aliens r c).type = rowType r := by
  cases m with
  | WM_TIMER rand => exact UpdateGame_types rand g h
  | WM_KEYDOWN key =>
    cases key with
    | VK_LEFT =>
      simp only [WindowProc]
      split
      · obtain ⟨x, hx⟩ := MovePlayer_shape (-1) g
        rw [hx]; exact h
      · exact h
    | VK_RIGHT =>
      simp only [WindowProc]
      split
      · obtain ⟨x, hx⟩ := MovePlayer_shape 1 g
        rw [hx]; exact h
      · exact h
    | VK_SPACE =>
      simp only [WindowProc]
      split
      · obtain ⟨pb, hpb⟩ := FirePlayerBullet_shape g
        rw [hpb]; exact h
      · split
        · rw [InitializeLevel_eq]
          exact freshAlien_type
        · split
          · rw [InitializeGame_eq]
            exact freshAlien_type
          · exact h
    | VK_ESCAPE =>
      simp only [WindowProc]
      split
      · exact h
      · exact h

/-- In every state of a running program the type of an alien is the type of
its row: nothing but `InitializeLevel` writes the field. -/
theorem reachable_types (g : Game) (h : Reachable g) :
    ∀ r c, (g.aliens r c).type = rowType r := by
  induction h with
  | init =>
    rw [InitializeGame_eq]
    exact freshAlien_type
  | step m _ ih => exact WindowProc_types m _ ih

/-- C11: after `InitializeLevel` the alien at (`row`, `col`) has type 0 if
`row = 0`, type 1 if `row` is 1 or 2 and type 2 if `row` is 3 or 4; a kill in
`CheckCollisions` adds to the score the value of the type of the alien killed,
which is 30, 20 and 10 for the types 0, 1 and 2; one `CheckCollisions` pass
raises the score by the sum of these values over the aliens it kills; and in
every reachable state the type of an alien is the type of its row, so that the
value is decided by the row of the alien killed. -/
theorem alien_types_and_values (g : Game) :
    (∀ row col, ((InitializeLevel g).aliens row col).type =
      if row.val = 0 then 0 else if row.val = 1 ∨ row.val = 2 then 1 else 2) ∧
    (alienValue 0 = 30 ∧ alienValue 1 = 20 ∧ alienValue 2 = 10) ∧
    (∀ i row col, (hitAlien i row col g).score = g.score + alienValue (g.aliens row col).type) ∧
    (CheckCollisions g).score = g.score + killedValue g (CheckCollisions g) ∧
    (Reachable g → ∀ row col, alienValue (g.aliens row col).type =
      if row.val = 0 then 30 else if row.val = 1 ∨ row.val = 2 then 20 else 10) := by
  refine ⟨?_, ⟨rfl, rfl, rfl⟩, fun i row col => hitAlien_score i row col g,
    score_of_valueKept g _ (CheckCollisions_value g), ?_⟩
  · intro row col
    rw [InitializeLevel_eq]
    fin_cases row <;> rfl
  · intro h row col
    rw [reachable_types g h row col]
    fin_cases row <;> rfl

/-- The previous theorem at the first state of the program, which is reachable. -/
theorem alien_types_and_values_witness :
    Reachable (InitializeGame zeroGame) ∧
    ∀ row col, alienValue ((InitializeGame zeroGame).aliens row col).type =
      if row.val = 0 then 30 else if row.val = 1 ∨ row.val = 2 then 20 else 10 :=
  ⟨Reachable.init, (alien_types_and_values (InitializeGame zeroGame)).2.2.2.2 Reachable.init⟩

/-- C18: for every state with `state = GAME_PLAYING` and `score ≥ 0`, the
score after one tick is at least the score before it, and it is the score
before plus the sum, over the aliens alive before the tick and dead after its
collision pass, of the value of the alien; where the types are 0, 1 or 2, as
the source documents them and as they are in every reachable state, each of
these values is 10, 20 or 30. -/
theorem UpdateGame_score_monotone (rand : Nat → Nat) (g : Game)
    (hs : g.state = .GAME_PLAYING) (h0 : 0 ≤ g.score) :
    g.score ≤ (UpdateGame rand g).score ∧ 0 ≤ (UpdateGame rand g).score ∧
    (UpdateGame rand g).score = g.score + killedValue g (tickUntilCollisions rand g) ∧
    ((∀ r c, (g.aliens r c).type = 0 ∨ (g.aliens r c).type = 1 ∨ (g.aliens r c).type = 2) →
      ∀ p, killed g (tickUntilCollisions rand g) p →
        alienValue (g.aliens p.1 p.2).type = 10 ∨ alienValue (g.aliens p.1 p.2).type = 20 ∨
          alienValue (g.aliens p.1 p.2).type = 30) ∧
    (Reachable g →
      ∀ r c, (g.aliens r c).type = 0 ∨ (g.aliens r c).type = 1 ∨ (g.aliens r c).type = 2) := by
  have hsc := UpdateGame_score rand g hs
  have hnn := killedValue_nonneg g (tickUntilCollisions rand g)
  refine ⟨by omega, by omega, hsc, ?_, ?_⟩
  · intro ht p _
    rcases ht p.1 p.2 with h | h | h <;> rw [h]
    · exact Or.inr (Or.inr rfl)
    · exact Or.inr (Or.inl rfl)
    · exact Or.inl rfl
  · intro hr r c
    rw [reachable_types g hr r c]
    fin_cases r <;> decide

/-- The previous theorem at `lastShotGame`, where the tick kills the last alien. -/
theorem UpdateGame_score_monotone_witness :
    lastShotGame.score ≤ (UpdateGame (fun _ => 0) lastShotGame).score ∧
    0 ≤ (UpdateGame (fun _ => 0) lastShotGame).score ∧
    (UpdateGame (fun _ => 0) lastShotGame).score =
      lastShotGame.score + killedValue lastShotGame
        (tickUntilCollisions (fun _ => 0) lastShotGame) ∧
    ((∀ r c, (lastShotGame.aliens r c).type = 0 ∨ (lastShotGame.aliens r c).type = 1 ∨
        (lastShotGame.aliens r c).type = 2) →
      ∀ p, killed lastShotGame (tickUntilCollisions (fun _ => 0) lastShotGame) p →
        alienValue (lastShotGame.aliens p.1 p.2).type = 10 ∨
        alienValue (lastShotGame.aliens p.1 p.2).type = 20 ∨
          alienValue (lastShotGame.aliens p.1 p.2).type = 30) ∧
    (Reachable lastShotGame →
      ∀ r c, (lastShotGame.aliens r c).type = 0 ∨ (lastShotGame.aliens r c).type = 1 ∨
        (lastShotGame.aliens r c).type = 2) :=
  UpdateGame_score_monotone (fun _ => 0) lastShotGame rfl (by decide)

/-! ## `FireAlienBullet` -/

theorem lowestRow_aux : ∀ (f : Fin 5 → Bool) (row low : Fin 5), f row = true → f low = true →
    (∀ r, f r = true → r ≤ low) →
    (List.finRange 5).foldl
      (fun acc r => if row.val + 1 ≤ r.val ∧ f r = true then r else acc) row = low := by
  set_option maxRecDepth 100000 in decide

/-- From an alive alien the loop over the rows below it ends at the alive alien
of greatest row index in the column. -/
theorem lowestRow_greatest (g : Game) (row low : Row) (col : Col)
    (hrow : (g.aliens row col).alive = true) (hlow : (g.aliens low col).alive = true)
    (hmax : ∀ r, (g.aliens r col).alive = true → r ≤ low) : lowestRow g row col = low :=
  lowestRow_aux (fun r => (g.aliens r col).alive) row low hrow hlow hmax

theorem FireAlienBullet.attempt_succ (rand : Nat → Nat) (i : ASlot) (g : Game)
    (fuel attempts : Nat) :
    FireAlienBullet.attempt rand i g (fuel + 1) attempts =
      if (g.aliens (pickRow rand attempts) (pickCol rand attempts)).alive = true then
        setAlienBullet g i
          { x := (g.aliens (lowestRow g (pickRow rand attempts) (pickCol rand attempts))
                  (pickCol rand attempts)).x + ALIEN_WIDTH / 2
            y := (g.aliens (lowestRow g (pickRow rand attempts) (pickCol rand attempts))
                  (pickCol rand attempts)).y + ALIEN_HEIGHT
            active := true }
      else FireAlienBullet.attempt rand i g fuel (attempts + 1) := by
  rw [FireAlienBullet.attempt]
  rfl

/-- The attempts of `FireAlienBullet`: dead picks are skipped, and the first
alive pick within the remaining attempts fires from the lowest alien of its
column. -/
theorem FireAlienBullet.attempt_fires (rand : Nat → Nat) (i : ASlot) (g : Game) (low : Row) :
    ∀ (n fuel attempts : Nat), n < fuel →
      (∀ m, m < n → (g.aliens (pickRow rand (attempts + m))
        (pickCol rand (attempts + m))).alive = false) →
      (g.aliens (pickRow rand (attempts + n)) (pickCol rand (attempts + n))).alive = true →
      (g.aliens low (pickCol rand (attempts + n))).alive = true →
      (∀ r, (g.aliens r (pickCol rand (attempts + n))).alive = true → r ≤ low) →
      FireAlienBullet.attempt rand i g fuel attempts =
        setAlienBullet g i
          { x := (g.aliens low (pickCol rand (attempts + n))).x + 20
            y := (g.aliens low (pickCol rand (attempts + n))).y + 40
            active := true } := by
  intro n
  induction n with
  | zero =>
    intro fuel attempts hfuel _ halive hlow hmax
    obtain ⟨f, rfl⟩ : ∃ f, fuel = f + 1 := ⟨fuel - 1, by omega⟩
    rw [Nat.add_zero] at halive hlow hmax ⊢
    rw [FireAlienBullet.attempt_succ, if_pos halive,
      lowestRow_greatest g _ low _ halive hlow hmax]
    rfl
  | succ n ih =>
    intro fuel attempts hfuel hdead halive hlow hmax
    obtain ⟨f, rfl⟩ : ∃ f, fuel = f + 1 := ⟨fuel - 1, by omega⟩
    have h0 := hdead 0 (Nat.succ_pos n)
    rw [Nat.add_zero] at h0
    rw [FireAlienBullet.attempt_succ, if_neg (by rw [h0]; decide)]
    have e : attempts + (n + 1) = attempts + 1 + n := by omega
    rw [e] at halive hlow hmax ⊢
    apply ih f (attempts + 1) (by omega) _ halive hlow hmax
    intro m hm
    have := hdead (m + 1) (by omega)
    have e2 : attempts + (m + 1) = attempts + 1 + m := by omega
    rw [e2] at this
    exact this

theorem FireAlienBullet_go_first (rand : Nat → Nat) (g : Game) (pre post : List ASlot)
    (i : ASlot) (hpre : ∀ j ∈ pre, (g.alienBullets j).active = true)
    (hi : (g.alienBullets i).active = false) :
    FireAlienBullet.go rand g (pre ++ i :: post) = FireAlienBullet.attempt rand i g 50 0 := by
  induction pre with
  | nil =>
    rw [List.nil_append, FireAlienBullet.go, if_pos hi]
  | cons j rest ih =>
    rw [List.cons_append, FireAlienBullet.go,
      if_neg (by rw [hpre j (List.mem_cons_self _ _)]; decide)]
    exact ih (fun k hk => hpre k (List.mem_cons_of_mem _ hk))

theorem finRange_split {n : Nat} (i : Fin n) :
    ∃ pre post, List.finRange n = pre ++ i :: post ∧ ∀ j ∈ pre, j < i := by
  have hs : (List.finRange n).Pairwise (· < ·) := List.pairwise_lt_finRange n
  obtain ⟨pre, post, h⟩ := List.append_of_mem (List.mem_finRange i)
  refine ⟨pre, post, h, ?_⟩
  intro j hj
  rw [h] at hs
  have := List.pairwise_append.mp hs
  exact this.2.2 j hj i (List.mem_cons_self _ _)

/-- C13: in a state whose inactive alien-bullet slot of least index is
`i`, and for values of `rand()` whose picks number 0 to `n - 1` are dead cells
and whose pick number `n < 50` is an alive cell of column `col`,
`FireAlienBullet` activates slot `i` at (`x + 20`, `y + 40`) of the alive alien
with the greatest row index in that column and changes nothing else. -/
theorem FireAlienBullet_fires (rand : Nat → Nat) (g : Game) (i : ASlot) (n : Nat) (low : Row)
    (hfree : (g.alienBullets i).active = false)
    (hfirst : ∀ j, j < i → (g.alienBullets j).active = true)
    (hn : n < 50)
    (hdead : ∀ m, m < n → (g.aliens (pickRow rand m) (pickCol rand m)).alive = false)
    (halive : (g.aliens (pickRow rand n) (pickCol rand n)).alive = true)
    (hlow : (g.aliens low (pickCol rand n)).alive = true)
    (hmax : ∀ r, (g.aliens r (pickCol rand n)).alive = true → r ≤ low) :
    FireAlienBullet rand g =
      { g with alienBullets := Function.update g.alienBullets i
                 ⟨(g.aliens low (pickCol rand n)).x + 20,
                  (g.aliens low (pickCol rand n)).y + 40, true⟩ } := by
  obtain ⟨pre, post, hsplit, hpre⟩ := finRange_split i
  rw [FireAlienBullet, hsplit,
    FireAlienBullet_go_first rand g pre post i (fun j hj => hfirst j (hpre j hj)) hfree]
  have h := FireAlienBullet.attempt_fires rand i g low n 50 0 hn
    (by intro m hm; rw [Nat.zero_add]; exact hdead m hm)
    (by rw [Nat.zero_add]; exact halive)
    (by rw [Nat.zero_add]; exact hlow)
    (by rw [Nat.zero_add]; exact hmax)
  rw [Nat.zero_add] at h
  rw [h]
  rfl

/-- The previous theorem at `lastShotGame`, where the first pick is a dead cell
and the second one the last alien alive. -/
theorem FireAlienBullet_fires_witness :
    FireAlienBullet secondPickRand lastShotGame =
      { lastShotGame with
        alienBullets := Function.update lastShotGame.alienBullets 0
          ⟨(lastShotGame.aliens 4 (pickCol secondPickRand 1)).x + 20,
           (lastShotGame.aliens 4 (pickCol secondPickRand 1)).y + 40, true⟩ } :=
  FireAlienBullet_fires secondPickRand lastShotGame 0 1 4
    (by set_option maxRecDepth 100000 in decide) (by set_option maxRecDepth 100000 in decide)
    (by decide) (by set_option maxRecDepth 100000 in decide)
    (by set_option maxRecDepth 100000 in decide) (by set_option maxRecDepth 100000 in decide)
    (by set_option maxRecDepth 100000 in decide)

/-! ## Runs of the program -/

theorem reachable_runMsgs (l : List Msg) (g : Game) (h : Reachable g) :
    Reachable (runMsgs l g) := by
  induction l generalizing g with
  | nil => exact h
  | cons m rest ih => exact ih (WindowProc m g) (Reachable.step m h)

theorem reachable_startGame : Reachable startGame :=
  InitializeGame_zeroGame ▸ Reachable.init

/-! ## One bullet, several hits -/

/-- C19: one player bullet takes two shield blocks in one collision pass.
After the messages `shieldShot` the program is in a playing state with fresh
shields whose only active bullet is player bullet 0 at (344, 516). The next
tick moves it to (344, 504), and its collision pass deactivates the bullet and
the two active blocks (8, 6) and (9, 6) of shield 1. The same happens when
`CheckCollisions` is run on `shieldShotGame`. -/
theorem CheckCollisions_two_blocks :
    Reachable (runMsgs shieldShot startGame) ∧
    ((runMsgs shieldShot startGame).playerBullets 0 = ⟨344, 516, true⟩ ∧
      (∀ i, i ≠ 0 → ((runMsgs shieldShot startGame).playerBullets i).active = false) ∧
      (∀ i, ((runMsgs shieldShot startGame).alienBullets i).active = false) ∧
      (((runMsgs shieldShot startGame).shields 1).blocks 8 6).active = true ∧
      (((runMsgs shieldShot startGame).shields 1).blocks 9 6).active = true) ∧
    ((UpdateGame (fun _ => 0) (runMsgs shieldShot startGame)).playerBullets 0
        = ⟨344, 504, false⟩ ∧
      (((UpdateGame (fun _ => 0) (runMsgs shieldShot startGame)).shields 1).blocks 8 6).active
        = false ∧
      (((UpdateGame (fun _ => 0) (runMsgs shieldShot startGame)).shields 1).blocks 9 6).active
        = false) ∧
    (((shieldShotGame.shields 1).blocks 8 6).active = true ∧
      ((shieldShotGame.shields 1).blocks 9 6).active = true ∧
      inBlock (shieldShotGame.playerBullets 0) ((shieldShotGame.shields 1).blocks 8 6) ∧
      inBlock (shieldShotGame.playerBullets 0) ((shieldShotGame.shields 1).blocks 9 6) ∧
      (((CheckCollisions shieldShotGame).shields 1).blocks 8 6).active = false ∧
      (((CheckCollisions shieldShotGame).shields 1).blocks 9 6).active = false) :=
  ⟨reachable_runMsgs shieldShot startGame reachable_startGame,
    by set_option maxRecDepth 1000000 in decide,
    by set_option maxRecDepth 1000000 in decide,
    by set_option maxRecDepth 1000000 in decide⟩

/-- The `break` after a hit leaves the loop over the columns only. In a state
whose alive aliens overlap this shows: in `overlapGame`, which no run of the
program reaches (`reachable_inFormation` keeps the rows 50 apart), the only
active player bullet is inside the alive aliens (0, 0) and (1, 0);
`CheckCollisions` kills both, lowers `alienCount` by 2 and adds the values 30
and 20 of both to the score. -/
theorem CheckCollisions_two_kills :
    activePlayerBullets overlapGame = 1 ∧
    (hitsCell overlapGame 0 (0, 0) ∧ hitsCell overlapGame 0 (1, 0)) ∧
    (((CheckCollisions overlapGame).aliens 0 0).alive = false ∧
      ((CheckCollisions overlapGame).aliens 1 0).alive = false) ∧
    (CheckCollisions overlapGame).alienCount = overlapGame.alienCount - 2 ∧
    (CheckCollisions overlapGame).score = overlapGame.score + 30 + 20 ∧
    ¬ (overlapGame.alienCount - (CheckCollisions overlapGame).alienCount
        ≤ (activePlayerBullets overlapGame : Int)) := by
  have h1 : activePlayerBullets overlapGame = 1 := by decide
  have h2 : (CheckCollisions overlapGame).alienCount = overlapGame.alienCount - 2 := by
    set_option maxRecDepth 1000000 in decide
  refine ⟨h1, by decide, ?_, h2, ?_, ?_⟩
  · set_option maxRecDepth 1000000 in decide
  · set_option maxRecDepth 1000000 in decide
  · rw [h1, h2]
    decide

/-! ## The shorter collision pass agrees with `CheckCollisions` -/

theorem ShieldsInPlace_of_shields (g k : Game) (h : k.shields = g.shields)
    (hg : ShieldsInPlace g) : ShieldsInPlace k := by
  intro s x y; rw [h]; exact hg s x y

theorem ShieldsInPlace_fresh (g : Game) (h : g.shields = freshShield) : ShieldsInPlace g := by
  intro s x y; rw [h]; rfl

theorem setBlock_inPlace (g : Game) (s : SIdx) (x : BX) (y : BY) (hg : ShieldsInPlace g) :
    ShieldsInPlace (setBlock g s x y { (g.shields s).blocks x y with active := false }) := by
  intro s1 x1 y1
  have h := hg s1 x1 y1
  simp only [setBlock, setShield]
  by_cases hs : s1 = s
  · subst hs
    by_cases hx : x1 = x
    · subst hx
      by_cases hy : y1 = y
      · subst hy
        simpa using h
      · simpa [Function.update_noteq hy] using h
    · simpa [Function.update_noteq hx] using h
  · simpa [Function.update_noteq hs] using h

theorem playerBlockLoop_inPlace (i : PSlot) (s : SIdx) (x : BX) (l : List BY) (g : Game)
    (hg : ShieldsInPlace g) : ShieldsInPlace (playerBlockLoop i s x l g) := by
  induction l with
  | nil => exact hg
  | cons y rest ih =>
    unfold playerBlockLoop
    split
    · exact ShieldsInPlace_of_shields _ _ rfl (setBlock_inPlace g s x y hg)
    · exact ih

theorem alienBlockLoop_inPlace (i : ASlot) (s : SIdx) (x : BX) (l : List BY) (g : Game)
    (hg : ShieldsInPlace g) : ShieldsInPlace (alienBlockLoop i s x l g) := by
  induction l with
  | nil => exact hg
  | cons y rest ih =>
    unfold alienBlockLoop
    split
    · exact ShieldsInPlace_of_shields _ _ rfl (setBlock_inPlace g s x y hg)
    · exact ih

theorem playerBulletsVsShields_inPlace (g : Game) (hg : ShieldsInPlace g) :
    ShieldsInPlace (playerBulletsVsShields g) := by
  refine forFin_invariant ShieldsInPlace playerBulletVsShields ?_ g hg
  intro i k hk
  unfold playerBulletVsShields
  split
  · refine forFin_invariant ShieldsInPlace _ ?_ k hk
    intro s k hk
    exact forFin_invariant ShieldsInPlace _
      (fun x k hk => playerBlockLoop_inPlace i s x _ k hk) k hk
  · exact hk

theorem alienBulletsVsShields_inPlace (g : Game) (hg : ShieldsInPlace g) :
    ShieldsInPlace (alienBulletsVsShields g) := by
  refine forFin_invariant ShieldsInPlace alienBulletVsShields ?_ g hg
  intro i k hk
  unfold alienBulletVsShields
  split
  · refine forFin_invariant ShieldsInPlace _ ?_ k hk
    intro s k hk
    exact forFin_invariant ShieldsInPlace _
      (fun x k hk => alienBlockLoop_inPlace i s x _ k hk) k hk
  · exact hk

theorem beforeShields_inPlace (g : Game) (hg : ShieldsInPlace g) :
    ShieldsInPlace (alienBulletsVsPlayer (List.finRange 8) (playerBulletsVsAliens g)) := by
  obtain ⟨al, pb, n, sc, ex, h1⟩ := playerBulletsVsAliens_shape g
  have e1 : ShieldsInPlace (playerBulletsVsAliens g) :=
    ShieldsInPlace_of_shields g _ (by rw [h1]) hg
  generalize playerBulletsVsAliens g = g1 at e1 ⊢
  obtain ⟨ab, pl, ex, st, t, h2, _⟩ := alienBulletsVsPlayer_shape (List.finRange 8) g1
  exact ShieldsInPlace_of_shields g1 _ (by rw [h2]) e1

theorem CheckCollisions_inPlace (g : Game) (hg : ShieldsInPlace g) :
    ShieldsInPlace (CheckCollisions g) := by
  unfold CheckCollisions
  exact alienBulletsVsShields_inPlace _
    (playerBulletsVsShields_inPlace _ (beforeShields_inPlace g hg))

theorem beforeCollisions_inPlace (rand : Nat → Nat) (g : Game) (hg : ShieldsInPlace g) :
    ShieldsInPlace (tickExplosions (tickAlienBullets (tickPlayerBullets
      (tickAlienShooting rand (tickMoveAliens g))))) := by
  obtain ⟨al, d, pl, st, t, mt, h1, _⟩ := tickMoveAliens_shape g
  have e1 : ShieldsInPlace (tickMoveAliens g) := ShieldsInPlace_of_shields g _ (by rw [h1]) hg
  generalize tickMoveAliens g = g1 at e1 ⊢
  obtain ⟨ab, t, h2⟩ := tickAlienShooting_shape rand g1
  have e2 : ShieldsInPlace (tickAlienShooting rand g1) :=
    ShieldsInPlace_of_shields g1 _ (by rw [h2]) e1
  generalize tickAlienShooting rand g1 = g2 at e2 ⊢
  obtain ⟨pb, h3⟩ := tickPlayerBullets_shape g2
  have e3 : ShieldsInPlace (tickPlayerBullets g2) :=
    ShieldsInPlace_of_shields g2 _ (by rw [h3]) e2
  generalize tickPlayerBullets g2 = g3 at e3 ⊢
  obtain ⟨ab', h4⟩ := tickAlienBullets_shape g3
  have e4 : ShieldsInPlace (tickAlienBullets g3) :=
    ShieldsInPlace_of_shields g3 _ (by rw [h4]) e3
  generalize tickAlienBullets g3 = g4 at e4 ⊢
  obtain ⟨ex, h5⟩ := tickExplosions_shape g4
  exact ShieldsInPlace_of_shields g4 _ (by rw [h5]) e4

theorem tickWinCondition_inPlace (k : Game) (hk : ShieldsInPlace k) :
    ShieldsInPlace (tickWinCondition k) := by
  unfold tickWinCondition
  split
  · simp only []
    split
    · exact hk
    · exact ShieldsInPlace_fresh _ (by rw [InitializeLevel_eq])
  · exact hk

theorem UpdateGame_inPlace (rand : Nat → Nat) (g : Game) (hg : ShieldsInPlace g) :
    ShieldsInPlace (UpdateGame rand g) := by
  unfold UpdateGame
  split
  · apply tickWinCondition_inPlace
    unfold tickUntilCollisions
    exact CheckCollisions_inPlace _ (beforeCollisions_inPlace rand g hg)
  · split
    · simp only []
      split <;> exact hg
    · exact hg

theorem WindowProc_inPlace (m : Msg) (g : Game) (hg : ShieldsInPlace g) :
    ShieldsInPlace (WindowProc m g) := by
  cases m with
  | WM_TIMER rand => exact UpdateGame_inPlace rand g hg
  | WM_KEYDOWN key =>
    cases key with
    | VK_LEFT =>
      simp only [WindowProc]
      split
      · obtain ⟨x, hx⟩ := MovePlayer_shape (-1) g
        rw [hx]; exact hg
      · exact hg
    | VK_RIGHT =>
      simp only [WindowProc]
      split
      · obtain ⟨x, hx⟩ := MovePlayer_shape 1 g
        rw [hx]; exact hg
      · exact hg
    | VK_SPACE =>
      simp only [WindowProc]
      split
      · obtain ⟨pb, hpb⟩ := FirePlayerBullet_shape g
        rw [hpb]; exact hg
      · split
        · exact ShieldsInPlace_fresh _ (by rw [InitializeLevel_eq])
        · split
          · exact ShieldsInPlace_fresh _ (by rw [InitializeGame_eq])
          · exact hg
    | VK_ESCAPE =>
      simp only [WindowProc]
      split
      · exact hg
      · exact hg

theorem not_inBlock_offShields (g : Game) (hg : ShieldsInPlace g) (b : Bullet)
    (hb : offShields b) (s : SIdx) (x : BX) (y : BY) :
    ¬ inBlock b ((g.shields s).blocks x y) := by
  unfold inBlock
  rw [hg s x y]
  have hx := x.isLt
  rcases hb s with h | h
  · intro hin; simp only [SHIELD_BLOCK_SIZE] at hin; omega
  · intro hin; simp only [SHIELD_BLOCK_SIZE] at hin; omega

theorem alienBlockLoop_miss (i : ASlot) (s : SIdx) (x : BX) (l : List BY) (g : Game)
    (h : ∀ y, ¬ inBlock (g.alienBullets i) ((g.shields s).blocks x y)) :
    alienBlockLoop i s x l g = g := by
  induction l with
  | nil => rfl
  | cons y rest ih =>
    rw [alienBlockLoop, if_neg (fun hh => h y hh.2)]
    exact ih

theorem alienBulletsVsShields_quiet (g : Game) (hg : ShieldsInPlace g)
    (h : ∀ i, (g.alienBullets i).active = true → offShields (g.alienBullets i)) :
    alienBulletsVsShields g = g := by
  refine forFin_invariant (fun k : Game => k = g) alienBulletVsShields ?_ g rfl
  rintro i k rfl
  unfold alienBulletVsShields
  split
  · rename_i hact
    refine forFin_invariant (fun j : Game => j = k) _ ?_ k rfl
    rintro s j rfl
    refine forFin_invariant (fun m : Game => m = j) _ ?_ j rfl
    rintro x m rfl
    exact alienBlockLoop_miss i s x _ m
      (fun y => not_inBlock_offShields m hg _ (h i hact) s x y)
  · rfl

/-- Where the shield blocks stand in their places, the shorter pass is the
collision pass. -/
theorem quickCollisions_eq (g : Game) (hg : ShieldsInPlace g) :
    quickCollisions g = CheckCollisions g := by
  unfold quickCollisions CheckCollisions
  have h2 := beforeShields_inPlace g hg
  generalize alienBulletsVsPlayer (List.finRange 8) (playerBulletsVsAliens g) = g2 at h2 ⊢
  simp only []
  split
  · rename_i hq
    rw [playerBulletsVsShields_inactive g2 hq.1, alienBulletsVsShields_quiet g2 h2 hq.2]
  · rfl

theorem quickUpdate_eq (rand : Nat → Nat) (g : Game) (hg : ShieldsInPlace g) :
    quickUpdate rand g = UpdateGame rand g := by
  unfold quickUpdate
  split
  · rename_i hs
    rw [UpdateGame_playing rand g hs, tickUntilCollisions,
      quickCollisions_eq _ (beforeCollisions_inPlace rand g hg)]
  · rfl

theorem quickProc_eq (m : Msg) (g : Game) (hg : ShieldsInPlace g) :
    quickProc m g = WindowProc m g := by
  cases m with
  | WM_TIMER rand => exact quickUpdate_eq rand g hg
  | WM_KEYDOWN key => rfl

/-- From a state whose shield blocks stand in their places, the run with the
shorter collision pass is the run of the program. -/
theorem quickRun_eq (l : List Msg) (g : Game) (hg : ShieldsInPlace g) :
    runMsgs l g = quickRun l g := by
  induction l generalizing g with
  | nil => rfl
  | cons m rest ih =>
    unfold runMsgs quickRun
    rw [List.foldl_cons, List.foldl_cons, quickProc_eq m g hg]
    exact ih (WindowProc m g) (WindowProc_inPlace m g hg)

theorem runMsgs_inPlace (l : List Msg) (g : Game) (hg : ShieldsInPlace g) :
    ShieldsInPlace (runMsgs l g) := by
  induction l generalizing g with
  | nil => exact hg
  | cons m rest ih => exact ih (WindowProc m g) (WindowProc_inPlace m g hg)

/-! ## A game lost and started again from the menu -/

theorem quickRun_lostRun :
    (quickRun lostRun startGame).state = .GAME_MENU ∧
    (quickRun lostRun startGame).playerLives = 0 ∧
    (quickRun firstHitRun (quickRun lostRun startGame)).state = .GAME_OVER ∧
    (quickRun firstHitRun (quickRun lostRun startGame)).playerLives = -1 := by
  set_option maxRecDepth 1000000 in decide!

/-- The run `lostRun` ends in the menu with no life left; the space key and 88
more ticks end with `playerLives = -1`. -/
theorem runMsgs_lostRun :
    (runMsgs lostRun startGame).state = .GAME_MENU ∧
    (runMsgs lostRun startGame).playerLives = 0 ∧
    (runMsgs firstHitRun (runMsgs lostRun startGame)).state = .GAME_OVER ∧
    (runMsgs firstHitRun (runMsgs lostRun startGame)).playerLives = -1 := by
  have h0 : ShieldsInPlace startGame := ShieldsInPlace_fresh startGame rfl
  have e1 : runMsgs lostRun startGame = quickRun lostRun startGame :=
    quickRun_eq lostRun startGame h0
  have e2 : runMsgs firstHitRun (runMsgs lostRun startGame) =
      quickRun firstHitRun (quickRun lostRun startGame) := by
    rw [quickRun_eq firstHitRun _ (runMsgs_inPlace lostRun startGame h0), e1]
  rw [e2, e1]
  exact quickRun_lostRun

/-- The space key in the menu starts the level again and writes neither
`level`, `score` nor `playerLives`. -/
theorem WindowProc_space_menu (g : Game) (h : g.state = .GAME_MENU) :
    WindowProc (.WM_KEYDOWN .VK_SPACE) g =
      { g with
        state := .GAME_PLAYING
        aliens := freshAlien
        alienCount := 55
        alienDirection := .DIR_RIGHT
        alienMoveTimer := 0
        alienMoveDelay := max 10 (30 - g.level * 2)
        alienDropDistance := 20
        alienShootTimer := 0
        alienShootDelay := max 20 (60 - g.level * 5)
        shields := freshShield } := by
  simp only [WindowProc]
  rw [if_neg (by rw [h]; decide), if_pos h, InitializeLevel_eq]

/-- C14: in a state with `state = GAME_MENU` the space key sets
`state = GAME_PLAYING` and builds a fresh formation of 55 alive aliens and
fresh shields, but it writes neither `level`, `score` nor `playerLives`. The
run `lostRun` (a game lost, then the game-over screen left to time out) ends in
the menu with `playerLives = 0`, and there the space key starts a game with no
life, where the claim says 3 lives. -/
theorem WindowProc_space_menu_keeps_lives :
    (∀ g : Game, g.state = .GAME_MENU →
      (WindowProc (.WM_KEYDOWN .VK_SPACE) g).state = .GAME_PLAYING ∧
      (WindowProc (.WM_KEYDOWN .VK_SPACE) g).aliens = freshAlien ∧
      (WindowProc (.WM_KEYDOWN .VK_SPACE) g).alienCount = 55 ∧
      (WindowProc (.WM_KEYDOWN .VK_SPACE) g).shields = freshShield ∧
      (WindowProc (.WM_KEYDOWN .VK_SPACE) g).level = g.level ∧
      (WindowProc (.WM_KEYDOWN .VK_SPACE) g).score = g.score ∧
      (WindowProc (.WM_KEYDOWN .VK_SPACE) g).playerLives = g.playerLives) ∧
    Reachable (runMsgs lostRun startGame) ∧
    (runMsgs lostRun startGame).state = .GAME_MENU ∧
    (WindowProc (.WM_KEYDOWN .VK_SPACE) (runMsgs lostRun startGame)).state = .GAME_PLAYING ∧
    (WindowProc (.WM_KEYDOWN .VK_SPACE) (runMsgs lostRun startGame)).playerLives = 0 ∧
    ¬ (∀ g : Game, g.state = .GAME_MENU →
        (WindowProc (.WM_KEYDOWN .VK_SPACE) g).playerLives = 3) := by
  have hgen : ∀ g : Game, g.state = .GAME_MENU →
      (WindowProc (.WM_KEYDOWN .VK_SPACE) g).state = .GAME_PLAYING ∧
      (WindowProc (.WM_KEYDOWN .VK_SPACE) g).aliens = freshAlien ∧
      (WindowProc (.WM_KEYDOWN .VK_SPACE) g).alienCount = 55 ∧
      (WindowProc (.WM_KEYDOWN .VK_SPACE) g).shields = freshShield ∧
      (WindowProc (.WM_KEYDOWN .VK_SPACE) g).level = g.level ∧
      (WindowProc (.WM_KEYDOWN .VK_SPACE) g).score = g.score ∧
      (WindowProc (.WM_KEYDOWN .VK_SPACE) g).playerLives = g.playerLives := by
    intro g h
    rw [WindowProc_space_menu g h]
    exact ⟨rfl, rfl, rfl, rfl, rfl, rfl, rfl⟩
  obtain ⟨hm, hl, _, _⟩ := runMsgs_lostRun
  have hsp := hgen (runMsgs lostRun startGame) hm
  refine ⟨hgen, reachable_runMsgs lostRun startGame reachable_startGame, hm, hsp.1,
    hsp.2.2.2.2.2.2.trans hl, ?_⟩
  intro hall
  have h3 := hall (runMsgs lostRun startGame) hm
  rw [hsp.2.2.2.2.2.2, hl] at h3
  exact absurd h3 (by decide)

/-- C16: `playerLives` can become negative. After the run `lostRun` the
program is in the menu with `playerLives = 0`; the space key starts a game
without resetting the lives, and the first alien bullet that hits the player,
88 ticks later, lowers `playerLives` to -1. A single tick can do the same: in
`lowHitGame` the drop of the formation sets `playerLives = 0`, and the
collision pass of the same tick lowers it to -1. -/
theorem playerLives_negative :
    Reachable (runMsgs firstHitRun (runMsgs lostRun startGame)) ∧
    ((runMsgs lostRun startGame).state = .GAME_MENU ∧
      (runMsgs lostRun startGame).playerLives = 0) ∧
    (runMsgs firstHitRun (runMsgs lostRun startGame)).playerLives = -1 ∧
    ¬ (∀ g : Game, Reachable g → 0 ≤ g.playerLives) ∧
    (lowHitGame.playerLives = 3 ∧ (UpdateGame (fun _ => 0) lowHitGame).playerLives = -1) := by
  obtain ⟨hm, hl, _, hneg⟩ := runMsgs_lostRun
  have hr : Reachable (runMsgs firstHitRun (runMsgs lostRun startGame)) :=
    reachable_runMsgs firstHitRun _ (reachable_runMsgs lostRun startGame reachable_startGame)
  refine ⟨hr, ⟨hm, hl⟩, hneg, ?_, by set_option maxRecDepth 1000000 in decide⟩
  intro hall
  have h := hall _ hr
  rw [hneg] at h
  exact absurd h (by decide)

/-! ## One kill per bullet -/

theorem hitAlien_separate (i : PSlot) (row : Row) (col : Col) (g : Game) (hsep : Separate g) :
    Separate (hitAlien i row col g) := by
  intro p q hpq hp hq
  have hp' : p ≠ (row, col) := by
    intro h; subst h
    rw [hitAlien_aliens_same] at hp
    simp at hp
  have hq' : q ≠ (row, col) := by
    intro h; subst h
    rw [hitAlien_aliens_same] at hq
    simp at hq
  rw [hitAlien_aliens_other i (row, col) p g hp'] at hp ⊢
  rw [hitAlien_aliens_other i (row, col) q g hq'] at hq ⊢
  exact hsep p q hpq hp hq

/-- The attempts of `FireAlienBullet` read `rand()` only at the calls below
`2 * (attempts + fuel)`. -/
theorem FireAlienBullet_attempt_congr (rand rand' : Nat → Nat) (i : ASlot) (g : Game) :
    ∀ (fuel attempts : Nat), (∀ k, k < 2 * (attempts + fuel) → rand' k = rand k) →
      FireAlienBullet.attempt rand' i g fuel attempts =
        FireAlienBullet.attempt rand i g fuel attempts := by
  intro fuel
  induction fuel with
  | zero => intro attempts _; rfl
  | succ f ih =>
    intro attempts h
    have hr : pickRow rand' attempts = pickRow rand attempts := by
      unfold pickRow
      simp only [h (2 * attempts) (by omega)]
    have hc : pickCol rand' attempts = pickCol rand attempts := by
      unfold pickCol
      simp only [h (2 * attempts + 1) (by omega)]
    rw [FireAlienBullet.attempt_succ, FireAlienBullet.attempt_succ, hr, hc,
      ih (attempts + 1) (fun k hk => h k (by omega))]

theorem FireAlienBullet_go_congr (rand rand' : Nat → Nat) (g : Game) (l : List ASlot)
    (h : ∀ k, k < 100 → rand' k = rand k) :
    FireAlienBullet.go rand' g l = FireAlienBullet.go rand g l := by
  induction l with
  | nil => rfl
  | cons i rest ih =>
    rw [FireAlienBullet.go, FireAlienBullet.go, ih,
      FireAlienBullet_attempt_congr rand rand' i g 50 0 (fun k hk => h k (by omega))]

/-- Attempts that only pick dead cells leave the state as it is. -/
theorem FireAlienBullet_attempt_dead (rand : Nat → Nat) (i : ASlot) (g : Game) :
    ∀ (fuel attempts : Nat),
      (∀ n, attempts ≤ n → n < attempts + fuel →
        (g.aliens (pickRow rand n) (pickCol rand n)).alive = false) →
      FireAlienBullet.attempt rand i g fuel attempts = g := by
  intro fuel
  induction fuel with
  | zero => intro attempts _; rfl
  | succ f ih =>
    intro attempts h
    rw [FireAlienBullet.attempt_succ,
      if_neg (by rw [h attempts (le_refl _) (by omega)]; decide)]
    exact ih (attempts + 1) (fun n h1 h2 => h n (by omega) (by omega))

theorem FireAlienBullet_go_all_active (rand : Nat → Nat) (g : Game) (l : List ASlot)
    (h : ∀ i ∈ l, (g.alienBullets i).active = true) : FireAlienBullet.go rand g l = g := by
  induction l with
  | nil => rfl
  | cons i rest ih =>
    rw [FireAlienBullet.go, if_neg (by rw [h i (List.mem_cons_self _ _)]; decide)]
    exact ih (fun j hj => h j (List.mem_cons_of_mem _ hj))

theorem FireAlienBullet_go_dead (rand : Nat → Nat) (g : Game) (l : List ASlot)
    (h : ∀ n, n < 50 → (g.aliens (pickRow rand n) (pickCol rand n)).alive = false) :
    FireAlienBullet.go rand g l = g := by
  induction l with
  | nil => rfl
  | cons i rest ih =>
    rw [FireAlienBullet.go, ih]
    split
    · exact FireAlienBullet_attempt_dead rand i g 50 0 (fun n _ h2 => h n (by omega))
    · rfl

/-- C21: `FireAlienBullet` reads at most the first 100 values of `rand()`, two
for each of at most 50 picks, in every state (so also with a free alien-bullet
slot); if each of the 50 picked cells is dead, in particular when no alien is
alive, it leaves the state unchanged; and if all 8 alien-bullet slots are
active it leaves the state unchanged whatever `rand()` returns, so that no
pick is made. -/
theorem FireAlienBullet_bounded_picks (rand : Nat → Nat) (g : Game) :
    (∀ rand' : Nat → Nat, (∀ k, k < 100 → rand' k = rand k) →
      FireAlienBullet rand' g = FireAlienBullet rand g) ∧
    ((∃ i, (g.alienBullets i).active = false) →
      (∀ n, n < 50 → (g.aliens (pickRow rand n) (pickCol rand n)).alive = false) →
      FireAlienBullet rand g = g) ∧
    ((∃ i, (g.alienBullets i).active = false) → (∀ row col, (g.aliens row col).alive = false) →
      FireAlienBullet rand g = g) ∧
    ((∀ i, (g.alienBullets i).active = true) →
      ∀ rand' : Nat → Nat, FireAlienBullet rand' g = g) := by
  refine ⟨?_, ?_, ?_, ?_⟩
  · intro rand' h
    exact FireAlienBullet_go_congr rand rand' g _ h
  · intro _ h
    exact FireAlienBullet_go_dead rand g _ h
  · intro _ h
    exact FireAlienBullet_go_dead rand g _ (fun n _ => h _ _)
  · intro h rand'
    exact FireAlienBullet_go_all_active rand' g _ (fun i _ => h i)

/-- The previous theorem at `lastShotGame` with `rand()` returning 0: all 50
picks are the dead cell (0, 0), and all slots are free. -/
theorem FireAlienBullet_bounded_picks_witness :
    (∃ i, (lastShotGame.alienBullets i).active = false) ∧
    (∀ n, n < 50 →
      (lastShotGame.aliens (pickRow (fun _ => 0) n) (pickCol (fun _ => 0) n)).alive = false) ∧
    FireAlienBullet (fun _ => 0) lastShotGame = lastShotGame :=
  ⟨⟨0, rfl⟩, fun _ _ => rfl,
    (FireAlienBullet_bounded_picks (fun _ => 0) lastShotGame).2.1 ⟨0, rfl⟩ (fun _ _ => rfl)⟩

/-! ## Explosions -/

theorem foldl_pointwise {σ ι α : Type} [DecidableEq ι] (get : σ → ι → α)
    (body : ι → σ → σ) (f : α → α)
    (hset : ∀ i s, get (body i s) i = f (get s i))
    (hother : ∀ i j s, j ≠ i → get (body i s) j = get s j)
    (l : List ι) (hnd : l.Nodup) (s : σ) (j : ι) :
    get (l.foldl (fun acc i => body i acc) s) j = if j ∈ l then f (get s j) else get s j := by
  induction l generalizing s with
  | nil => simp
  | cons i rest ih =>
    obtain ⟨hi, hrest⟩ := List.nodup_cons.mp hnd
    rw [List.foldl_cons, ih hrest]
    by_cases hj : j = i
    · subst hj
      simp [hi, hset]
    · simp [hj, hother i j s hj]

theorem updateExplosion_same (i : ESlot) (g : Game) :
    (updateExplosion i g).explosions i = explosionStep (g.explosions i) := by
  unfold updateExplosion explosionStep
  simp only [setExplosion]
  split
  · simp only [Function.update_same]
    split
    · split <;> simp
    · simp
  · rfl

theorem updateExplosion_other (i j : ESlot) (g : Game) (h : j ≠ i) :
    (updateExplosion i g).explosions j = g.explosions j := by
  unfold updateExplosion
  simp only [setExplosion]
  split
  · simp only [Function.update_same]
    split
    · split <;> simp [Function.update_noteq h]
    · simp [Function.update_noteq h]
  · rfl

/-- The block "Update explosions" applies `explosionStep` to every slot. -/
theorem tickExplosions_explosions (g : Game) (j : ESlot) :
    (tickExplosions g).explosions j = explosionStep (g.explosions j) := by
  unfold tickExplosions forFin
  rw [foldl_pointwise (fun k : Game => k.explosions) updateExplosion explosionStep
    updateExplosion_same (fun i j s h => updateExplosion_other i j s h) _
    (List.nodup_finRange 20) g j]
  simp [List.mem_finRange]

theorem CreateExplosion_go_first (x y : Int) (g : Game) (pre post : List ESlot) (i : ESlot)
    (hpre : ∀ j ∈ pre, (g.explosions j).active = true)
    (hi : (g.explosions i).active = false) :
    CreateExplosion.go x y g (pre ++ i :: post) =
      setExplosion g i { x := x, y := y, frame := 0, timer := 0, active := true } := by
  induction pre with
  | nil =>
    rw [List.nil_append, CreateExplosion.go, if_pos hi]
  | cons j rest ih =>
    rw [List.cons_append, CreateExplosion.go,
      if_neg (by rw [hpre j (List.mem_cons_self _ _)]; decide)]
    exact ih (fun k hk => hpre k (List.mem_cons_of_mem _ hk))

theorem CreateExplosion_go_all_active (x y : Int) (g : Game) (l : List ESlot)
    (h : ∀ i ∈ l, (g.explosions i).active = true) : CreateExplosion.go x y g l = g := by
  induction l with
  | nil => rfl
  | cons i rest ih =>
    rw [CreateExplosion.go, if_neg (by rw [h i (List.mem_cons_self _ _)]; decide)]
    exact ih (fun j hj => h j (List.mem_cons_of_mem _ hj))

/-- Among the slots of a pool some of which are free there is a free one of
least index. -/
theorem exists_least_free {n : Nat} (p : Fin n → Bool) (h : ∃ i, p i = false) :
    ∃ i, p i = false ∧ (∀ j, j < i → p j = true) ∧
      ∃ pre post, List.finRange n = pre ++ i :: post ∧ ∀ j ∈ pre, j < i := by
  obtain ⟨pre, i, post, hsplit, hi, hpre⟩ :=
    exists_first (fun i => p i = false) (List.finRange n)
      (by obtain ⟨i, hi⟩ := h; exact ⟨i, List.mem_finRange i, hi⟩)
  have hs : (List.finRange n).Pairwise (· < ·) := List.pairwise_lt_finRange n
  rw [hsplit] at hs
  have hlt : ∀ j ∈ pre, j < i := fun j hj =>
    (List.pairwise_append.mp hs).2.2 j hj i (List.mem_cons_self _ _)
  have hgt : ∀ j ∈ post, i < j := fun j hj =>
    List.rel_of_pairwise_cons (List.pairwise_append.mp hs).2.1 hj
  refine ⟨i, hi, ?_, pre, post, hsplit, hlt⟩
  intro j hj
  have hmem : j ∈ pre ++ i :: post := hsplit ▸ List.mem_finRange j
  rcases List.mem_append.mp hmem with hin | hin
  · simpa using hpre j hin
  · rcases List.mem_cons.mp hin with heq | hin'
    · exact absurd (heq ▸ hj) (lt_irrefl _)
    · exact absurd (hgt j hin') (not_lt.mpr (le_of_lt hj))

/-- `CreateExplosion` with a free slot: the free slot of least index is
written, and nothing else. -/
theorem CreateExplosion_first_free (x y : Int) (g : Game)
    (hfree : ∃ i : ESlot, (g.explosions i).active = false) :
    ∃ i : ESlot, (g.explosions i).active = false ∧
      (∀ j : ESlot, j < i → (g.explosions j).active = true) ∧
      CreateExplosion x y g =
        { g with explosions := Function.update g.explosions i ⟨x, y, 0, 0, true⟩ } := by
  obtain ⟨i, hi, hlow, pre, post, hsplit, hpre⟩ :=
    exists_least_free (fun i => (g.explosions i).active) hfree
  refine ⟨i, hi, hlow, ?_⟩
  unfold CreateExplosion
  rw [hsplit, CreateExplosion_go_first x y g pre post i (fun j hj => hlow j (hpre j hj)) hi]
  rfl

theorem CreateExplosion_full (x y : Int) (g : Game)
    (h : ∀ i : ESlot, (g.explosions i).active = true) : CreateExplosion x y g = g :=
  CreateExplosion_go_all_active x y g _ (fun i _ => h i)

theorem FreshOrSame_refl (g : Game) : FreshOrSame g g := fun _ => Or.inl rfl

theorem FreshOrSame_trans {g k m : Game} (h1 : FreshOrSame g k) (h2 : FreshOrSame k m) :
    FreshOrSame g m := by
  intro j
  rcases h2 j with e2 | ⟨hk, hf, ht, ha⟩
  · rw [e2]; exact h1 j
  · rcases h1 j with e1 | ⟨hg, _, _, ha1⟩
    · rw [e1] at hk
      exact Or.inr ⟨hk, hf, ht, ha⟩
    · rw [ha1] at hk
      exact absurd hk (by decide)

theorem FreshOrSame_of_eq (g k : Game) (h : k.explosions = g.explosions) : FreshOrSame g k :=
  fun j => Or.inl (by rw [h])

theorem FreshOrSame_left (g g' k : Game) (h : g'.explosions = g.explosions)
    (hk : FreshOrSame g' k) : FreshOrSame g k := by
  intro j
  have := hk j
  rw [h] at this
  exact this

theorem CreateExplosion_freshOrSame (x y : Int) (g : Game) :
    FreshOrSame g (CreateExplosion x y g) := by
  by_cases hfree : ∃ i : ESlot, (g.explosions i).active = false
  · obtain ⟨i, hi, _, heq⟩ := CreateExplosion_first_free x y g hfree
    rw [heq]
    intro j
    by_cases hj : j = i
    · subst hj
      exact Or.inr ⟨hi, by simp, by simp, by simp⟩
    · exact Or.inl (by simp [Function.update_noteq hj])
  · rw [CreateExplosion_full x y g (fun i => by
      by_contra h; exact hfree ⟨i, by simpa using h⟩)]
    exact FreshOrSame_refl g

theorem hitAlien_freshOrSame (i : PSlot) (row : Row) (col : Col) (g : Game) :
    FreshOrSame g (hitAlien i row col g) := by
  unfold hitAlien
  simp only []
  split
  · exact FreshOrSame_left g _ _ rfl (CreateExplosion_freshOrSame _ _ _)
  · split
    · exact FreshOrSame_left g _ _ rfl (CreateExplosion_freshOrSame _ _ _)
    · split
      · exact FreshOrSame_left g _ _ rfl (CreateExplosion_freshOrSame _ _ _)
      · exact FreshOrSame_left g _ _ rfl (CreateExplosion_freshOrSame _ _ _)

theorem hitPlayer_freshOrSame (i : ASlot) (g : Game) : FreshOrSame g (hitPlayer i g) := by
  unfold hitPlayer
  simp only []
  have h := CreateExplosion_freshOrSame (g.playerX + PLAYER_WIDTH / 2)
    (g.playerY + PLAYER_HEIGHT / 2)
    { setAlienBullet g i { g.alienBullets i with active := false } with
      playerLives := g.playerLives - 1 }
  have h' : FreshOrSame g (CreateExplosion (g.playerX + PLAYER_WIDTH / 2)
      (g.playerY + PLAYER_HEIGHT / 2)
      { setAlienBullet g i { g.alienBullets i with active := false } with
        playerLives := g.playerLives - 1 }) := FreshOrSame_left g _ _ rfl h
  split
  · exact FreshOrSame_trans h' (FreshOrSame_of_eq _ _ rfl)
  · exact h'

theorem alienColLoop_freshOrSame (i : PSlot) (row : Row) (l : List Col) (g : Game) :
    FreshOrSame g (alienColLoop i row l g) := by
  induction l with
  | nil => exact FreshOrSame_refl g
  | cons col rest ih =>
    by_cases h : hitsCell g i (row, col)
    · rw [alienColLoop_cons_hit i row col rest g h]
      exact hitAlien_freshOrSame i row col g
    · rw [alienColLoop_cons_miss i row col rest g h]
      exact ih

theorem playerBulletsVsAliens_freshOrSame (g : Game) :
    FreshOrSame g (playerBulletsVsAliens g) := by
  refine forFin_invariant (fun k : Game => FreshOrSame g k) playerBulletVsAliens ?_ g
    (FreshOrSame_refl g)
  intro i k hk
  unfold playerBulletVsAliens
  split
  · refine forFin_invariant (fun k : Game => FreshOrSame g k) _ ?_ k hk
    intro row k hk
    exact FreshOrSame_trans hk (alienColLoop_freshOrSame i row _ k)
  · exact hk

theorem alienBulletsVsPlayer_freshOrSame (l : List ASlot) (g : Game) :
    FreshOrSame g (alienBulletsVsPlayer l g) := by
  induction l with
  | nil => exact FreshOrSame_refl g
  | cons i rest ih =>
    unfold alienBulletsVsPlayer
    split
    · exact hitPlayer_freshOrSame i g
    · exact ih

/-- A collision pass leaves every active explosion as it is; an inactive slot
is unchanged or holds an explosion just created. -/
theorem CheckCollisions_freshOrSame (g : Game) : FreshOrSame g (CheckCollisions g) := by
  unfold CheckCollisions
  refine FreshOrSame_trans (playerBulletsVsAliens_freshOrSame g) ?_
  generalize playerBulletsVsAliens g = g1
  refine FreshOrSame_trans (alienBulletsVsPlayer_freshOrSame (List.finRange 8) g1) ?_
  generalize alienBulletsVsPlayer (List.finRange 8) g1 = g2
  obtain ⟨pb, sh, h3⟩ := playerBulletsVsShields_shape g2
  refine FreshOrSame_trans (FreshOrSame_of_eq g2 (playerBulletsVsShields g2) (by rw [h3])) ?_
  generalize playerBulletsVsShields g2 = g3
  obtain ⟨ab', sh', h4⟩ := alienBulletsVsShields_shape g3
  exact FreshOrSame_of_eq g3 _ (by rw [h4])

/-- The explosions before the collision pass of a playing tick: every slot of
`g` advanced by `explosionStep`. -/
theorem beforeCollisions_explosions (rand : Nat → Nat) (g : Game) (j : ESlot) :
    ((tickExplosions (tickAlienBullets (tickPlayerBullets
      (tickAlienShooting rand (tickMoveAliens g))))).explosions j) =
      explosionStep (g.explosions j) := by
  rw [tickExplosions_explosions]
  obtain ⟨al, d, pl, st, t, mt, h1, _⟩ := tickMoveAliens_shape g
  have e1 : (tickMoveAliens g).explosions = g.explosions := by rw [h1]
  rw [← e1]
  generalize tickMoveAliens g = g1
  obtain ⟨ab, t, h2⟩ := tickAlienShooting_shape rand g1
  have e2 : (tickAlienShooting rand g1).explosions = g1.explosions := by rw [h2]
  rw [← e2]
  generalize tickAlienShooting rand g1 = g2
  obtain ⟨pb, h3⟩ := tickPlayerBullets_shape g2
  have e3 : (tickPlayerBullets g2).explosions = g2.explosions := by rw [h3]
  rw [← e3]
  generalize tickPlayerBullets g2 = g3
  obtain ⟨ab', h4⟩ := tickAlienBullets_shape g3
  rw [h4]

theorem tickWinCondition_explosions (k : Game) :
    (tickWinCondition k).explosions = k.explosions := by
  unfold tickWinCondition
  split
  · simp only []
    split
    · rfl
    · rw [InitializeLevel_eq]
  · rfl

/-- One playing tick on the explosions: every slot is advanced by
`explosionStep`; a slot that is inactive after that may have been taken by an
explosion created in the collision pass of the tick. -/
theorem UpdateGame_explosions (rand : Nat → Nat) (g : Game) (h : g.state = .GAME_PLAYING)
    (j : ESlot) :
    (UpdateGame rand g).explosions j = explosionStep (g.explosions j) ∨
    ((explosionStep (g.explosions j)).active = false ∧
      ((UpdateGame rand g).explosions j).frame = 0 ∧
      ((UpdateGame rand g).explosions j).timer = 0 ∧
      ((UpdateGame rand g).explosions j).active = true) := by
  rw [UpdateGame_playing rand g h, tickWinCondition_explosions, tickUntilCollisions]
  have hc := CheckCollisions_freshOrSame (tickExplosions (tickAlienBullets (tickPlayerBullets
      (tickAlienShooting rand (tickMoveAliens g))))) j
  rw [beforeCollisions_explosions] at hc
  exact hc

theorem explosionStep_inBounds (e : Explosion)
    (h : e.active = true → 0 ≤ e.frame ∧ e.frame < 8 ∧ 0 ≤ e.timer ∧ e.timer < 4) :
    (explosionStep e).active = true →
      0 ≤ (explosionStep e).frame ∧ (explosionStep e).frame < 8 ∧
      0 ≤ (explosionStep e).timer ∧ (explosionStep e).timer < 4 := by
  unfold explosionStep
  simp only [EXPLOSION_DURATION, EXPLOSION_FRAMES]
  split
  · rename_i ha
    obtain ⟨h1, h2, h3, h4⟩ := h ha
    split
    · split
      · intro hh; simp at hh
      · intro _; simp only []; omega
    · intro _; simp only []; omega
  · intro hh; rename_i ha; exact absurd hh ha

theorem UpdateGame_inBounds (rand : Nat → Nat) (g : Game) (hg : ExplosionsInBounds g) :
    ExplosionsInBounds (UpdateGame rand g) := by
  by_cases hs : g.state = .GAME_PLAYING
  · intro j hj
    rcases UpdateGame_explosions rand g hs j with h | ⟨_, hf, ht, _⟩
    · rw [h] at hj ⊢
      exact explosionStep_inBounds _ (hg j) hj
    · rw [hf, ht]; decide
  · unfold UpdateGame
    rw [if_neg hs]
    split
    · simp only []
      split <;> exact hg
    · exact hg

theorem WindowProc_inBounds (m : Msg) (g : Game) (hg : ExplosionsInBounds g) :
    ExplosionsInBounds (WindowProc m g) := by
  cases m with
  | WM_TIMER rand => exact UpdateGame_inBounds rand g hg
  | WM_KEYDOWN key =>
    cases key with
    | VK_LEFT =>
      simp only [WindowProc]
      split
      · obtain ⟨x, hx⟩ := MovePlayer_shape (-1) g
        rw [hx]; exact hg
      · exact hg
    | VK_RIGHT =>
      simp only [WindowProc]
      split
      · obtain ⟨x, hx⟩ := MovePlayer_shape 1 g
        rw [hx]; exact hg
      · exact hg
    | VK_SPACE =>
      simp only [WindowProc]
      split
      · obtain ⟨pb, hpb⟩ := FirePlayerBullet_shape g
        rw [hpb]; exact hg
      · split
        · rw [InitializeLevel_eq]; exact hg
        · split
          · rw [InitializeGame_eq]
            intro i hi
            simp at hi
          · exact hg
    | VK_ESCAPE =>
      simp only [WindowProc]
      split
      · exact hg
      · exact hg

theorem reachable_inBounds (g : Game) (h : Reachable g) : ExplosionsInBounds g := by
  induction h with
  | init =>
    rw [InitializeGame_eq]
    intro i hi
    simp at hi
  | step m _ ih => exact WindowProc_inBounds m _ ih

theorem explosionStep_aged (e : Explosion) (he : e.active = true) (n : Nat) (hn : n < 31) :
    explosionStep (aged e n) = aged e (n + 1) := by
  unfold explosionStep aged
  simp only [he, EXPLOSION_DURATION, EXPLOSION_FRAMES, if_true]
  by_cases h3 : n % 4 = 3
  · have h1 : ((n % 4 : Nat) : Int) + 1 ≥ 4 := by omega
    have h2 : ¬ (((n / 4 : Nat) : Int) + 1 ≥ 8) := by omega
    rw [if_pos h1, if_neg h2]
    have e1 : (n + 1) / 4 = n / 4 + 1 := by omega
    have e2 : (n + 1) % 4 = 0 := by omega
    rw [e1, e2]
    simp
  · have h1 : ¬ (((n % 4 : Nat) : Int) + 1 ≥ 4) := by omega
    rw [if_neg h1]
    have e1 : (n + 1) / 4 = n / 4 := by omega
    have e2 : (n + 1) % 4 = n % 4 + 1 := by omega
    rw [e1, e2]
    simp

theorem explosionStep_last (e : Explosion) (he : e.active = true) :
    explosionStep (aged e 31) = ended e := by
  unfold explosionStep aged ended
  simp [he]

theorem aged_active (e : Explosion) (n : Nat) : (aged e n).active = e.active := rfl

theorem PlayingRun_cons (rand : Nat → Nat) (rest : List (Nat → Nat)) (g : Game) :
    PlayingRun (rand :: rest) g ↔
      g.state = .GAME_PLAYING ∧ PlayingRun rest (UpdateGame rand g) := by
  rw [PlayingRun]

theorem runTicks_cons (rand : Nat → Nat) (rest : List (Nat → Nat)) (g : Game) :
    runTicks (rand :: rest) g = runTicks rest (UpdateGame rand g) := rfl

/-- While an explosion is younger than 32 playing ticks its slot holds it,
aged by one step per tick. -/
theorem runTicks_aged (e : Explosion) (he : e.active = true) (i : ESlot) :
    ∀ (rands : List (Nat → Nat)) (g : Game) (n : Nat), PlayingRun rands g →
      g.explosions i = aged e n → n + rands.length ≤ 31 →
      (runTicks rands g).explosions i = aged e (n + rands.length) := by
  intro rands
  induction rands with
  | nil => intro g n _ hg _; exact hg
  | cons rand rest ih =>
    intro g n hrun hg hlen
    obtain ⟨hs, hrest⟩ := (PlayingRun_cons rand rest g).mp hrun
    rw [List.length_cons] at hlen ⊢
    have hstep : (UpdateGame rand g).explosions i = aged e (n + 1) := by
      rcases UpdateGame_explosions rand g hs i with h | ⟨hdead, _⟩
      · rw [h, hg, explosionStep_aged e he n (by omega)]
      · rw [hg, explosionStep_aged e he n (by omega), aged_active, he] at hdead
        exact absurd hdead (by decide)
    rw [runTicks_cons, ih (UpdateGame rand g) (n + 1) hrest hstep (by omega)]
    congr 1
    omega

/-- The 32nd playing tick ends the explosion: its slot is inactive, unless the
collision pass of that tick has created a new explosion in it. -/
theorem runTicks_ended (e : Explosion) (he : e.active = true) (i : ESlot) :
    ∀ (rands : List (Nat → Nat)) (g : Game) (n : Nat), PlayingRun rands g →
      g.explosions i = aged e n → n + rands.length = 32 → 0 < rands.length →
      (runTicks rands g).explosions i = ended e ∨
      (((runTicks rands g).explosions i).frame = 0 ∧
        ((runTicks rands g).explosions i).timer = 0 ∧
        ((runTicks rands g).explosions i).active = true) := by
  intro rands
  induction rands with
  | nil => intro g n _ _ _ hpos; exact absurd hpos (by decide)
  | cons rand rest ih =>
    intro g n hrun hg hlen _
    obtain ⟨hs, hrest⟩ := (PlayingRun_cons rand rest g).mp hrun
    rw [List.length_cons] at hlen
    rw [runTicks_cons]
    cases rest with
    | nil =>
      have hn : n = 31 := by simpa using hlen
      subst hn
      show (UpdateGame rand g).explosions i = ended e ∨
        (((UpdateGame rand g).explosions i).frame = 0 ∧
          ((UpdateGame rand g).explosions i).timer = 0 ∧
          ((UpdateGame rand g).explosions i).active = true)
      rcases UpdateGame_explosions rand g hs i with h | ⟨_, hf, ht, ha⟩
      · left
        rw [h, hg, explosionStep_last e he]
      · exact Or.inr ⟨hf, ht, ha⟩
    | cons r2 rest2 =>
      rw [List.length_cons] at hlen
      have hstep : (UpdateGame rand g).explosions i = aged e (n + 1) := by
        rcases UpdateGame_explosions rand g hs i with h | ⟨hdead, _⟩
        · rw [h, hg, explosionStep_aged e he n (by omega)]
        · rw [hg, explosionStep_aged e he n (by omega), aged_active, he] at hdead
          exact absurd hdead (by decide)
      exact ih (UpdateGame rand g) (n + 1) hrest hstep
        (by rw [List.length_cons]; omega) (by rw [List.length_cons]; omega)

theorem aged_zero (e : Explosion) (hf : e.frame = 0) (ht : e.timer = 0) : aged e 0 = e := by
  cases e
  simp only [aged] at *
  subst hf ht
  rfl

/-- C22: `CreateExplosion` activates the inactive explosion slot of least index
at the given point with `frame = 0` and `timer = 0` and writes nothing else,
and it changes nothing when all 20 slots are active; the bounds
`0 ≤ frame < 8` and `0 ≤ timer < 4` on the active explosions are kept by every
tick and key press and hold in every reachable state; and an explosion just
created is still in its slot after `n ≤ 31` playing ticks, with frame `n / 4`
and timer `n % 4`, and after the 32nd playing tick the slot is inactive unless
the collision pass of that tick has put a new explosion into it. -/
theorem explosion_lifecycle :
    (∀ (x y : Int) (g : Game), (∃ i : ESlot, (g.explosions i).active = false) →
      ∃ i : ESlot, (g.explosions i).active = false ∧
        (∀ j : ESlot, j < i → (g.explosions j).active = true) ∧
        CreateExplosion x y g =
          { g with explosions := Function.update g.explosions i ⟨x, y, 0, 0, true⟩ }) ∧
    (∀ (x y : Int) (g : Game), (∀ i : ESlot, (g.explosions i).active = true) →
      CreateExplosion x y g = g) ∧
    (∀ (m : Msg) (g : Game), ExplosionsInBounds g → ExplosionsInBounds (WindowProc m g)) ∧
    (∀ g : Game, Reachable g → ∀ i : ESlot, (g.explosions i).active = true →
      0 ≤ (g.explosions i).frame ∧ (g.explosions i).frame < 8 ∧
      0 ≤ (g.explosions i).timer ∧ (g.explosions i).timer < 4) ∧
    (∀ (g : Game) (i : ESlot) (rands : List (Nat → Nat)),
      (g.explosions i).active = true → (g.explosions i).frame = 0 →
      (g.explosions i).timer = 0 → PlayingRun rands g →
        (rands.length ≤ 31 →
          (runTicks rands g).explosions i = aged (g.explosions i) rands.length) ∧
        (rands.length = 32 →
          (runTicks rands g).explosions i = ended (g.explosions i) ∨
          (((runTicks rands g).explosions i).frame = 0 ∧
            ((runTicks rands g).explosions i).timer = 0 ∧
            ((runTicks rands g).explosions i).active = true))) := by
  refine ⟨CreateExplosion_first_free, CreateExplosion_full, WindowProc_inBounds,
    reachable_inBounds, ?_⟩
  intro g i rands ha hf ht hrun
  have h0 : g.explosions i = aged (g.explosions i) 0 := (aged_zero _ hf ht).symm
  constructor
  · intro hlen
    have := runTicks_aged (g.explosions i) ha i rands g 0 hrun h0 (by omega)
    rw [Nat.zero_add] at this
    exact this
  · intro hlen
    exact runTicks_ended (g.explosions i) ha i rands g 0 hrun h0 (by omega) (by omega)

/-- The previous theorem at `explodingGame` and 32 ticks in which `rand()`
returns 0: every tick starts in a playing state, and the explosion of slot 0
is gone after the 32nd. -/
theorem explosion_lifecycle_witness :
    PlayingRun (List.replicate 32 fun _ => 0) explodingGame ∧
    ((runTicks (List.replicate 32 fun _ => 0) explodingGame).explosions 0 =
        ended (explodingGame.explosions 0) ∨
      (((runTicks (List.replicate 32 fun _ => 0) explodingGame).explosions 0).frame = 0 ∧
        ((runTicks (List.replicate 32 fun _ => 0) explodingGame).explosions 0).timer = 0 ∧
        ((runTicks (List.replicate 32 fun _ => 0) explodingGame).explosions 0).active = true)) :=
  have hrun : PlayingRun (List.replicate 32 fun _ => 0) explodingGame := by
    set_option maxRecDepth 1000000 in decide
  ⟨hrun, (explosion_lifecycle.2.2.2.2 explodingGame 0 (List.replicate 32 fun _ => 0)
    rfl rfl rfl hrun).2 rfl⟩

/-! ## The formation stays on its grid -/

theorem shiftAlien_same (m : Int) (row : Row) (col : Col) (g : Game) :
    (shiftAlien m row col g).aliens row col = shiftOne m (g.aliens row col) := by
  unfold shiftAlien shiftOne
  split
  · simp [setAlien]
  · rfl

theorem shiftAlien_other (m : Int) (p q : Row × Col) (g : Game) (h : q ≠ p) :
    (shiftAlien m p.1 p.2 g).aliens q.1 q.2 = g.aliens q.1 q.2 := by
  unfold shiftAlien
  split
  · exact setAlien_aliens_other g p q _ h
  · rfl

theorem shiftRow_other (m : Int) (row r : Row) (g : Game) (h : r ≠ row) (c : Col) :
    ((forFin 11 (fun col => shiftAlien m row col) g).aliens r c) = g.aliens r c := by
  refine forFin_invariant (fun k : Game => k.aliens r c = g.aliens r c) _ ?_ g rfl
  intro col k hk
  rw [shiftAlien_other m (row, col) (r, c) k (fun hh => h (Prod.mk.inj hh).1)]
  exact hk

theorem shiftRow_same (m : Int) (row : Row) (g : Game) (c : Col) :
    ((forFin 11 (fun col => shiftAlien m row col) g).aliens row c) =
      shiftOne m (g.aliens row c) := by
  unfold forFin
  rw [foldl_pointwise (fun (k : Game) (col : Col) => k.aliens row col)
    (fun col => shiftAlien m row col) (shiftOne m)
    (fun col s => shiftAlien_same m row col s)
    (fun i j s h => shiftAlien_other m (row, i) (row, j) s
      (fun hh => h (Prod.mk.inj hh).2)) _ (List.nodup_finRange 11) g c]
  simp [List.mem_finRange]

theorem shiftRows_row (m : Int) (g : Game) (r : Row) :
    ((List.finRange 5).foldl
      (fun acc row => forFin 11 (fun col => shiftAlien m row col) acc) g).aliens r =
      fun c => shiftOne m (g.aliens r c) := by
  have h := foldl_pointwise (fun (k : Game) (row : Row) => k.aliens row)
    (fun (row : Row) (s : Game) => forFin 11 (fun col => shiftAlien m row col) s)
    (fun (rowf : Col → Alien) => fun c => shiftOne m (rowf c))
    (fun row s => funext fun c => shiftRow_same m row s c)
    (fun i j s h => funext fun c => shiftRow_other m i j s h c)
    (List.finRange 5) (List.nodup_finRange 5) g r
  rw [if_pos (List.mem_finRange r)] at h
  exact h

/-- The horizontal move loops shift every alien alive by `m` and leave the
dead ones where they are. -/
theorem shiftAliens_aliens (m : Int) (g : Game) (r : Row) (c : Col) :
    (forFin 5 (fun row => forFin 11 (fun col => shiftAlien m row col)) g).aliens r c =
      shiftOne m (g.aliens r c) := by
  rw [forFin, shiftRows_row]

theorem dropped_y (l : List (Row × Col)) (k : Game) (r : Row) (c : Col) :
    (dropped l k r c).y = (k.aliens r c).y ∨
    (dropped l k r c).y = (k.aliens r c).y + k.alienDropDistance := by
  unfold dropped
  split
  · exact Or.inr rfl
  · exact Or.inl rfl

/-- `MoveAliens` on a formation: either the aliens alive are again a formation,
or some alien reaches the player, the game is over, and every alien is where
it was or lower by `alienDropDistance`. -/
theorem MoveAliens_cells (g : Game) (hg : InFormation g) :
    InFormation (MoveAliens g) ∨
    ((MoveAliens g).state = .GAME_OVER ∧ (∃ p, reachesPlayer g p) ∧
      ∀ (r : Row) (c : Col),
        ((MoveAliens g).aliens r c).alive = (g.aliens r c).alive ∧
        ((MoveAliens g).aliens r c).x = (g.aliens r c).x ∧
        (((MoveAliens g).aliens r c).y = (g.aliens r c).y ∨
          ((MoveAliens g).aliens r c).y = (g.aliens r c).y + g.alienDropDistance)) := by
  obtain ⟨dx, dy, hgrid⟩ := hg
  by_cases hflag : shouldDropAndReverse g = true
  · by_cases hex : ∃ a ∈ allCells, reachesPlayer g a
    · obtain ⟨pre, p, post, hsplit, hp, hpre⟩ := exists_first (reachesPlayer g) allCells hex
      rw [MoveAliens_stop g hflag pre post p hsplit hpre hp]
      exact Or.inr ⟨rfl, ⟨p, hp⟩, fun r c =>
        ⟨dropped_alive _ g r c, dropped_x _ g r c, dropped_y _ g r c⟩⟩
    · have hsafe : ∀ p, ¬ reachesPlayer g p := fun p hp => hex ⟨p, mem_allCells p, hp⟩
      rw [MoveAliens_drop g hflag hsafe]
      left
      refine ⟨dx, dy + g.alienDropDistance, ?_⟩
      intro r c halive
      have ha : (g.aliens r c).alive = true := by
        rw [← dropped_alive allCells g r c]; exact halive
      have hval := dropped_mem allCells g (r, c) (mem_allCells _) ha
      obtain ⟨h1, h2, h3, h4, _⟩ := hgrid r c ha
      have hs : ¬ ((g.aliens r c).y + g.alienDropDistance + ALIEN_HEIGHT > g.playerY) :=
        fun hh => hsafe (r, c) ⟨ha, hh⟩
      simp only [ALIEN_HEIGHT] at hs
      show (dropped allCells g r c).x = _ ∧ (dropped allCells g r c).y = _ ∧
        0 ≤ (dropped allCells g r c).x ∧ (dropped allCells g r c).x + 40 ≤ 800 ∧
        (dropped allCells g r c).y + 40 ≤ g.playerY
      simp only [] at hval
      rw [hval]
      simp only []
      omega
  · have hdef : MoveAliens g = forFin 5 (fun row => forFin 11 (fun col => shiftAlien
        (if g.alienDirection = .DIR_RIGHT then ALIEN_MOVE_SPEED else -ALIEN_MOVE_SPEED)
        row col)) g := by
      rw [MoveAliens, if_neg hflag]
    have hnot := mt (shouldDropAndReverse_iff g).mpr hflag
    left
    obtain ⟨al, hshape⟩ := shiftAliens_shape
      (if g.alienDirection = .DIR_RIGHT then ALIEN_MOVE_SPEED else -ALIEN_MOVE_SPEED) g
    have hy : (MoveAliens g).playerY = g.playerY := by rw [hdef, hshape]
    have hal : ∀ r c, (MoveAliens g).aliens r c = shiftOne
        (if g.alienDirection = .DIR_RIGHT then ALIEN_MOVE_SPEED else -ALIEN_MOVE_SPEED)
        (g.aliens r c) := by
      intro r c; rw [hdef]; exact shiftAliens_aliens _ g r c
    refine ⟨dx + (if g.alienDirection = .DIR_RIGHT then ALIEN_MOVE_SPEED
      else -ALIEN_MOVE_SPEED), dy, ?_⟩
    intro r c halive
    rw [hy]
    rw [hal r c] at halive ⊢
    have ha : (g.aliens r c).alive = true := by
      unfold shiftOne at halive
      split at halive
      · assumption
      · exact halive
    obtain ⟨h1, h2, h3, h4, h5⟩ := hgrid r c ha
    unfold shiftOne
    rw [if_pos ha]
    simp only [ALIEN_MOVE_SPEED]
    cases hd : g.alienDirection with
    | DIR_RIGHT =>
      have hb : ¬ ((g.aliens r c).x + 40 + 2 > 800) := fun hh =>
        hnot (Or.inl ⟨hd, r, c, ha, hh⟩)
      simp only [if_true]
      omega
    | DIR_LEFT =>
      have hb : ¬ ((g.aliens r c).x - 2 < 0) := fun hh =>
        hnot (Or.inr ⟨hd, r, c, ha, hh⟩)
      simp only [reduceCtorEq, if_false]
      omega

/-- `MoveAliens` on a formation: either the formation reaches the player and the
game is over, or the aliens alive are again a formation. -/
theorem MoveAliens_formation (g : Game) (hg : InFormation g) :
    (MoveAliens g).state = .GAME_OVER ∨ InFormation (MoveAliens g) := by
  rcases MoveAliens_cells g hg with h | h
  · exact Or.inr h
  · exact Or.inl h.1

theorem Thinned_refl (g : Game) : Thinned g g := fun _ _ _ => rfl

theorem Thinned_trans {g k m : Game} (h1 : Thinned g k) (h2 : Thinned k m) : Thinned g m := by
  intro r c hm
  have e2 := h2 r c hm
  rw [e2] at hm ⊢
  exact h1 r c hm

theorem Thinned_of_aliens (g k : Game) (h : k.aliens = g.aliens) : Thinned g k := by
  intro r c _; rw [h]

theorem hitAlien_thinned (i : PSlot) (row : Row) (col : Col) (g : Game) :
    Thinned g (hitAlien i row col g) := by
  intro r c hal
  by_cases h : (r, c) = (row, col)
  · obtain ⟨rfl, rfl⟩ := Prod.mk.inj h
    rw [hitAlien_aliens_same] at hal
    simp at hal
  · exact hitAlien_aliens_other i (row, col) (r, c) g h

theorem alienColLoop_thinned (i : PSlot) (row : Row) (l : List Col) (g : Game) :
    Thinned g (alienColLoop i row l g) := by
  induction l with
  | nil => exact Thinned_refl g
  | cons col rest ih =>
    by_cases h : hitsCell g i (row, col)
    · rw [alienColLoop_cons_hit i row col rest g h]
      exact hitAlien_thinned i row col g
    · rw [alienColLoop_cons_miss i row col rest g h]
      exact ih

theorem playerBulletsVsAliens_thinned (g : Game) : Thinned g (playerBulletsVsAliens g) := by
  refine forFin_invariant (fun k : Game => Thinned g k) playerBulletVsAliens ?_ g
    (Thinned_refl g)
  intro i k hk
  unfold playerBulletVsAliens
  split
  · refine forFin_invariant (fun k : Game => Thinned g k) _ ?_ k hk
    intro row k hk
    exact Thinned_trans hk (alienColLoop_thinned i row _ k)
  · exact hk

/-- A collision pass moves no alien: those still alive are as before. -/
theorem CheckCollisions_thinned (g : Game) : Thinned g (CheckCollisions g) := by
  unfold CheckCollisions
  refine Thinned_trans (playerBulletsVsAliens_thinned g) ?_
  generalize playerBulletsVsAliens g = g1
  obtain ⟨ab, pl, ex, st, t, h2, _⟩ := alienBulletsVsPlayer_shape (List.finRange 8) g1
  refine Thinned_trans (Thinned_of_aliens g1 (alienBulletsVsPlayer (List.finRange 8) g1)
    (by rw [h2])) ?_
  generalize alienBulletsVsPlayer (List.finRange 8) g1 = g2
  obtain ⟨pb, sh, h3⟩ := playerBulletsVsShields_shape g2
  refine Thinned_trans (Thinned_of_aliens g2 (playerBulletsVsShields g2) (by rw [h3])) ?_
  generalize playerBulletsVsShields g2 = g3
  obtain ⟨ab', sh', h4⟩ := alienBulletsVsShields_shape g3
  exact Thinned_of_aliens g3 _ (by rw [h4])

/-- The part of a playing tick after the block "Move aliens": no alien moves,
`playerY` is kept, and the state is kept or becomes `GAME_OVER`. -/
theorem afterMove_thinned (rand : Nat → Nat) (g1 : Game) :
    Thinned g1 (CheckCollisions (tickExplosions (tickAlienBullets (tickPlayerBullets
      (tickAlienShooting rand g1))))) ∧
    TickFrame g1 (CheckCollisions (tickExplosions (tickAlienBullets (tickPlayerBullets
      (tickAlienShooting rand g1))))) := by
  refine ⟨?_, ((((tickAlienShooting_frame rand g1).trans
    (tickPlayerBullets_frame _)).trans (tickAlienBullets_frame _)).trans
    (tickExplosions_frame _)).trans (CheckCollisions_frame _)⟩
  refine Thinned_trans ?_ (CheckCollisions_thinned _)
  obtain ⟨ab, t, h2⟩ := tickAlienShooting_shape rand g1
  refine Thinned_trans (Thinned_of_aliens g1 (tickAlienShooting rand g1) (by rw [h2])) ?_
  generalize tickAlienShooting rand g1 = g2
  obtain ⟨pb, h3⟩ := tickPlayerBullets_shape g2
  refine Thinned_trans (Thinned_of_aliens g2 (tickPlayerBullets g2) (by rw [h3])) ?_
  generalize tickPlayerBullets g2 = g3
  obtain ⟨ab', h4⟩ := tickAlienBullets_shape g3
  refine Thinned_trans (Thinned_of_aliens g3 (tickAlienBullets g3) (by rw [h4])) ?_
  generalize tickAlienBullets g3 = g4
  obtain ⟨ex, h5⟩ := tickExplosions_shape g4
  exact Thinned_of_aliens g4 _ (by rw [h5])

theorem InFormation_thinned (g k : Game) (hg : InFormation g) (ht : Thinned g k)
    (hy : k.playerY = g.playerY) : InFormation k := by
  obtain ⟨dx, dy, hgrid⟩ := hg
  refine ⟨dx, dy, ?_⟩
  intro r c hal
  have e := ht r c hal
  rw [hy, e]
  rw [e] at hal
  exact hgrid r c hal

theorem InFormation_fresh (g : Game) (ha : g.aliens = freshAlien) (hy : g.playerY = 540) :
    InFormation g := by
  refine ⟨0, 0, ?_⟩
  intro r c _
  rw [ha, hy]
  have hr := r.isLt
  have hc := c.isLt
  simp only [freshAlien]
  omega

theorem tickMoveAliens_formation (g : Game) (hg : InFormation g) :
    (tickMoveAliens g).state = .GAME_OVER ∨ InFormation (tickMoveAliens g) := by
  unfold tickMoveAliens
  simp only []
  split
  · exact MoveAliens_formation _ hg
  · exact Or.inr hg

/-- A playing tick on a formation: if the state after the tick is still
`GAME_PLAYING`, the aliens alive are again a formation. -/
theorem UpdateGame_formation (rand : Nat → Nat) (g : Game) (hs : g.state = .GAME_PLAYING)
    (hy : g.playerY = 540) (hg : InFormation g)
    (hk : (UpdateGame rand g).state = .GAME_PLAYING) : InFormation (UpdateGame rand g) := by
  rw [UpdateGame_playing rand g hs] at hk ⊢
  have hy1 : (tickMoveAliens g).playerY = 540 := by
    rw [(tickMoveAliens_frame g).2.1]; exact hy
  have hform := tickMoveAliens_formation g hg
  obtain ⟨hthin, hframe⟩ := afterMove_thinned rand (tickMoveAliens g)
  have hdef : tickUntilCollisions rand g =
      CheckCollisions (tickExplosions (tickAlienBullets (tickPlayerBullets
        (tickAlienShooting rand (tickMoveAliens g))))) := by
    rw [tickUntilCollisions]
  rw [← hdef] at hthin hframe
  generalize tickUntilCollisions rand g = k at hk hthin hframe ⊢
  have hyk : k.playerY = 540 := by rw [hframe.2.1]; exact hy1
  by_cases h0 : k.alienCount = 0
  · rw [tickWinCondition_clear k h0] at hk ⊢
    by_cases hlev : k.level + 1 > 10
    · rw [if_pos hlev] at hk
      simp at hk
    · rw [if_neg hlev]
      exact InFormation_fresh _ (by rw [InitializeLevel_eq])
        (by rw [InitializeLevel_eq]; exact hyk)
  · have hw : tickWinCondition k = k := by rw [tickWinCondition, if_neg h0]
    rw [hw] at hk ⊢
    have hst : (tickMoveAliens g).state = .GAME_PLAYING := by
      rcases hframe.2.2.2.2.2.2 with h | h
      · rw [← h]; exact hk
      · rw [h] at hk; exact absurd hk (by decide)
    rcases hform with h | h
    · rw [hst] at h; exact absurd h (by decide)
    · exact InFormation_thinned _ k h hthin (by rw [hyk, hy1])

theorem InFormation_congr (g k : Game) (ha : k.aliens = g.aliens) (hy : k.playerY = g.playerY)
    (hg : InFormation g) : InFormation k :=
  InFormation_thinned g k hg (Thinned_of_aliens g k ha) hy

theorem WindowProc_formation (m : Msg) (g : Game) (hy : g.playerY = 540)
    (hinv : g.state = .GAME_PLAYING → InFormation g)
    (hk : (WindowProc m g).state = .GAME_PLAYING) : InFormation (WindowProc m g) := by
  cases m with
  | WM_TIMER rand =>
    by_cases hs : g.state = .GAME_PLAYING
    · exact UpdateGame_formation rand g hs hy (hinv hs) hk
    · simp only [WindowProc] at hk
      unfold UpdateGame at hk
      rw [if_neg hs] at hk
      split at hk
      · simp only [] at hk
        split at hk
        · simp at hk
        · rename_i hov _
          rw [hov] at hk
          exact absurd hk (by decide)
      · exact absurd hk hs
  | WM_KEYDOWN key =>
    cases key with
    | VK_LEFT =>
      simp only [WindowProc] at hk ⊢
      split
      · rename_i hs
        obtain ⟨x, hx⟩ := MovePlayer_shape (-1) g
        rw [hx]
        exact InFormation_congr g _ rfl rfl (hinv hs)
      · rename_i hs
        rw [if_neg hs] at hk
        exact absurd hk hs
    | VK_RIGHT =>
      simp only [WindowProc] at hk ⊢
      split
      · rename_i hs
        obtain ⟨x, hx⟩ := MovePlayer_shape 1 g
        rw [hx]
        exact InFormation_congr g _ rfl rfl (hinv hs)
      · rename_i hs
        rw [if_neg hs] at hk
        exact absurd hk hs
    | VK_SPACE =>
      simp only [WindowProc] at hk ⊢
      split
      · rename_i hs
        obtain ⟨pb, hpb⟩ := FirePlayerBullet_shape g
        rw [hpb]
        exact InFormation_congr g _ rfl rfl (hinv hs)
      · rename_i hs
        split
        · exact InFormation_fresh _ (by rw [InitializeLevel_eq])
            (by rw [InitializeLevel_eq]; exact hy)
        · split
          · exact InFormation_fresh _ (by rw [InitializeGame_eq]) (by rw [InitializeGame_eq])
          · rename_i hm ho
            rw [if_neg hs, if_neg hm, if_neg ho] at hk
            exact absurd hk hs
    | VK_ESCAPE =>
      simp only [WindowProc] at hk ⊢
      split
      · rename_i hs
        exact InFormation_congr g _ rfl rfl (hinv hs)
      · rename_i hs
        rw [if_neg hs] at hk
        exact absurd hk hs

/-- In every playing state of a running program the aliens alive are a
formation. -/
theorem reachable_inFormation (g : Game) (h : Reachable g) :
    g.state = .GAME_PLAYING → InFormation g := by
  induction h with
  | init =>
    intro hs
    rw [InitializeGame_zeroGame] at hs
    exact absurd hs (by decide)
  | step m hreach ih => exact WindowProc_formation m _ (reachable_constants _ hreach).2 ih

/-- C23: in every state with `state = GAME_PLAYING` reachable from
`InitializeGame` by key presses and ticks, every alien alive has `0 ≤ x`,
`x + 40 ≤ 800` and `y + 40 ≤ playerY`; any two aliens alive differ by 60 in `x`
per column and by 55 in `y` per row, as in the grid of `InitializeLevel`; and
so the rectangles of two different aliens alive have no point in common. -/
theorem reachable_formation (g : Game) (h : Reachable g) (hs : g.state = .GAME_PLAYING) :
    (∀ (r : Row) (c : Col), (g.aliens r c).alive = true →
      0 ≤ (g.aliens r c).x ∧ (g.aliens r c).x + 40 ≤ 800 ∧
      (g.aliens r c).y + 40 ≤ g.playerY) ∧
    (∀ (r r' : Row) (c c' : Col), (g.aliens r c).alive = true →
      (g.aliens r' c').alive = true →
      (g.aliens r c).x - (g.aliens r' c').x = 60 * ((c.val : Int) - c'.val) ∧
      (g.aliens r c).y - (g.aliens r' c').y = 55 * ((r.val : Int) - r'.val)) ∧
    (∀ p q : Row × Col, p ≠ q → (g.aliens p.1 p.2).alive = true →
      (g.aliens q.1 q.2).alive = true →
      ¬ touch (g.aliens p.1 p.2) (g.aliens q.1 q.2) ∧
      ¬ overlap (g.aliens p.1 p.2) (g.aliens q.1 q.2)) := by
  obtain ⟨dx, dy, hgrid⟩ := reachable_inFormation g h hs
  refine ⟨?_, ?_, ?_⟩
  · intro r c ha
    obtain ⟨_, _, h3, h4, h5⟩ := hgrid r c ha
    exact ⟨h3, h4, h5⟩
  · intro r r' c c' ha ha'
    obtain ⟨h1, h2, _⟩ := hgrid r c ha
    obtain ⟨h1', h2', _⟩ := hgrid r' c' ha'
    constructor <;> omega
  · intro p q hpq ha ha'
    obtain ⟨h1, h2, _⟩ := hgrid p.1 p.2 ha
    obtain ⟨h1', h2', _⟩ := hgrid q.1 q.2 ha'
    have hne : p.1.val ≠ q.1.val ∨ p.2.val ≠ q.2.val := by
      by_contra hcon
      push_neg at hcon
      exact hpq (Prod.ext (Fin.ext hcon.1) (Fin.ext hcon.2))
    unfold touch overlap
    simp only [ALIEN_WIDTH, ALIEN_HEIGHT]
    constructor <;> omega

/-- The previous theorem at the state in which the first game starts. -/
theorem reachable_formation_witness :
    (WindowProc (.WM_KEYDOWN .VK_SPACE) (InitializeGame zeroGame)).state = .GAME_PLAYING ∧
    (∀ (r : Row) (c : Col),
      ((WindowProc (.WM_KEYDOWN .VK_SPACE) (InitializeGame zeroGame)).aliens r c).alive = true →
      0 ≤ ((WindowProc (.WM_KEYDOWN .VK_SPACE) (InitializeGame zeroGame)).aliens r c).x ∧
      ((WindowProc (.WM_KEYDOWN .VK_SPACE) (InitializeGame zeroGame)).aliens r c).x + 40 ≤ 800 ∧
      ((WindowProc (.WM_KEYDOWN .VK_SPACE) (InitializeGame zeroGame)).aliens r c).y + 40 ≤
        (WindowProc (.WM_KEYDOWN .VK_SPACE) (InitializeGame zeroGame)).playerY) :=
  have hs : (WindowProc (.WM_KEYDOWN .VK_SPACE) (InitializeGame zeroGame)).state =
      .GAME_PLAYING := by set_option maxRecDepth 100000 in decide
  ⟨hs, (reachable_formation (WindowProc (.WM_KEYDOWN .VK_SPACE) (InitializeGame zeroGame))
    (Reachable.step _ Reachable.init) hs).1⟩

/-! ## `MoveAliens` at an edge -/

/-- C3: in a state with direction right and some alive enemy with
`x + 40 + 2 > 800` (or direction left and some alive enemy with `x - 2 < 0`),
in which no alive enemy has `y + 20 + 40 > playerY`, one `MoveAliens` call adds
20 to the `y` of every alive enemy, leaves every enemy's `x` (and every dead
enemy) unchanged, and flips the direction; no other field of the state
changes. The drop is the field `alienDropDistance`, which is 20 in the state
at hand (`hdist`) as in every state of the running program (last part of the
statement). -/
theorem MoveAliens_edge_drops_and_reverses (g : Game)
    (hdist : g.alienDropDistance = 20)
    (hedge :
      (g.alienDirection = .DIR_RIGHT ∧
        ∃ row col, (g.aliens row col).alive = true ∧ (g.aliens row col).x + 40 + 2 > 800) ∨
      (g.alienDirection = .DIR_LEFT ∧
        ∃ row col, (g.aliens row col).alive = true ∧ (g.aliens row col).x - 2 < 0))
    (hsafe : ∀ row col, (g.aliens row col).alive = true →
      ¬ ((g.aliens row col).y + 20 + 40 > g.playerY)) :
    (∀ row col, (g.aliens row col).alive = true →
      ((MoveAliens g).aliens row col).y = (g.aliens row col).y + 20) ∧
    (∀ row col, ((MoveAliens g).aliens row col).x = (g.aliens row col).x) ∧
    (∀ row col, (g.aliens row col).alive = false →
      (MoveAliens g).aliens row col = g.aliens row col) ∧
    (MoveAliens g).alienDirection = g.alienDirection.reversed ∧
    (MoveAliens g).alienDirection ≠ g.alienDirection ∧
    MoveAliens g =
      { g with aliens := (MoveAliens g).aliens, alienDirection := g.alienDirection.reversed } ∧
    (∀ k : Game, Reachable k → k.alienDropDistance = 20) := by
  have hflag : shouldDropAndReverse g = true := (shouldDropAndReverse_iff g).mpr hedge
  have hno : ∀ p, ¬ reachesPlayer g p := by
    rintro ⟨row, col⟩ ⟨halive, hreach⟩
    apply hsafe row col halive
    simpa [hdist] using hreach
  have heq := MoveAliens_drop g hflag hno
  refine ⟨?_, ?_, ?_, ?_, ?_, ?_, fun k hk => (reachable_constants k hk).1⟩
  · intro row col halive
    rw [heq]
    have := dropped_mem allCells g (row, col) (mem_allCells _) halive
    simp only at this
    simp [this, hdist]
  · intro row col
    rw [heq]
    exact dropped_x allCells g row col
  · intro row col hdead
    rw [heq]
    exact dropped_dead allCells g (row, col) (by simp [hdead])
  · rw [heq]
  · rw [heq]
    cases hd : g.alienDirection <;> simp [Direction.reversed]
  · rw [heq]

/-- The previous theorem at a formation standing at the right edge. -/
theorem MoveAliens_edge_drops_and_reverses_witness :
    (∀ row col, (edgeGame.aliens row col).alive = true →
      ((MoveAliens edgeGame).aliens row col).y = (edgeGame.aliens row col).y + 20) ∧
    (∀ row col, ((MoveAliens edgeGame).aliens row col).x = (edgeGame.aliens row col).x) ∧
    (∀ row col, (edgeGame.aliens row col).alive = false →
      (MoveAliens edgeGame).aliens row col = edgeGame.aliens row col) ∧
    (MoveAliens edgeGame).alienDirection = edgeGame.alienDirection.reversed ∧
    (MoveAliens edgeGame).alienDirection ≠ edgeGame.alienDirection ∧
    MoveAliens edgeGame =
      { edgeGame with aliens := (MoveAliens edgeGame).aliens,
                      alienDirection := edgeGame.alienDirection.reversed } ∧
    (∀ k : Game, Reachable k → k.alienDropDistance = 20) :=
  MoveAliens_edge_drops_and_reverses edgeGame rfl
    (Or.inl ⟨rfl, 0, 10, rfl, by decide⟩)
    (by
      intro row col _
      have h1 := row.isLt
      simp only [edgeGame, startGame, freshAlien]
      omega)

/-- C4: in a state in which `MoveAliens` decides to drop and some alive enemy
has `y + 20 + 40 > playerY`, `MoveAliens` ends with `playerLives = 0`,
`state = GAME_OVER` and `gameOverTimer = 0` and the direction as before; it
stops at the first such enemy `p` in row-major order: the alive enemies before
`p` and `p` itself stand 20 lower, the enemies after `p` are as before. The
drop is the field `alienDropDistance`, which is 20 in the state at hand
(`hdist`) as in every state of the running program (last part of the
statement). -/
theorem MoveAliens_reaches_player (g : Game)
    (hdist : g.alienDropDistance = 20)
    (hflag : shouldDropAndReverse g = true)
    (hlow : ∃ row col, (g.aliens row col).alive = true ∧
      (g.aliens row col).y + 20 + 40 > g.playerY) :
    (MoveAliens g).playerLives = 0 ∧
    (MoveAliens g).state = .GAME_OVER ∧
    (MoveAliens g).gameOverTimer = 0 ∧
    (MoveAliens g).alienDirection = g.alienDirection ∧
    (∃ pre p post, allCells = pre ++ p :: post ∧
      ((g.aliens p.1 p.2).alive = true ∧ (g.aliens p.1 p.2).y + 20 + 40 > g.playerY) ∧
      (∀ q ∈ pre, ¬ ((g.aliens q.1 q.2).alive = true ∧
        (g.aliens q.1 q.2).y + 20 + 40 > g.playerY)) ∧
      (∀ q ∈ pre, (g.aliens q.1 q.2).alive = true →
        ((MoveAliens g).aliens q.1 q.2).y = (g.aliens q.1 q.2).y + 20) ∧
      ((MoveAliens g).aliens p.1 p.2).y = (g.aliens p.1 p.2).y + 20 ∧
      (∀ q ∈ post, (MoveAliens g).aliens q.1 q.2 = g.aliens q.1 q.2)) ∧
    (∀ k : Game, Reachable k → k.alienDropDistance = 20) := by
  have hreach : ∀ q, reachesPlayer g q ↔
      ((g.aliens q.1 q.2).alive = true ∧ (g.aliens q.1 q.2).y + 20 + 40 > g.playerY) := by
    intro q
    simp [reachesPlayer, hdist]
  have hex : ∃ a ∈ allCells, reachesPlayer g a := by
    obtain ⟨row, col, h⟩ := hlow
    exact ⟨(row, col), mem_allCells _, (hreach (row, col)).mpr h⟩
  obtain ⟨pre, p, post, hsplit, hp, hpre⟩ := exists_first (reachesPlayer g) allCells hex
  have heq := MoveAliens_stop g hflag pre post p hsplit hpre hp
  have hnodup : (pre ++ p :: post).Nodup := hsplit ▸ allCells_nodup
  refine ⟨by rw [heq], by rw [heq], by rw [heq], by rw [heq], ⟨pre, p, post, hsplit,
    (hreach p).mp hp, fun q hq => fun h => hpre q hq ((hreach q).mpr h), ?_, ?_, ?_⟩,
    fun k hk => (reachable_constants k hk).1⟩
  · intro q hq halive
    rw [heq]
    have := dropped_mem (pre ++ [p]) g q (by simp [hq]) halive
    simp only at this
    simp [this, hdist]
  · rw [heq]
    have := dropped_mem (pre ++ [p]) g p (by simp) hp.1
    simp only at this
    simp [this, hdist]
  · intro q hq
    rw [heq]
    have hq' : q ∉ pre ++ [p] := by
      intro h
      rw [List.nodup_append] at hnodup
      obtain ⟨_, hn2, hdisj⟩ := hnodup
      rcases List.mem_append.mp h with h1 | h1
      · exact hdisj h1 (List.mem_cons_of_mem _ hq)
      · rw [List.mem_singleton] at h1
        subst h1
        exact (List.nodup_cons.mp hn2).1 hq
    exact dropped_not_mem (pre ++ [p]) g q hq'

/-- The previous theorem at a formation at the right edge whose bottom row is
one drop above the player. -/
theorem MoveAliens_reaches_player_witness :
    (MoveAliens lowGame).playerLives = 0 ∧
    (MoveAliens lowGame).state = .GAME_OVER ∧
    (MoveAliens lowGame).gameOverTimer = 0 ∧
    (MoveAliens lowGame).alienDirection = lowGame.alienDirection ∧
    (∃ pre p post, allCells = pre ++ p :: post ∧
      ((lowGame.aliens p.1 p.2).alive = true ∧
        (lowGame.aliens p.1 p.2).y + 20 + 40 > lowGame.playerY) ∧
      (∀ q ∈ pre, ¬ ((lowGame.aliens q.1 q.2).alive = true ∧
        (lowGame.aliens q.1 q.2).y + 20 + 40 > lowGame.playerY)) ∧
      (∀ q ∈ pre, (lowGame.aliens q.1 q.2).alive = true →
        ((MoveAliens lowGame).aliens q.1 q.2).y = (lowGame.aliens q.1 q.2).y + 20) ∧
      ((MoveAliens lowGame).aliens p.1 p.2).y = (lowGame.aliens p.1 p.2).y + 20 ∧
      (∀ q ∈ post, (MoveAliens lowGame).aliens q.1 q.2 = lowGame.aliens q.1 q.2)) ∧
    (∀ k : Game, Reachable k → k.alienDropDistance = 20) :=
  MoveAliens_reaches_player lowGame rfl
    ((shouldDropAndReverse_iff lowGame).mpr (Or.inl ⟨rfl, 0, 10, rfl, by decide⟩))
    ⟨4, 0, rfl, by decide⟩

/-! ## Bullets that come out of a collision pass -/

end SpaceInvaders
